import Mathlib

/-!
# Shiboken type database and header generator: a verification development

Shallow embedding of `typesystem.h` (type entries, `TypeDatabase`) and of
`headergenerator.cpp` (`HeaderGenerator`), followed by theorems about them.

Conventions of the embedding

* `QString` is `String`; the string algorithms of Qt that the code calls
  (`replace`, `split`, `indexOf`, `left`) are written over the character list
  `String.data` and wrapped for `String`.  They and `QTextStream` belong to the
  Qt library and follow its documented behaviour.
* An `int` counter that starts at 0 and is only incremented is a `Nat`: signed
  overflow is undefined in C++, so the embedding describes the runs in which
  the counter stays below `2^31`.
* A C++ pointer `T*` is `Option T`, the null pointer being `none`.
* `QList<T>` is `List T`; `QHash<QString, T>` is an association list in which
  the first pair with a given key is the live one.
* The class hierarchy below `TypeEntry` is flattened into one record: a tag
  for the dynamic class (it drives the virtual functions) and the data members
  of the subclasses that the modelled functions read.  A `static_cast` to a
  subclass reads the corresponding member.
-/

set_option autoImplicit false

/-! ## Qt strings -/

namespace QString

/-- Worker of `replace`: scans left to right; `skip` counts the characters of an
occurrence of `before` that was just replaced and still has to be stepped over. -/
def replaceAux (before after : List Char) : Nat → List Char → List Char
  | _, [] => []
  | skip + 1, _ :: cs => replaceAux before after skip cs
  | 0, c :: cs =>
    if before.isPrefixOf (c :: cs) then
      after ++ replaceAux before after (before.length - 1) cs
    else
      c :: replaceAux before after 0 cs

/-- Qt `QString::replace(const QString &before, const QString &after)`: every
occurrence of the literal text `before`, found from left to right without
overlap, is replaced by `after`.  (`before` is a non-empty literal at every
call in the sources.) -/
def replace (s before after : String) : String :=
  ⟨replaceAux before.data after.data 0 s.data⟩

/-- Qt `QString::SplitBehavior`. -/
inductive SplitBehavior where
  | KeepEmptyParts
  | SkipEmptyParts
deriving DecidableEq, Repr

/-- Adds a character in front of the first part of a list of parts. -/
def consHead (c : Char) : List (List Char) → List (List Char)
  | seg :: rest => (c :: seg) :: rest
  | [] => [[c]]

/-- Worker of `split`: the list of parts of the remaining text, the head of the
result being the part under construction; `skip` counts the characters of a
separator that still have to be stepped over. -/
def splitAux (sep : List Char) : Nat → List Char → List (List Char)
  | _, [] => [[]]
  | skip + 1, _ :: cs => splitAux sep skip cs
  | 0, c :: cs =>
    if sep.isPrefixOf (c :: cs) then
      [] :: splitAux sep (sep.length - 1) cs
    else
      consHead c (splitAux sep 0 cs)

/-- Qt `QString::split(const QString &sep, SplitBehavior behavior)`: the parts
of the string between the occurrences of `sep`; with `SkipEmptyParts` the empty
parts are left out. -/
def split (s sep : String) (behavior : SplitBehavior) : List String :=
  let parts := splitAux sep.data 0 s.data
  match behavior with
  | .KeepEmptyParts => parts.map String.mk
  | .SkipEmptyParts => (parts.filter (fun p => !p.isEmpty)).map String.mk

/-- Worker of `indexOf`: `i` is the index of the head of the remaining text. -/
def indexOfAux (str : List Char) : List Char → Nat → Int
  | [], i => if str.isEmpty then (i : Int) else -1
  | c :: cs, i => if str.isPrefixOf (c :: cs) then (i : Int) else indexOfAux str cs (i + 1)

/-- Qt `QString::indexOf(const QString &str, int from)`: the index of the first
occurrence of `str` at or after index `start`, or `-1`.  (The sources only pass
a non-negative `from`.) -/
def indexOf (s str : String) (start : Nat) : Int :=
  if s.length < start then -1 else indexOfAux str.data (s.data.drop start) start

/-- Qt `QString::left(int n)`: the `n` leftmost characters; the whole string
when `n` is negative or exceeds the size. -/
def left (s : String) (n : Int) : String :=
  if n < 0 ∨ (s.length : Int) < n then s else ⟨s.data.take n.toNat⟩

/-- Qt `QString::toUpper()`.  The model upper-cases the letters `a` to `z` and
leaves every other character as it is. -/
def toUpper (s : String) : String := ⟨s.data.map Char.toUpper⟩

end QString

/-! ## `QHash` -/

/-- `QHash<QString, T>` as an association list. -/
abbrev QHash (T : Type) := List (String × T)

namespace QHash

variable {T : Type}

/-- `QHash::value(key)`: the stored value, or a default-constructed one. -/
def value [Inhabited T] : QHash T → String → T
  | [], _ => default
  | (k, v) :: rest, key => if k = key then v else value rest key

/-- Assignment through `QHash::operator[]`: the value stored under `key`
becomes `v`; the key is inserted when it is absent. -/
def assign : QHash T → String → T → QHash T
  | [], key, v => [(key, v)]
  | (k, w) :: rest, key, v => if k = key then (k, v) :: rest else (k, w) :: assign rest key v

/-- `QHash::keys()`. -/
def keys (h : QHash T) : List String := h.map Prod.fst

end QHash

/-! ## Type entries (`typesystem.h`) -/

/-- Enumeration `Include::IncludeType`. -/
inductive Include.IncludeType where
  | IncludePath
  | LocalPath
  | TargetLangImport
deriving DecidableEq, Repr

/-- Struct `Include`; the default values are those of the constructor
`Include()`. -/
structure Include where
  type : Include.IncludeType := .IncludePath
  name : String := ""
deriving DecidableEq, Repr

/-- `Include::isValid()`. -/
def Include.isValid (i : Include) : Bool := !i.name.isEmpty

/-- Enumeration `TypeEntry::Type`. -/
inductive TypeEntryType where
  | PrimitiveType
  | VoidType
  | VarargsType
  | FlagsType
  | EnumType
  | TemplateArgumentType
  | ThreadType
  | BasicValueType
  | StringType
  | ContainerType
  | InterfaceType
  | ObjectType
  | NamespaceType
  | VariantType
  | JObjectWrapperType
  | CharType
  | ArrayType
  | TypeSystemType
  | CustomType
  | TargetLangType
deriving DecidableEq, Repr

/-- The dynamic class of a type entry object; it selects the override of each
virtual member function. -/
inductive TypeEntryClass where
  | TypeEntry
  | TypeSystemTypeEntry
  | VoidTypeEntry
  | VarargsTypeEntry
  | TemplateArgumentEntry
  | ArrayTypeEntry
  | PrimitiveTypeEntry
  | EnumTypeEntry
  | FlagsTypeEntry
  | ComplexTypeEntry
  | ContainerTypeEntry
  | NamespaceTypeEntry
  | ValueTypeEntry
  | StringTypeEntry
  | CharTypeEntry
  | VariantTypeEntry
  | InterfaceTypeEntry
  | ObjectTypeEntry
deriving DecidableEq, Repr

/-- Classes that derive from `ComplexTypeEntry` (the class itself included). -/
def TypeEntryClass.derivesComplexTypeEntry : TypeEntryClass → Bool
  | .ComplexTypeEntry | .ContainerTypeEntry | .NamespaceTypeEntry | .ValueTypeEntry
  | .StringTypeEntry | .CharTypeEntry | .VariantTypeEntry | .InterfaceTypeEntry
  | .ObjectTypeEntry => true
  | _ => false

/-- Classes that derive from `ValueTypeEntry` (the class itself included). -/
def TypeEntryClass.derivesValueTypeEntry : TypeEntryClass → Bool
  | .ValueTypeEntry | .StringTypeEntry | .CharTypeEntry | .VariantTypeEntry => true
  | _ => false

/-- Enumeration `TypeEntry::CodeGeneration`. -/
def TypeEntry.GenerateTargetLang : Nat := 0x0001
/-- Enumerator of `TypeEntry::CodeGeneration`. -/
def TypeEntry.GenerateCpp : Nat := 0x0002
/-- Enumerator of `TypeEntry::CodeGeneration`. -/
def TypeEntry.GenerateForSubclass : Nat := 0x0004
/-- Enumerator of `TypeEntry::CodeGeneration`. -/
def TypeEntry.GenerateNothing : Nat := 0
/-- Enumerator of `TypeEntry::CodeGeneration`. -/
def TypeEntry.GenerateAll : Nat := 0xffff
/-- Enumerator of `TypeEntry::CodeGeneration`. -/
def TypeEntry.GenerateCode : Nat := TypeEntry.GenerateTargetLang ||| TypeEntry.GenerateCpp

/-- Data members of a type entry object other than the link from an enum entry
to its flags entry: those of `TypeEntry` (`m_name`, `m_type`,
`m_codeGeneration`, `m_conversionRule`, `m_include`, `m_extraIncludes`,
`m_includesUsed`), of `PrimitiveTypeEntry` (`m_preferredTargetLangType`) and of
`ComplexTypeEntry` (`m_qualifiedCppName`), and of `EnumTypeEntry`
(`m_lowerBound`, `m_upperBound`).  `m_codeGeneration` is a `uint`;
`m_extraIncludes` is an `IncludeList`, i.e. `QList<Include>`, and
`m_includesUsed` a `QHash<QString, bool>`. -/
structure TypeEntryFields where
  dynamicClass : TypeEntryClass
  m_name : String
  m_type : TypeEntryType
  m_codeGeneration : Nat := TypeEntry.GenerateAll
  m_conversionRule : String := ""
  m_preferredTargetLangType : Bool := true
  m_qualifiedCppName : String := ""
  m_include : Include := {}
  m_extraIncludes : List Include := []
  m_includesUsed : QHash Bool := []
  m_lowerBound : String := ""
  m_upperBound : String := ""
deriving DecidableEq, Repr

/-- A type entry object.  `m_flags` is `EnumTypeEntry::m_flags`, the pointer to
the associated `FlagsTypeEntry`. -/
structure TypeEntry extends TypeEntryFields where
  m_flags : Option TypeEntry

namespace TypeEntry

/-- `TypeEntry::type()`. -/
def type (e : TypeEntry) : TypeEntryType := e.m_type

/-- `TypeEntry::isPrimitive()`. -/
def isPrimitive (e : TypeEntry) : Bool := e.m_type == TypeEntryType.PrimitiveType

/-- `TypeEntry::isEnum()`. -/
def isEnum (e : TypeEntry) : Bool := e.m_type == TypeEntryType.EnumType

/-- `TypeEntry::isFlags()`. -/
def isFlags (e : TypeEntry) : Bool := e.m_type == TypeEntryType.FlagsType

/-- `TypeEntry::isObject()`. -/
def isObject (e : TypeEntry) : Bool := e.m_type == TypeEntryType.ObjectType

/-- `TypeEntry::isNamespace()`. -/
def isNamespace (e : TypeEntry) : Bool := e.m_type == TypeEntryType.NamespaceType

/-- `TypeEntry::isContainer()`. -/
def isContainer (e : TypeEntry) : Bool := e.m_type == TypeEntryType.ContainerType

/-- `TypeEntry::name()`. -/
def name (e : TypeEntry) : String := e.m_name

/-- `TypeEntry::codeGeneration()`. -/
def codeGeneration (e : TypeEntry) : Nat := e.m_codeGeneration

/-- `TypeEntry::setCodeGeneration(uint cg)`. -/
def setCodeGeneration (e : TypeEntry) (cg : Nat) : TypeEntry :=
  { e with m_codeGeneration := cg }

/-- `TypeEntry::generateCode()`. -/
def generateCode (e : TypeEntry) : Bool :=
  e.m_codeGeneration != TypeEntry.GenerateForSubclass
    && e.m_codeGeneration != TypeEntry.GenerateNothing

/-- Virtual `isComplex()`: `false` in `TypeEntry`, overridden to `true` in
`ComplexTypeEntry`. -/
def isComplex (e : TypeEntry) : Bool := e.dynamicClass.derivesComplexTypeEntry

/-- Virtual `isValue()`: `false` in `TypeEntry`, overridden to `true` in
`ValueTypeEntry`. -/
def isValue (e : TypeEntry) : Bool := e.dynamicClass.derivesValueTypeEntry

/-- `PrimitiveTypeEntry::preferredTargetLangType()`, as reached through
`static_cast<PrimitiveTypeEntry *>(entry)`. -/
def preferredTargetLangType (e : TypeEntry) : Bool := e.m_preferredTargetLangType

/-- `PrimitiveTypeEntry::setPreferredTargetLangType(bool b)`. -/
def setPreferredTargetLangType (e : TypeEntry) (b : Bool) : TypeEntry :=
  { e with m_preferredTargetLangType := b }

/-- `EnumTypeEntry::flags()`. -/
def flags (e : TypeEntry) : Option TypeEntry := e.m_flags

/-- `EnumTypeEntry::setFlags(FlagsTypeEntry *flags)`. -/
def setFlags (e : TypeEntry) (flags : Option TypeEntry) : TypeEntry :=
  { e with m_flags := flags }

/-- `TypeEntry::conversionRule()`. -/
def conversionRule (e : TypeEntry) : String := e.m_conversionRule

/-- `TypeEntry::hasConversionRule()`. -/
def hasConversionRule (e : TypeEntry) : Bool := !e.m_conversionRule.isEmpty

/-- `TypeEntry::setConversionRule(const QString& conversionRule)`. -/
def setConversionRule (e : TypeEntry) (conversionRule : String) : TypeEntry :=
  { e with m_conversionRule := conversionRule }

/-- `TypeEntry::extraIncludes()`. -/
def extraIncludes (e : TypeEntry) : List Include := e.m_extraIncludes

/-- `TypeEntry::setExtraIncludes(const IncludeList &includes)`. -/
def setExtraIncludes (e : TypeEntry) (includes : List Include) : TypeEntry :=
  { e with m_extraIncludes := includes }

/-- `TypeEntry::addExtraInclude(const Include &include)`; the parameter is
named `inc` here. -/
def addExtraInclude (e : TypeEntry) (inc : Include) : TypeEntry :=
  if !QHash.value e.m_includesUsed inc.name then
    { e with
      m_extraIncludes := e.m_extraIncludes ++ [inc],
      m_includesUsed := QHash.assign e.m_includesUsed inc.name true }
  else e

/-- `EnumTypeEntry::isBoundsChecked()`. -/
def isBoundsChecked (e : TypeEntry) : Bool :=
  e.m_lowerBound.isEmpty && e.m_upperBound.isEmpty

/-- `EnumTypeEntry::upperBound()`. -/
def upperBound (e : TypeEntry) : String := e.m_upperBound

/-- `EnumTypeEntry::setUpperBound(const QString &bound)`. -/
def setUpperBound (e : TypeEntry) (bound : String) : TypeEntry :=
  { e with m_upperBound := bound }

/-- `EnumTypeEntry::lowerBound()`. -/
def lowerBound (e : TypeEntry) : String := e.m_lowerBound

/-- `EnumTypeEntry::setLowerBound(const QString &bound)`. -/
def setLowerBound (e : TypeEntry) (bound : String) : TypeEntry :=
  { e with m_lowerBound := bound }

/-- `TypeEntry::setInclude(const Include &inc)`. -/
def setInclude (e : TypeEntry) (inc : Include) : TypeEntry :=
  { e with m_include := inc }

/-- `InterfaceTypeEntry::interfaceName(const QString &name)`. -/
def interfaceName (name : String) : String := name ++ "Interface"

/-- Virtual `qualifiedCppName()`: `m_name` in `TypeEntry`, `m_qualifiedCppName`
in `ComplexTypeEntry`, that name without the interface suffix in
`InterfaceTypeEntry`.  `ContainerTypeEntry::qualifiedCppName()` is only declared
in `typesystem.h`; its result is the parameter `containerQualifiedCppName`. -/
def qualifiedCppName (containerQualifiedCppName : TypeEntryFields → String)
    (e : TypeEntry) : String :=
  match e.dynamicClass with
  | .ContainerTypeEntry => containerQualifiedCppName e.toTypeEntryFields
  | .InterfaceTypeEntry =>
    QString.left e.m_qualifiedCppName
      ((e.m_qualifiedCppName.length : Int) - ((interfaceName "").length : Int))
  | c => if c.derivesComplexTypeEntry then e.m_qualifiedCppName else e.m_name

end TypeEntry

/-- Constructor `TypeEntry(const QString &name, Type t)`. -/
def TypeEntry.new (name : String) (t : TypeEntryType) : TypeEntry :=
  { dynamicClass := .TypeEntry, m_name := name, m_type := t, m_flags := none }

/-- Constructor `PrimitiveTypeEntry(const QString &name)`. -/
def PrimitiveTypeEntry.new (name : String) : TypeEntry :=
  { dynamicClass := .PrimitiveTypeEntry, m_name := name, m_type := .PrimitiveType,
    m_preferredTargetLangType := true, m_flags := none }

/-- Constructor `EnumTypeEntry(const QString &nspace, const QString &enumName)`. -/
def EnumTypeEntry.new (nspace enumName : String) : TypeEntry :=
  { dynamicClass := .EnumTypeEntry,
    m_name := if nspace.isEmpty then enumName else nspace ++ "::" ++ enumName,
    m_type := .EnumType, m_flags := none }

/-- Constructor `FlagsTypeEntry(const QString &name)`. -/
def FlagsTypeEntry.new (name : String) : TypeEntry :=
  { dynamicClass := .FlagsTypeEntry, m_name := name, m_type := .FlagsType, m_flags := none }

/-- Constructor `ComplexTypeEntry(const QString &name, Type t)`, run for the
dynamic class `cls` (the class itself or one deriving from it). -/
def ComplexTypeEntry.newAs (cls : TypeEntryClass) (name : String) (t : TypeEntryType) :
    TypeEntry :=
  { dynamicClass := cls, m_name := QString.replace name ".*::" "", m_type := t,
    m_qualifiedCppName := name, m_flags := none }

/-- Constructor `ComplexTypeEntry(const QString &name, Type t)`. -/
def ComplexTypeEntry.new (name : String) (t : TypeEntryType) : TypeEntry :=
  ComplexTypeEntry.newAs .ComplexTypeEntry name t

/-- Constructor `ContainerTypeEntry(const QString &name, Type type)`; the
container kind is not modelled. -/
def ContainerTypeEntry.new (name : String) : TypeEntry :=
  (ComplexTypeEntry.newAs .ContainerTypeEntry name .ContainerType).setCodeGeneration
    TypeEntry.GenerateForSubclass

/-- Constructor `NamespaceTypeEntry(const QString &name)`. -/
def NamespaceTypeEntry.new (name : String) : TypeEntry :=
  ComplexTypeEntry.newAs .NamespaceTypeEntry name .NamespaceType

/-- Constructor `ValueTypeEntry(const QString &name)`. -/
def ValueTypeEntry.new (name : String) : TypeEntry :=
  ComplexTypeEntry.newAs .ValueTypeEntry name .BasicValueType

/-- Constructor `StringTypeEntry(const QString &name)`. -/
def StringTypeEntry.new (name : String) : TypeEntry :=
  (ComplexTypeEntry.newAs .StringTypeEntry name .StringType).setCodeGeneration
    TypeEntry.GenerateNothing

/-- Constructor `InterfaceTypeEntry(const QString &name)`. -/
def InterfaceTypeEntry.new (name : String) : TypeEntry :=
  ComplexTypeEntry.newAs .InterfaceTypeEntry name .InterfaceType

/-- Constructor `ObjectTypeEntry(const QString &name)`. -/
def ObjectTypeEntry.new (name : String) : TypeEntry :=
  ComplexTypeEntry.newAs .ObjectTypeEntry name .ObjectType

/-! ## `TypeDatabase` -/

/-- `TypeEntryHash`, i.e. `QHash<QString, QList<TypeEntry *> >`. -/
abbrev TypeEntryHash := QHash (List (Option TypeEntry))

/-- The data members of `TypeDatabase` read by the modelled functions. -/
structure TypeDatabase where
  m_suppressWarnings : Bool
  m_entries : TypeEntryHash
  m_suppressedWarnings : List String
  m_requiredTargetImports : List String

namespace TypeDatabase

/-- A database without entries, patterns or imports. -/
def empty (suppressWarnings : Bool) : TypeDatabase :=
  { m_suppressWarnings := suppressWarnings, m_entries := [], m_suppressedWarnings := [],
    m_requiredTargetImports := [] }

/-- `TypeDatabase::findTypes(const QString &name)`. -/
def findTypes (db : TypeDatabase) (name : String) : List (Option TypeEntry) :=
  db.m_entries.value name

/-- The `foreach` loop of `TypeDatabase::findType`. -/
def findType.loop : List (Option TypeEntry) → Option TypeEntry
  | [] => none
  | none :: entries => findType.loop entries
  | some entry :: entries =>
    if !entry.isPrimitive || entry.preferredTargetLangType then some entry
    else findType.loop entries

/-- `TypeDatabase::findType(const QString &name)`. -/
def findType (db : TypeDatabase) (name : String) : Option TypeEntry :=
  findType.loop (db.findTypes name)

/-- The `foreach` loop of `TypeDatabase::findPrimitiveType`. -/
def findPrimitiveType.loop : List (Option TypeEntry) → Option TypeEntry
  | [] => none
  | none :: entries => findPrimitiveType.loop entries
  | some entry :: entries =>
    if entry.isPrimitive && entry.preferredTargetLangType then some entry
    else findPrimitiveType.loop entries

/-- `TypeDatabase::findPrimitiveType(const QString &name)`. -/
def findPrimitiveType (db : TypeDatabase) (name : String) : Option TypeEntry :=
  findPrimitiveType.loop (db.findTypes name)

/-- `TypeDatabase::findComplexType(const QString &name)`. -/
def findComplexType (db : TypeDatabase) (name : String) : Option TypeEntry :=
  match db.findType name with
  | some entry => if entry.isComplex then some entry else none
  | none => none

/-- `TypeDatabase::findObjectType(const QString &name)`. -/
def findObjectType (db : TypeDatabase) (name : String) : Option TypeEntry :=
  match db.findType name with
  | some entry => if entry.isObject then some entry else none
  | none => none

/-- `TypeDatabase::findNamespaceType(const QString &name)`. -/
def findNamespaceType (db : TypeDatabase) (name : String) : Option TypeEntry :=
  match db.findType name with
  | some entry => if entry.isNamespace then some entry else none
  | none => none

/-- `TypeDatabase::allEntries()`. -/
def allEntries (db : TypeDatabase) : TypeEntryHash := db.m_entries

/-- `TypeDatabase::entries()`; the result is a `SingleTypeEntryHash`, i.e. a
`QHash<QString, TypeEntry *>`. -/
def entries (db : TypeDatabase) : QHash (Option TypeEntry) :=
  let entries := db.allEntries
  let keys := QHash.keys entries
  keys.foldl (fun returned key => QHash.assign returned key (db.findType key)) []

/-- `TypeDatabase::addType(TypeEntry *e)`; `e` is dereferenced, hence not null. -/
def addType (containerQualifiedCppName : TypeEntryFields → String)
    (db : TypeDatabase) (e : TypeEntry) : TypeDatabase :=
  let key := e.qualifiedCppName containerQualifiedCppName
  { db with m_entries := db.m_entries.assign key (db.m_entries.value key ++ [some e]) }

/-- `TypeDatabase::setSuppressWarnings(bool on)`. -/
def setSuppressWarnings (db : TypeDatabase) (enabled : Bool) : TypeDatabase :=
  { db with m_suppressWarnings := enabled }

/-- `TypeDatabase::addSuppressedWarning(const QString &s)`. -/
def addSuppressedWarning (db : TypeDatabase) (s : String) : TypeDatabase :=
  { db with m_suppressedWarnings := db.m_suppressedWarnings ++ [s] }

/-- `TypeDatabase::requiredTargetImports()`. -/
def requiredTargetImports (db : TypeDatabase) : List String := db.m_requiredTargetImports

/-- `TypeDatabase::addRequiredTargetImport(const QString &moduleName)`. -/
def addRequiredTargetImport (db : TypeDatabase) (moduleName : String) : TypeDatabase :=
  if !db.m_requiredTargetImports.contains moduleName then
    { db with m_requiredTargetImports := db.m_requiredTargetImports ++ [moduleName] }
  else db

/-- The placeholder that stands for an escaped asterisk while a pattern is
split (a string literal of `isSuppressedWarning`). -/
def place_holder_for_asterisk : String := "&place_holder_for_asterisk;"

/-- The `while (pos != -1)` loop of `isSuppressedWarning`: `segs` are the
segments from index `i` on and `pos` is the last result of `indexOf`.  The
result is `true` for `return true` and `false` when the loop is left. -/
def isSuppressedWarning.scan (s : String) : List String → Int → Bool
  | [], pos => pos != -1
  | seg :: segs, pos =>
    if pos != -1 then
      isSuppressedWarning.scan s segs
        (QString.indexOf s (QString.replace seg place_holder_for_asterisk "*") pos.toNat)
    else false

/-- One iteration of the `foreach` loop of `isSuppressedWarning`, for the stored
pattern `_warning`: `true` for `return true`, `false` when the iteration ends
(by `continue` or by leaving the `while` loop). -/
def isSuppressedWarning.iteration (s _warning : String) : Bool :=
  let warning := QString.replace _warning "\\*" place_holder_for_asterisk
  let segs := QString.split warning "*" .SkipEmptyParts
  match segs with
  | [] => false
  | seg :: segs =>
    isSuppressedWarning.scan s segs
      (QString.indexOf s (QString.replace seg place_holder_for_asterisk "*") 0)

/-- The texts that one iteration searches for, in order: the non-empty parts
of the escaped pattern, each with the placeholder turned back into an
asterisk. -/
def isSuppressedWarning.segments (_warning : String) : List String :=
  (QString.split (QString.replace _warning "\\*" place_holder_for_asterisk) "*"
    .SkipEmptyParts).map (fun seg => QString.replace seg place_holder_for_asterisk "*")

/-- The `foreach` loop of `isSuppressedWarning`. -/
def isSuppressedWarning.loop (s : String) : List String → Bool
  | [] => false
  | _warning :: rest =>
    if isSuppressedWarning.iteration s _warning then true
    else isSuppressedWarning.loop s rest

/-- `TypeDatabase::isSuppressedWarning(const QString &s)`. -/
def isSuppressedWarning (db : TypeDatabase) (s : String) : Bool :=
  if !db.m_suppressWarnings then false
  else isSuppressedWarning.loop s db.m_suppressedWarnings

end TypeDatabase

/-- An entry that `findType` passes over: a primitive entry whose
`preferredTargetLangType()` is `false`. -/
def TypeEntry.isNonPreferredPrimitive (e : TypeEntry) : Bool :=
  e.isPrimitive && !e.preferredTargetLangType

/-! ## `QTextStream` -/

/-- Qt `QTextStream::FieldAlignment`. -/
inductive FieldAlignment where
  | AlignLeft
  | AlignRight
  | AlignCenter
  | AlignAccountingStyle
deriving DecidableEq, Repr

/-- A `QTextStream` that writes to a string: the text written so far and the
formatting state (field width, field alignment, pad character). -/
structure QTextStream where
  string : String
  fieldWidth : Nat
  fieldAlignment : FieldAlignment
  padChar : Char
deriving DecidableEq, Repr

namespace QTextStream

/-- `QTextStream(QString *string)`: width 0, right alignment, pad with blanks. -/
def new (string : String) : QTextStream :=
  { string := string, fieldWidth := 0, fieldAlignment := .AlignRight, padChar := ' ' }

/-- `QTextStream::setFieldWidth(int width)`. -/
def setFieldWidth (s : QTextStream) (width : Nat) : QTextStream :=
  { s with fieldWidth := width }

/-- `QTextStream::setFieldAlignment(FieldAlignment mode)`. -/
def setFieldAlignment (s : QTextStream) (mode : FieldAlignment) : QTextStream :=
  { s with fieldAlignment := mode }

/-- Padding of one written item to the field width of the stream. -/
def pad (s : QTextStream) (str : String) : String :=
  let padSize := s.fieldWidth - str.length
  match s.fieldAlignment with
  | .AlignLeft => str ++ "".pushn s.padChar padSize
  | .AlignRight => "".pushn s.padChar padSize ++ str
  | .AlignAccountingStyle => "".pushn s.padChar padSize ++ str
  | .AlignCenter =>
    "".pushn s.padChar (padSize / 2) ++ str ++ "".pushn s.padChar (padSize - padSize / 2)

/-- `operator<<(const QString &)`: the padded text is appended. -/
def putString (s : QTextStream) (str : String) : QTextStream :=
  { s with string := s.string ++ s.pad str }

/-- `operator<<(char)`. -/
def putChar (s : QTextStream) (c : Char) : QTextStream :=
  s.putString (String.singleton c)

/-- `operator<<(int)` for a non-negative value, written in base 10. -/
def putInt (s : QTextStream) (i : Nat) : QTextStream :=
  s.putString (toString i)

/-- The manipulator `endl`: a newline is written. -/
def endl (s : QTextStream) : QTextStream :=
  s.putChar '\n'

/-- The effect of a writer that is defined outside these sources (an
`operator<<` or a function that takes the stream): its text is appended; it is
taken to leave the formatting state of the stream as it found it. -/
def write (s : QTextStream) (text : String) : QTextStream :=
  { s with string := s.string ++ text }

end QTextStream

/-! ## The header generator (`headergenerator.cpp`) -/

/-- `AbstractMetaEnum`, as far as the header generator reads it: `typeEntry()`
is an `EnumTypeEntry*`. -/
structure AbstractMetaEnum where
  name : String
  typeEntry : Option TypeEntry

/-- `AbstractMetaClass`, as far as the header generator reads it.  `typeEntry()`
is dereferenced without a test wherever it is used, hence not null.  Of
`enclosingClass()` the header generator only tests whether it is null; the
enclosing class is represented by its qualified name. -/
structure AbstractMetaClass where
  qualifiedCppName : String
  typeEntry : TypeEntry
  isNamespace : Bool
  enums : List AbstractMetaEnum
  enclosingClass : Option String
  innerClasses : List AbstractMetaClass
  hasVirtualDestructor : Bool
  isQObject : Bool
  isAbstract : Bool := false

/-- `AbstractMetaType`, which is defined outside these sources: the header
generator only hands it on to naming and conversion functions. -/
structure AbstractMetaType where
  cppSignature : String
deriving DecidableEq, Repr

/-- `AbstractMetaArgument`, as far as the header generator reads it. -/
structure AbstractMetaArgument where
  name : String
  type : AbstractMetaType
deriving DecidableEq, Repr

/-- `AbstractMetaFunction`, as far as the header generator reads it: the
results of its query functions.  `type()` is the return type, null for a
function without one.  `ownerClass()` is dereferenced without a test. -/
structure AbstractMetaFunction where
  name : String
  ownerClass : AbstractMetaClass
  arguments : List AbstractMetaArgument
  type : Option AbstractMetaType
  isConstructor : Bool
  isCopyConstructor : Bool
  isUserAdded : Bool
  isPrivate : Bool
  isProtected : Bool
  isStatic : Bool
  isVirtual : Bool
  isAbstract : Bool
  isModifiedRemoved : Bool
  isConversionOperator : Bool

/-- The enumerators of `Generator::Options` that the header generator names. -/
inductive Generator.Options where
  | NoOption
  | OriginalTypeDescription
deriving DecidableEq, Repr

/-- What `HeaderGenerator` takes from its base classes, from the metamodel and
from the build: the class list `classes()`, the global enums `globalEnums()`,
the module name `moduleName()`, and the functions that are defined outside
these sources.

* `AVOID_PROTECTED_HACK` tells whether that preprocessor macro is defined.
* `INDENT depth` is the text that `s << INDENT` writes at nesting depth
  `depth`; an `Indentation indent(INDENT)` object raises the depth by one for
  its scope.
* A function that writes to a stream (`writeFunctionCall`, `writeCodeSnips`,
  `writeToCppConversion`) is given by the text it writes.
* `cpythonCheckFunction` and `writeToCppConversion` are overloaded for a type
  entry or class and for an `AbstractMetaType`.
* `findClass name` is `classes().findClass(name)`. -/
structure HeaderGenerator where
  classes : List AbstractMetaClass
  globalEnums : List AbstractMetaEnum
  moduleName : String
  getTypeIndexVariableName : TypeEntry → String
  AVOID_PROTECTED_HACK : Bool
  INDENT : Nat → String
  licenseComment : String
  includeToString : Include → String
  wrapperName : AbstractMetaClass → String
  shouldGenerate : AbstractMetaClass → Bool
  shouldGenerateCppWrapper : AbstractMetaClass → Bool
  usePySideExtensions : Bool
  isCopyable : AbstractMetaClass → Bool
  filterFunctions : AbstractMetaClass → List AbstractMetaFunction
  functionSignature : AbstractMetaFunction → String → String → Generator.Options → String
  writeFunctionCall : AbstractMetaFunction → String
  writeCodeSnips : AbstractMetaClass → String
  cppApiVariableName : String
  cpythonCheckFunction : TypeEntry → String
  cpythonCheckFunctionOfType : AbstractMetaType → String
  implicitConversions : TypeEntry → List AbstractMetaFunction
  writeToCppConversionOfClass : AbstractMetaClass → String → String
  writeToCppConversionOfType : AbstractMetaType → String → String
  cpythonWrapperCPtr : TypeEntry → String → String
  getModuleHeaderFileName : String → String
  findClass : String → Option AbstractMetaClass

namespace HeaderGenerator

/-- `HeaderGenerator::writeTypeIndexDefineLine` on a non-null `typeEntry`.  The
stream `s` and the counter `idx` (an `int&`) are threaded through; the
recursive call is the one on `ete->flags()`. -/
def writeTypeIndexDefineLine.entry (g : HeaderGenerator) (s : QTextStream) :
    TypeEntry → Nat → QTextStream × Nat
  | ⟨fields, m_flags⟩, idx =>
    let typeEntry : TypeEntry := ⟨fields, m_flags⟩
    if !typeEntry.generateCode then (s, idx)
    else
      let s := s.setFieldAlignment .AlignLeft
      let s := s.putString "#define "
      let s := s.setFieldWidth 60
      let s := s.putString (g.getTypeIndexVariableName typeEntry)
      let s := s.setFieldWidth 0
      let s := ((s.putChar ' ').putInt idx).endl
      let idx := idx + 1
      if typeEntry.isEnum then
        match m_flags with
        | some flags => writeTypeIndexDefineLine.entry g s flags idx
        | none => (s, idx)
      else (s, idx)

/-- `HeaderGenerator::writeTypeIndexDefineLine(QTextStream& s, const TypeEntry*
typeEntry, int& idx)`. -/
def writeTypeIndexDefineLine (g : HeaderGenerator) (s : QTextStream)
    (typeEntry : Option TypeEntry) (idx : Nat) : QTextStream × Nat :=
  match typeEntry with
  | none => (s, idx)
  | some typeEntry => writeTypeIndexDefineLine.entry g s typeEntry idx

/-- `HeaderGenerator::writeTypeIndexDefine(QTextStream& s, const
AbstractMetaClass* metaClass, int& idx)`. -/
def writeTypeIndexDefine (g : HeaderGenerator) (s : QTextStream)
    (metaClass : AbstractMetaClass) (idx : Nat) : QTextStream × Nat :=
  if !metaClass.typeEntry.generateCode then (s, idx)
  else
    let r :=
      if !metaClass.isNamespace then g.writeTypeIndexDefineLine s (some metaClass.typeEntry) idx
      else (s, idx)
    metaClass.enums.foldl
      (fun r metaEnum => g.writeTypeIndexDefineLine r.1 metaEnum.typeEntry r.2) r

/-- The type index table of `HeaderGenerator::finishGeneration()`: the stream
`s_pts` from its creation up to the end of the `_IDX_COUNT` line, together with
the final counter.  `none` is the early return on an empty class list. -/
def finishGeneration.typeIndices (g : HeaderGenerator) : Option (QTextStream × Nat) :=
  if g.classes.isEmpty then none
  else
    let s_pts := QTextStream.new ""
    let s_pts := (s_pts.putString "// Type indices").endl
    let idx := 0
    let r := g.classes.foldl
      (fun r metaClass => g.writeTypeIndexDefine r.1 metaClass r.2) (s_pts, idx)
    let r := g.globalEnums.foldl
      (fun r metaEnum => g.writeTypeIndexDefineLine r.1 metaEnum.typeEntry r.2) r
    let s_pts := r.1
    let idx := r.2
    let s_pts := s_pts.putString "#define "
    let s_pts := s_pts.setFieldWidth 60
    let s_pts := s_pts.putString ("SBK_" ++ g.moduleName ++ "_IDX_COUNT")
    let s_pts := s_pts.setFieldWidth 0
    let s_pts := (((s_pts.putChar ' ').putInt idx).endl).endl
    some (s_pts, idx)

/-- `HeaderGenerator::writeCopyCtor(QTextStream& s, const AbstractMetaClass*
metaClass)`, called at nesting depth `depth`. -/
def writeCopyCtor (g : HeaderGenerator) (depth : Nat) (s : QTextStream)
    (metaClass : AbstractMetaClass) : QTextStream :=
  let s := ((((s.write (g.INDENT depth)).putString (g.wrapperName metaClass)).putString
    "(const ").putString metaClass.qualifiedCppName).putString "& self)"
  let s := (((s.putString " : ").putString metaClass.qualifiedCppName).putString "(self)").endl
  let s := ((s.write (g.INDENT depth)).putString "\x7b").endl
  (((s.write (g.INDENT depth)).putString "\x7d").endl).endl

/-- `HeaderGenerator::writeFunction(QTextStream& s, const AbstractMetaFunction*
func)`, called at nesting depth `depth`.  The block under
`#ifdef AVOID_PROTECTED_HACK` is part of the function when
`g.AVOID_PROTECTED_HACK` holds. -/
def writeFunction (g : HeaderGenerator) (depth : Nat) (s : QTextStream)
    (func : AbstractMetaFunction) : QTextStream :=
  if func.isCopyConstructor then s
  else if func.isConstructor && func.isUserAdded then s
  else
    let s :=
      if g.AVOID_PROTECTED_HACK && (func.isProtected && !func.isConstructor) then
        let s := ((s.write (g.INDENT depth)).putString "inline ").putString
          (if func.isStatic then "static " else "")
        let s := (s.putString (g.functionSignature func "" "_protected" .NoOption)).putString
          " \x7b "
        let s := ((s.putString (if func.type.isSome then "return " else "")).putString
          func.ownerClass.qualifiedCppName).putString "::"
        let s := s.write (g.writeFunctionCall func)
        (s.putString "; \x7d").endl
      else s
    if func.isPrivate || (func.isModifiedRemoved && !func.isAbstract) then s
    else if func.isConstructor || func.isAbstract || func.isVirtual then
      let s := s.write (g.INDENT depth)
      let virtualOption :=
        if func.isVirtual || func.isAbstract then Generator.Options.OriginalTypeDescription
        else Generator.Options.NoOption
      let s := if func.isVirtual || func.isAbstract then s.putString "virtual " else s
      ((s.putString (g.functionSignature func "" "" virtualOption)).putChar ';').endl
    else s

/-- `HeaderGenerator::generateClass(QTextStream& s, const AbstractMetaClass*
metaClass)`, called at nesting depth `depth`; the `Indentation` object of its
first statement raises the depth for the whole body.  `QString::replace`
changes `wrapperName` in place, so the name written in the class head and in
the destructor is the one with `::` replaced. -/
def generateClass (g : HeaderGenerator) (depth : Nat) (s : QTextStream)
    (metaClass : AbstractMetaClass) : QTextStream :=
  let depth := depth + 1
  let s := s.putString g.licenseComment
  let wrapperName := QString.replace (g.wrapperName metaClass) "::" "_"
  let headerGuard := QString.toUpper wrapperName
  let s := (((s.putString "#ifndef SBK_").putString headerGuard).putString "_H").endl
  let s := ((((s.putString "#define SBK_").putString headerGuard).putString "_H").endl).endl
  let s :=
    if !g.AVOID_PROTECTED_HACK then ((s.putString "#define protected public").endl).endl
    else s
  let s := ((s.putString "#include <shiboken.h>").endl).endl
  let s :=
    if metaClass.typeEntry.m_include.isValid then
      ((s.putString (g.includeToString metaClass.typeEntry.m_include)).endl).endl
    else s
  let s :=
    if g.shouldGenerateCppWrapper metaClass then
      let s :=
        if g.usePySideExtensions && metaClass.isQObject then
          s.putString "namespace PySide \x7b class DynamicQMetaObject; \x7d\n\n"
        else s
      let s := (s.putString "class ").putString wrapperName
      let s := (s.putString " : public ").putString metaClass.qualifiedCppName
      let s := ((((s.endl).putChar '{').endl).putString "public:").endl
      let s := if g.isCopyable metaClass then g.writeCopyCtor depth s metaClass else s
      let s := (g.filterFunctions metaClass).foldl (fun s func => g.writeFunction depth s func) s
      let s := (((((s.write (g.INDENT depth)).putString
        (if metaClass.hasVirtualDestructor then "virtual " else "")).putString "~").putString
        wrapperName).putString "();").endl
      let s := s.write (g.writeCodeSnips metaClass)
      let s :=
        if g.usePySideExtensions && metaClass.isQObject then
          let s := s.putString "public:\n"
          let s := (s.write (g.INDENT depth)).putString
            "virtual int qt_metacall(QMetaObject::Call call, int id, void** args);\n"
          let s := s.putString "private:\n"
          (s.write (g.INDENT depth)).putString
            "mutable PySide::DynamicQMetaObject* m_metaObject;\n"
        else s
      ((s.putString "\x7d;").endl).endl
    else s
  ((((s.putString "#endif // SBK_").putString headerGuard).putString "_H").endl).endl

/-- `HeaderGenerator::writeTypeCheckMacro(QTextStream& s, const TypeEntry*
type)` on a non-null `type`. -/
def writeTypeCheckMacro (g : HeaderGenerator) (s : QTextStream) (type : TypeEntry) :
    QTextStream :=
  let pyTypeName := g.cppApiVariableName ++ "[" ++ g.getTypeIndexVariableName type ++ "]"
  let checkFunction := g.cpythonCheckFunction type
  let s := ((s.putString "#define ").putString checkFunction).putString
    "(op) PyObject_TypeCheck(op, (PyTypeObject*)"
  let s := ((s.putString pyTypeName).putChar ')').endl
  let s := ((s.putString "#define ").putString checkFunction).putString
    "Exact(op) ((op)->ob_type == (PyTypeObject*)"
  ((s.putString pyTypeName).putChar ')').endl

/-- What the body of an enum loop of `finishGeneration` writes to `s_pts`: the
macros of the entry of the enum and of its flags entry, and a newline.  `none`
stands for undefined behaviour: `cppEnum->typeEntry()` is dereferenced, so a
null entry has no defined result. -/
def finishGeneration.enumMacros (g : HeaderGenerator) (s_pts : QTextStream)
    (cppEnum : AbstractMetaEnum) : Option QTextStream :=
  match cppEnum.typeEntry with
  | none => none
  | some typeEntry =>
    let s_pts := g.writeTypeCheckMacro s_pts typeEntry
    let s_pts :=
      match typeEntry.flags with
      | some flags => g.writeTypeCheckMacro s_pts flags
      | none => s_pts
    some s_pts.endl

/-- A `foreach` loop over enums in `finishGeneration`, as far as it writes to
`s_pts`. -/
def finishGeneration.enumsLoop (g : HeaderGenerator) :
    QTextStream → List AbstractMetaEnum → Option QTextStream
  | s_pts, [] => some s_pts
  | s_pts, cppEnum :: rest =>
    match finishGeneration.enumMacros g s_pts cppEnum with
    | none => none
    | some s_pts => finishGeneration.enumsLoop g s_pts rest

/-- The `foreach` loop over `metaClass->innerClasses()` in `finishGeneration`,
as far as it writes to `s_pts`. -/
def finishGeneration.innerClassesLoop (g : HeaderGenerator) :
    QTextStream → List AbstractMetaClass → QTextStream
  | s_pts, [] => s_pts
  | s_pts, innerClass :: rest =>
    if g.shouldGenerate innerClass then
      finishGeneration.innerClassesLoop g (g.writeTypeCheckMacro s_pts innerClass.typeEntry) rest
    else finishGeneration.innerClassesLoop g s_pts rest

/-- The second `foreach` loop over `classes()` in `finishGeneration`, as far as
it writes to `s_pts`. -/
def finishGeneration.classesLoop (g : HeaderGenerator) :
    QTextStream → List AbstractMetaClass → Option QTextStream
  | s_pts, [] => some s_pts
  | s_pts, metaClass :: rest =>
    let classType := metaClass.typeEntry
    if !g.shouldGenerate metaClass || metaClass.enclosingClass.isSome ||
        !(classType.isObject || classType.isValue || classType.isNamespace) then
      finishGeneration.classesLoop g s_pts rest
    else
      match finishGeneration.enumsLoop g s_pts metaClass.enums with
      | none => none
      | some s_pts =>
        let s_pts :=
          if !metaClass.isNamespace then
            let s_pts := finishGeneration.innerClassesLoop g s_pts metaClass.innerClasses
            g.writeTypeCheckMacro s_pts classType
          else s_pts
        finishGeneration.classesLoop g s_pts rest

/-- The text `pythonTypeStuff` that `HeaderGenerator::finishGeneration()`
builds through the stream `s_pts` and copies into the module header
(`s << pythonTypeStuff << endl`).  `none` when there is no such text: on the
early return for an empty class list, and when a null enum entry is
dereferenced. -/
def finishGeneration.pythonTypeStuff (g : HeaderGenerator) : Option String :=
  match finishGeneration.typeIndices g with
  | none => none
  | some (s_pts, _) =>
    let s_pts := (s_pts.putString
      "// This variable stores all python types exported by this module").endl
    let s_pts := ((((s_pts.putString "extern PyTypeObject** ").putString
      g.cppApiVariableName).putChar ';').endl).endl
    let s_pts := (s_pts.putString "// Useful macros").endl
    match finishGeneration.enumsLoop g s_pts g.globalEnums with
    | none => none
    | some s_pts =>
      match finishGeneration.classesLoop g s_pts g.classes with
      | none => none
      | some s_pts => some s_pts.string

/-- The `foreach` loop over `metaClass->innerClasses()` in `finishGeneration`,
as far as it writes to `s_cin`. -/
def finishGeneration.innerClassIncludesLoop (g : HeaderGenerator) :
    QTextStream → List AbstractMetaClass → QTextStream
  | s_cin, [] => s_cin
  | s_cin, innerClass :: rest =>
    if g.shouldGenerate innerClass then
      finishGeneration.innerClassIncludesLoop g
        ((s_cin.putString (g.includeToString innerClass.typeEntry.m_include)).endl) rest
    else finishGeneration.innerClassIncludesLoop g s_cin rest

/-- The second `foreach` loop over `classes()` in `finishGeneration`, as far as
it writes to `s_cin`.  `none` stands for undefined behaviour: the loop over the
enums of the class dereferences `cppEnum->typeEntry()`. -/
def finishGeneration.classIncludesLoop (g : HeaderGenerator) :
    QTextStream → List AbstractMetaClass → Option QTextStream
  | s_cin, [] => some s_cin
  | s_cin, metaClass :: rest =>
    let classType := metaClass.typeEntry
    if !g.shouldGenerate metaClass || metaClass.enclosingClass.isSome ||
        !(classType.isObject || classType.isValue || classType.isNamespace) then
      finishGeneration.classIncludesLoop g s_cin rest
    else
      let s_cin :=
        if metaClass.typeEntry.m_include.isValid then
          (s_cin.putString (g.includeToString metaClass.typeEntry.m_include)).endl
        else s_cin
      if metaClass.enums.all (fun cppEnum => cppEnum.typeEntry.isSome) then
        let s_cin :=
          if !metaClass.isNamespace then
            finishGeneration.innerClassIncludesLoop g s_cin metaClass.innerClasses
          else s_cin
        finishGeneration.classIncludesLoop g s_cin rest
      else none

/-- The text `classIncludes` that `HeaderGenerator::finishGeneration()` builds
through the stream `s_cin`.  `none` when there is no such text: on the early
return for an empty class list, and when the loop over the global enums or the
loop over the classes dereferences a null enum entry. -/
def finishGeneration.classIncludes (g : HeaderGenerator) : Option String :=
  if g.classes.isEmpty then none
  else if g.globalEnums.all (fun cppEnum => cppEnum.typeEntry.isSome) then
    match finishGeneration.classIncludesLoop g (QTextStream.new "") g.classes with
    | none => none
    | some s_cin => some s_cin.string
  else none

/-- The statements of `HeaderGenerator::finishGeneration()` that write the
class includes to the module header `s`. -/
def finishGeneration.classIncludeSection (g : HeaderGenerator) (s : QTextStream) :
    Option QTextStream :=
  match finishGeneration.classIncludes g with
  | none => none
  | some classIncludes =>
    some (((s.putString "// Class Includes").endl).putString classIncludes).endl

/-- The `foreach` loop of `HeaderGenerator::finishGeneration()` over the
values of `entries()`, which writes the conversion rules.  `none` stands for
undefined behaviour: `typeEntry->hasConversionRule()` on a null entry. -/
def finishGeneration.conversionRulesLoop :
    QTextStream → List (Option TypeEntry) → Option QTextStream
  | s, [] => some s
  | _, none :: _ => none
  | s, some typeEntry :: rest =>
    let s :=
      if typeEntry.hasConversionRule then
        let s := ((s.putString "// Conversion rule for: ").putString typeEntry.name).endl
        s.putString typeEntry.conversionRule
      else s
    finishGeneration.conversionRulesLoop s rest

/-- The statements of `HeaderGenerator::finishGeneration()` that write the user
defined converters to the module header `s`; `db` is
`TypeDatabase::instance()`. -/
def finishGeneration.userConverters (db : TypeDatabase) (s : QTextStream) :
    Option QTextStream :=
  let s := (s.putString
    "// User defined converters --------------------------------------------").endl
  finishGeneration.conversionRulesLoop s (db.entries.map Prod.snd)

/-- The statements of `HeaderGenerator::finishGeneration()` that write the
includes of the required modules to the module header `s`; `db` is
`TypeDatabase::instance()`. -/
def finishGeneration.moduleIncludes (g : HeaderGenerator) (db : TypeDatabase)
    (s : QTextStream) : QTextStream :=
  let requiredTargetImports := db.requiredTargetImports
  if !requiredTargetImports.isEmpty then
    let s := (s.putString "// Module Includes").endl
    let s := requiredTargetImports.foldl
      (fun s requiredModule =>
        (((s.putString "#include <").putString
          (g.getModuleHeaderFileName requiredModule)).putString ">").endl) s
    s.endl
  else s

/-- The implicit conversions that `writeTypeConverterImpl` collects in
`implicitConvs`: those of `implicitConversions(type)` that are not user
added. -/
def writeTypeConverterImpl.implicitConvs (g : HeaderGenerator) (type : TypeEntry) :
    List AbstractMetaFunction :=
  (g.implicitConversions type).filter (fun func => !func.isUserAdded)

/-- The check function that `writeTypeConverterImpl` writes for `ctor`: the
one of the owner class for a conversion operator, and else the one of
`ctor->arguments().first()->type()`.  `none` stands for undefined behaviour:
`first()` on an empty list. -/
def writeTypeConverterImpl.typeCheck (g : HeaderGenerator) (ctor : AbstractMetaFunction) :
    Option String :=
  if ctor.isConversionOperator then some (g.cpythonCheckFunction ctor.ownerClass.typeEntry)
  else
    match ctor.arguments with
    | [] => none
    | first :: _ => some (g.cpythonCheckFunctionOfType first.type)

/-- The text `toCppConv` that `writeTypeConverterImpl` obtains from
`writeToCppConversion` for `ctor`; `none` as for `typeCheck`. -/
def writeTypeConverterImpl.toCppConv (g : HeaderGenerator) (ctor : AbstractMetaFunction) :
    Option String :=
  if ctor.isConversionOperator then some (g.writeToCppConversionOfClass ctor.ownerClass "pyobj")
  else
    match ctor.arguments with
    | [] => none
    | first :: _ => some (g.writeToCppConversionOfType first.type "pyobj")

/-- The `foreach` loop of `writeTypeConverterImpl` that writes the body of
`isConvertible`; the `Indentation` object of the loop body raises the depth. -/
def writeTypeConverterImpl.isConvertibleLoop (g : HeaderGenerator) (depth : Nat) :
    QTextStream → Bool → List AbstractMetaFunction → Option QTextStream
  | s, _, [] => some s
  | s, isFirst, ctor :: rest =>
    let s := if isFirst then s else ((s.endl).write (g.INDENT (depth + 1))).putString " || "
    match writeTypeConverterImpl.typeCheck g ctor with
    | none => none
    | some check =>
      writeTypeConverterImpl.isConvertibleLoop g depth ((s.putString check).putString "(pyobj)")
        false rest

/-- The `foreach` loop of `writeTypeConverterImpl` that writes the branches of
`toCpp`; the `Indentation` objects of the loop body and of its inner block
raise the depth. -/
def writeTypeConverterImpl.toCppLoop (g : HeaderGenerator) (depth : Nat) (type : TypeEntry) :
    QTextStream → Bool → List AbstractMetaFunction → Option QTextStream
  | s, _, [] => some s
  | s, firstImplicitIf, ctor :: rest =>
    if ctor.isModifiedRemoved then
      writeTypeConverterImpl.toCppLoop g depth type s firstImplicitIf rest
    else
      let s := s.write (g.INDENT (depth + 1))
      let s := if firstImplicitIf then s else s.putString "else "
      match writeTypeConverterImpl.typeCheck g ctor, writeTypeConverterImpl.toCppConv g ctor with
      | some typeCheck, some toCppConv =>
        let s := (((s.putString "if (").putString typeCheck).putString "(pyobj))").endl
        let s := ((((((s.write (g.INDENT (depth + 2))).putString "return ").putString
          type.name).putChar '(').putString toCppConv).putString ");").endl
        writeTypeConverterImpl.toCppLoop g depth type s false rest
      | _, _ => none

/-- `HeaderGenerator::writeTypeConverterDecl(QTextStream& s, const TypeEntry*
type)` on a non-null `type`, called at nesting depth `depth`. -/
def writeTypeConverterDecl (g : HeaderGenerator) (depth : Nat) (s : QTextStream)
    (type : TypeEntry) : QTextStream :=
  let s := (s.putString "template<>").endl
  let metaClass := g.findClass type.name
  let isAbstractOrObjectType :=
    (match metaClass with
      | some metaClass => metaClass.isAbstract
      | none => false) || type.isObject
  let implicitConvs := (g.implicitConversions type).filter (fun func => !func.isUserAdded)
  let isValueTypeWithImplConversions := type.isValue && !implicitConvs.isEmpty
  let s := (((s.putString "struct Converter<").putString type.name).putString
    (if isAbstractOrObjectType then "*" else "")).putString " > : "
  let s :=
    if type.isEnum || type.isFlags then s.putString "Converter_CppEnum"
    else s.putString "ConverterBase"
  let s := ((((s.putChar '<').putString type.name).putString
    (if isAbstractOrObjectType then "*" else "")).putString " >").endl
  let s := (s.putChar '{').endl
  let s :=
    if isValueTypeWithImplConversions then
      let s := ((((s.write (g.INDENT depth)).putString "static ").putString
        type.name).putString " toCpp(PyObject* pyobj);").endl
      ((s.write (g.INDENT depth)).putString "static bool isConvertible(PyObject* pyobj);").endl
    else s
  (s.putString "\x7d;").endl

/-- `HeaderGenerator::writeTypeConverterImpl(QTextStream& s, const TypeEntry*
type)` on a non-null `type`, called at nesting depth `depth`.  `none` stands
for undefined behaviour (see `typeCheck`). -/
def writeTypeConverterImpl (g : HeaderGenerator) (depth : Nat) (s : QTextStream)
    (type : TypeEntry) : Option QTextStream :=
  if type.hasConversionRule then some s
  else
    let implicitConvs := writeTypeConverterImpl.implicitConvs g type
    let hasImplicitConversions := !implicitConvs.isEmpty
    if !hasImplicitConversions then some s
    else
      let s := (((s.putString "inline bool Shiboken::Converter<").putString type.name).putString
        " >::isConvertible(PyObject* pyobj)").endl
      let s := (s.putChar '{').endl
      let s := (s.write (g.INDENT depth)).putString "return "
      match writeTypeConverterImpl.isConvertibleLoop g depth s true implicitConvs with
      | none => none
      | some s =>
        let s := (s.putChar ';').endl
        let s := ((s.putChar '}').endl).endl
        let s := (((((s.putString "inline ").putString type.name).putString
          " Shiboken::Converter<").putString type.name).putString
          " >::toCpp(PyObject* pyobj)").endl
        let s := (s.putChar '{').endl
        let s := ((((s.write (g.INDENT depth)).putString
          "if (!Shiboken_TypeCheck(pyobj, ").putString type.name).putString ")) \x7b").endl
        match writeTypeConverterImpl.toCppLoop g depth type s true implicitConvs with
        | none => none
        | some s =>
          let s := ((s.write (g.INDENT depth)).putChar '}').endl
          let s := ((((s.write (g.INDENT depth)).putString "return *").putString
            (g.cpythonWrapperCPtr type "pyobj")).putChar ';').endl
          some (((s.putChar '}').endl).endl)

end HeaderGenerator

/-! ## Reference notions for the suppressed-warning patterns -/

namespace SuppressedWarning

/-- The text `str` occurs in `m` at index `q`. -/
def OccursAt (m str : String) (q : Nat) : Prop :=
  q ≤ m.length ∧ str.data <+: m.data.drop q

/-- Every segment occurs in `m`, in order, the first one at or after index
`start` and each further one starting no earlier than the end of the
occurrence of the segment before it. -/
def OccurInOrder (m : String) : List String → Nat → Prop
  | [], _ => True
  | seg :: segs, start =>
    ∃ q, start ≤ q ∧ OccursAt m seg q ∧ OccurInOrder m segs (q + seg.length)

/-- Every segment occurs in `m`, the first one at or after index `start` and
each further one starting no earlier than the start of the occurrence of the
segment before it. -/
def OccurFromStarts (m : String) : List String → Nat → Prop
  | [], _ => True
  | seg :: segs, start =>
    ∃ q, start ≤ q ∧ OccursAt m seg q ∧ OccurFromStarts m segs q

/-- Worker of `literalSegments`, written from the words of the specification:
the pattern is read from left to right; a backslash directly followed by an
asterisk is dropped and that asterisk is literal text (`escaped` is set while
it is read); every other asterisk ends the current segment. -/
def literalSegmentsAux : Bool → List Char → List (List Char)
  | _, [] => [[]]
  | true, c :: cs => QString.consHead c (literalSegmentsAux false cs)
  | false, c :: cs =>
    if c = '\\' ∧ cs.head? = some '*' then literalSegmentsAux true cs
    else if c = '*' then [] :: literalSegmentsAux false cs
    else QString.consHead c (literalSegmentsAux false cs)

/-- The literal segments of a pattern: the pattern split on its unescaped
asterisks, empty segments dropped. -/
def literalSegments (p : String) : List String :=
  ((literalSegmentsAux false p.data).filter (fun seg => !seg.isEmpty)).map String.mk

/-- A database with suppression enabled whose only stored pattern is `p`. -/
def singlePattern (p : String) : TypeDatabase :=
  ((TypeDatabase.empty false).setSuppressWarnings true).addSuppressedWarning p

end SuppressedWarning

/-! ## Reference text of the type index table -/

namespace HeaderGenerator

/-- The text of one type index define line as the claims describe it: the
index name, left-aligned in a field of 60 characters, and the index. -/
def typeIndexDefineLineText (name : String) (idx : Nat) : String :=
  "#define " ++ (name ++ "".pushn ' ' (60 - name.length)) ++ " " ++ toString idx ++ "\n"

/-- The define lines of the entries `entries`, numbered consecutively from
`first`: the `k`-th entry (counted from 1) carries the index `first + k - 1`. -/
def typeIndexDefineLinesText (g : HeaderGenerator) : List TypeEntry → Nat → String
  | [], _ => ""
  | entry :: entries, first =>
    typeIndexDefineLineText (g.getTypeIndexVariableName entry) first
      ++ typeIndexDefineLinesText g entries (first + 1)

/-- The `_IDX_COUNT` line: the macro name in a field of 60 characters and the
count.  The name is left-aligned once a define line has set the alignment of
the stream, and right-aligned (the default of a new stream) otherwise. -/
def typeIndexCountLineText (g : HeaderGenerator) (alignLeft : Bool) (count : Nat) : String :=
  let name := "SBK_" ++ g.moduleName ++ "_IDX_COUNT"
  let padding := "".pushn ' ' (60 - name.length)
  "#define " ++ (if alignLeft then name ++ padding else padding ++ name)
    ++ " " ++ toString count ++ "\n"

/-- The effect of a piece of the index assignment that starts with stream `s`
and counter `idx` and ends with `r`: it has appended the define lines of
`entries`, numbered from `idx`, has advanced the counter by their number, and
has left the field width and the pad character as they were; the alignment is
`AlignLeft` as soon as a line was written. -/
structure Emits (g : HeaderGenerator) (s : QTextStream) (idx : Nat) (r : QTextStream × Nat)
    (entries : List TypeEntry) : Prop where
  string_eq : r.1.string = s.string ++ typeIndexDefineLinesText g entries idx
  idx_eq : r.2 = idx + entries.length
  fieldWidth_eq : r.1.fieldWidth = s.fieldWidth
  padChar_eq : r.1.padChar = s.padChar
  fieldAlignment_eq :
    r.1.fieldAlignment = if entries.isEmpty then s.fieldAlignment else FieldAlignment.AlignLeft

end HeaderGenerator

/-! ## Reference notions for the sequence of indexed entries -/

namespace HeaderGenerator

/-- The entries that an enum contributes to the type indices, in the words of
the claim: the entry of the enum, when present and with `generateCode()`,
immediately followed by the flags entry of that enum, when present and with
`generateCode()`. -/
def indexedOfEnum (typeEntry : Option TypeEntry) : List TypeEntry :=
  match typeEntry with
  | none => []
  | some enumEntry =>
    if enumEntry.generateCode then
      enumEntry ::
        (match enumEntry.flags with
          | some flagsEntry => if flagsEntry.generateCode then [flagsEntry] else []
          | none => [])
    else []

/-- The entries that a class contributes to the type indices: nothing when its
entry does not generate code; else its own entry unless the class is a
namespace, then the entries of its enums in declaration order. -/
def indexedOfClass (metaClass : AbstractMetaClass) : List TypeEntry :=
  if metaClass.typeEntry.generateCode then
    (if metaClass.isNamespace then [] else [metaClass.typeEntry])
      ++ metaClass.enums.flatMap (fun metaEnum => indexedOfEnum metaEnum.typeEntry)
  else []

/-- The sequence of entries that consume a type index: the classes in
iteration order, and after all classes the global enums in order. -/
def indexedEntries (g : HeaderGenerator) : List TypeEntry :=
  g.classes.flatMap indexedOfClass
    ++ g.globalEnums.flatMap (fun metaEnum => indexedOfEnum metaEnum.typeEntry)

/-- The static type of `AbstractMetaEnum::typeEntry()`, which the flattened
record of an entry does not carry: the entry is an `EnumTypeEntry`, so
`isEnum()` holds for it, and its `flags()` is a `FlagsTypeEntry`, for which
`isEnum()` does not hold. -/
def enumEntryTyped : Option TypeEntry → Bool
  | none => true
  | some enumEntry =>
    enumEntry.isEnum &&
      (match enumEntry.flags with
        | some flagsEntry => !flagsEntry.isEnum
        | none => true)

/-- The static types of the metamodel: the entry of a class is not an enum
entry, and the entries of the enums are typed as `enumEntryTyped` says. -/
def typedMetamodel (g : HeaderGenerator) : Bool :=
  g.classes.all (fun metaClass =>
      !metaClass.typeEntry.isEnum &&
        metaClass.enums.all (fun metaEnum => enumEntryTyped metaEnum.typeEntry))
    && g.globalEnums.all (fun metaEnum => enumEntryTyped metaEnum.typeEntry)

end HeaderGenerator

/-! ## Reference text of the type-check macros -/

namespace HeaderGenerator

/-- The macro `<check>(op)` of an entry: the check of the instance or a
subclass, through the type array at the index name of the entry. -/
def instanceCheckMacroText (g : HeaderGenerator) (type : TypeEntry) : String :=
  "#define " ++ g.cpythonCheckFunction type ++ "(op) PyObject_TypeCheck(op, (PyTypeObject*)"
    ++ (g.cppApiVariableName ++ "[" ++ g.getTypeIndexVariableName type ++ "]") ++ ")\n"

/-- The macro `<check>Exact(op)` of an entry: the check of the exact type,
through the type array at the index name of the entry. -/
def exactCheckMacroText (g : HeaderGenerator) (type : TypeEntry) : String :=
  "#define " ++ g.cpythonCheckFunction type ++ "Exact(op) ((op)->ob_type == (PyTypeObject*)"
    ++ (g.cppApiVariableName ++ "[" ++ g.getTypeIndexVariableName type ++ "]") ++ ")\n"

/-- The entries of an enum for which `finishGeneration` writes the macros: the
entry of the enum and its flags entry. -/
def checkedOfEnum (metaEnum : AbstractMetaEnum) : List TypeEntry :=
  match metaEnum.typeEntry with
  | none => []
  | some enumEntry => enumEntry :: enumEntry.flags.toList

/-- The entries of a class for which `finishGeneration` writes the macros.  A
class counts when it passes `shouldGenerate`, has no enclosing class and has
an object, value or namespace entry: then the entries of its enums, and,
unless it is a namespace, the entries of its inner classes that pass
`shouldGenerate` and its own entry. -/
def checkedOfClass (g : HeaderGenerator) (metaClass : AbstractMetaClass) : List TypeEntry :=
  if g.shouldGenerate metaClass && !metaClass.enclosingClass.isSome &&
      (metaClass.typeEntry.isObject || metaClass.typeEntry.isValue ||
        metaClass.typeEntry.isNamespace) then
    metaClass.enums.flatMap checkedOfEnum
      ++ (if metaClass.isNamespace then []
          else ((metaClass.innerClasses.filter g.shouldGenerate).map
            (fun innerClass => innerClass.typeEntry)) ++ [metaClass.typeEntry])
  else []

/-- The entries for which `finishGeneration` writes the macros: those of the
global enums and those of the classes. -/
def checkedEntries (g : HeaderGenerator) : List TypeEntry :=
  g.globalEnums.flatMap checkedOfEnum ++ g.classes.flatMap (checkedOfClass g)

/-- The effect of a piece of `finishGeneration` on `s_pts`, from stream `s` to
stream `r`: text was appended, it contains both macros of every entry of
`entries`, and the field width is as it was. -/
structure WritesMacros (g : HeaderGenerator) (s r : QTextStream) (entries : List TypeEntry) :
    Prop where
  fieldWidth_eq : r.fieldWidth = s.fieldWidth
  appended : ∃ text : String, r.string = s.string ++ text ∧
    ∀ type ∈ entries, (instanceCheckMacroText g type).data <:+: text.data ∧
      (exactCheckMacroText g type).data <:+: text.data

end HeaderGenerator

/-! ## Reference text of the member declarations -/

namespace HeaderGenerator

/-- The inline forwarding declaration of a protected function: the signature
with the suffix `_protected`, `static ` for a static function, and a body that
calls the function of the owner class, behind `return ` for a function with a
return type. -/
def forwardingDeclarationText (g : HeaderGenerator) (depth : Nat)
    (func : AbstractMetaFunction) : String :=
  g.INDENT depth ++ "inline " ++ (if func.isStatic then "static " else "")
    ++ g.functionSignature func "" "_protected" .NoOption ++ " \x7b "
    ++ (if func.type.isSome then "return " else "")
    ++ func.ownerClass.qualifiedCppName ++ "::" ++ g.writeFunctionCall func ++ "; \x7d\n"

/-- The override declaration of a function: the signature, behind `virtual `
for a virtual or abstract function. -/
def overrideDeclarationText (g : HeaderGenerator) (depth : Nat)
    (func : AbstractMetaFunction) : String :=
  g.INDENT depth ++ (if func.isVirtual || func.isAbstract then "virtual " else "")
    ++ g.functionSignature func "" ""
        (if func.isVirtual || func.isAbstract then Generator.Options.OriginalTypeDescription
         else Generator.Options.NoOption)
    ++ ";\n"

/-- The text that `writeFunction` emits for a function, by the member emission
policy: nothing for a copy constructor and for a user-added constructor; else
the forwarding declaration of a protected function that is no constructor,
in the mode `AVOID_PROTECTED_HACK`, followed by the override declaration of a
constructor, abstract or virtual function that is neither private nor removed
without being abstract. -/
def memberText (g : HeaderGenerator) (depth : Nat) (func : AbstractMetaFunction) : String :=
  if func.isCopyConstructor || (func.isConstructor && func.isUserAdded) then ""
  else
    (if g.AVOID_PROTECTED_HACK && (func.isProtected && !func.isConstructor) then
        forwardingDeclarationText g depth func
      else "")
    ++ (if func.isPrivate || (func.isModifiedRemoved && !func.isAbstract) then ""
        else if func.isConstructor || func.isAbstract || func.isVirtual then
          overrideDeclarationText g depth func
        else "")

end HeaderGenerator

/-! ## Reference text of the converter functions -/

namespace HeaderGenerator

/-- The sources of a type in the words of the claims: its implicit conversions
that are not user added, in registration order. -/
def conversionSources (g : HeaderGenerator) (type : TypeEntry) : List AbstractMetaFunction :=
  (g.implicitConversions type).filter (fun source => !source.isUserAdded)

/-- A converting constructor has a first argument. -/
def sourceWellFormed (source : AbstractMetaFunction) : Bool :=
  source.isConversionOperator || !source.arguments.isEmpty

/-- The name of the check function of a source: the one of the owner class for
a conversion operator, the one of the type of the first argument for a
converting constructor. -/
def sourceCheckName (g : HeaderGenerator) (source : AbstractMetaFunction) : String :=
  if source.isConversionOperator then g.cpythonCheckFunction source.ownerClass.typeEntry
  else
    match source.arguments.head? with
    | some argument => g.cpythonCheckFunctionOfType argument.type
    | none => ""

/-- The conversion of `pyobj` through a source: from the owner class for a
conversion operator, from the type of the first argument for a converting
constructor. -/
def sourceConversionText (g : HeaderGenerator) (source : AbstractMetaFunction) : String :=
  if source.isConversionOperator then g.writeToCppConversionOfClass source.ownerClass "pyobj"
  else
    match source.arguments.head? with
    | some argument => g.writeToCppConversionOfType argument.type "pyobj"
    | none => ""

/-- The disjunct of a source in `isConvertible`: its type-check of `pyobj`. -/
def disjunctText (g : HeaderGenerator) (source : AbstractMetaFunction) : String :=
  sourceCheckName g source ++ "(pyobj)"

/-- The definition of `isConvertible` for `type`: its body returns the
disjunction of the disjuncts of the sources, in registration order, the
operator `||` opening a new line between two disjuncts. -/
def isConvertibleText (g : HeaderGenerator) (depth : Nat) (type : TypeEntry) : String :=
  "inline bool Shiboken::Converter<" ++ type.name ++ " >::isConvertible(PyObject* pyobj)\n"
    ++ "\x7b\n"
    ++ g.INDENT depth ++ "return "
    ++ String.intercalate ("\n" ++ g.INDENT (depth + 1) ++ " || ")
        ((conversionSources g type).map (disjunctText g))
    ++ ";\n"
    ++ "\x7d\n\n"

/-- One branch of the chain in `toCpp`: `if` for the first branch and
`else if` for a later one, guarded by the type-check of the source, returning
the target constructed through the conversion of the source. -/
def branchText (g : HeaderGenerator) (depth : Nat) (type : TypeEntry) (isFirstBranch : Bool)
    (source : AbstractMetaFunction) : String :=
  g.INDENT (depth + 1) ++ (if isFirstBranch then "" else "else ")
    ++ "if (" ++ sourceCheckName g source ++ "(pyobj))\n"
    ++ g.INDENT (depth + 2) ++ "return " ++ type.name ++ "(" ++ sourceConversionText g source
    ++ ");\n"

/-- The chain of branches of the given sources, in order. -/
def branchesText (g : HeaderGenerator) (depth : Nat) (type : TypeEntry) :
    Bool → List AbstractMetaFunction → String
  | _, [] => ""
  | isFirstBranch, source :: sources =>
    branchText g depth type isFirstBranch source ++ branchesText g depth type false sources

/-- The definition of `toCpp` for `type`: a block guarded by the negation of
the own type-check of the target, which holds the chain of the sources that
are not marked removed, and after the block the return of the stored native
value. -/
def toCppText (g : HeaderGenerator) (depth : Nat) (type : TypeEntry) : String :=
  "inline " ++ type.name ++ " Shiboken::Converter<" ++ type.name
    ++ " >::toCpp(PyObject* pyobj)\n"
    ++ "\x7b\n"
    ++ g.INDENT depth ++ "if (!Shiboken_TypeCheck(pyobj, " ++ type.name ++ ")) \x7b\n"
    ++ branchesText g depth type true
        ((conversionSources g type).filter (fun source => !source.isModifiedRemoved))
    ++ g.INDENT depth ++ "\x7d\n"
    ++ g.INDENT depth ++ "return *" ++ g.cpythonWrapperCPtr type "pyobj" ++ ";\n"
    ++ "\x7d\n\n"

end HeaderGenerator

/-! ## Reference text of the wrapper class -/

namespace HeaderGenerator

/-- The name of the wrapper class as `generateClass` writes it: the wrapper
name of the class with every `::` replaced by `_`. -/
def writtenWrapperName (g : HeaderGenerator) (metaClass : AbstractMetaClass) : String :=
  QString.replace (g.wrapperName metaClass) "::" "_"

/-- What `generateClass` emits before the members of the wrapper class: the
license comment, the header guard, the includes and the head of the class. -/
def classHeadText (g : HeaderGenerator) (metaClass : AbstractMetaClass) : String :=
  g.licenseComment
    ++ "#ifndef SBK_" ++ QString.toUpper (writtenWrapperName g metaClass) ++ "_H\n"
    ++ "#define SBK_" ++ QString.toUpper (writtenWrapperName g metaClass) ++ "_H\n\n"
    ++ (if g.AVOID_PROTECTED_HACK then "" else "#define protected public\n\n")
    ++ "#include <shiboken.h>\n\n"
    ++ (if metaClass.typeEntry.m_include.isValid then
          g.includeToString metaClass.typeEntry.m_include ++ "\n\n"
        else "")
    ++ (if g.usePySideExtensions && metaClass.isQObject then
          "namespace PySide \x7b class DynamicQMetaObject; \x7d\n\n"
        else "")
    ++ "class " ++ writtenWrapperName g metaClass ++ " : public " ++ metaClass.qualifiedCppName
    ++ "\n\x7b\npublic:\n"

/-- The copy constructor of the wrapper class. -/
def copyCtorText (g : HeaderGenerator) (depth : Nat) (metaClass : AbstractMetaClass) : String :=
  g.INDENT depth ++ g.wrapperName metaClass ++ "(const " ++ metaClass.qualifiedCppName
    ++ "& self)" ++ " : " ++ metaClass.qualifiedCppName ++ "(self)\n"
    ++ g.INDENT depth ++ "\x7b\n"
    ++ g.INDENT depth ++ "\x7d\n\n"

/-- The declarations of the given functions, in order. -/
def membersText (g : HeaderGenerator) (depth : Nat) : List AbstractMetaFunction → String
  | [] => ""
  | func :: rest => memberText g depth func ++ membersText g depth rest

/-- The member declarations of the wrapper class: the copy constructor of a
copyable class, and the declarations of the functions of the class. -/
def memberDeclarationsText (g : HeaderGenerator) (depth : Nat) (metaClass : AbstractMetaClass) :
    String :=
  (if g.isCopyable metaClass then copyCtorText g depth metaClass else "")
    ++ membersText g depth (g.filterFunctions metaClass)

/-- The destructor declaration of the wrapper class, behind `virtual ` when
the wrapped class has a virtual destructor. -/
def destructorText (g : HeaderGenerator) (depth : Nat) (metaClass : AbstractMetaClass) : String :=
  g.INDENT depth ++ (if metaClass.hasVirtualDestructor then "virtual " else "")
    ++ "~" ++ writtenWrapperName g metaClass ++ "();\n"

/-- What `generateClass` emits behind the destructor declaration: the code
snippets, the members for the Qt meta object, the end of the class and the end
of the header guard. -/
def classTailText (g : HeaderGenerator) (depth : Nat) (metaClass : AbstractMetaClass) : String :=
  g.writeCodeSnips metaClass
    ++ (if g.usePySideExtensions && metaClass.isQObject then
          "public:\n"
            ++ g.INDENT depth
            ++ "virtual int qt_metacall(QMetaObject::Call call, int id, void** args);\n"
            ++ "private:\n"
            ++ g.INDENT depth ++ "mutable PySide::DynamicQMetaObject* m_metaObject;\n"
        else "")
    ++ "\x7d;\n\n"
    ++ "#endif // SBK_" ++ QString.toUpper (writtenWrapperName g metaClass) ++ "_H\n\n"

/-- The number of places of a text at which the text `part` starts. -/
def occurrences (part : List Char) : List Char → Nat
  | [] => if part.isEmpty then 1 else 0
  | c :: cs => (if part.isPrefixOf (c :: cs) then 1 else 0) + occurrences part cs

end HeaderGenerator

/-! ## Reference notions for the presence of enum entries -/

namespace HeaderGenerator

/-- Every enum whose entry `finishGeneration` dereferences while it writes the
macros has an entry: the global enums, and the enums of the classes that pass
`shouldGenerate`, have no enclosing class and have an object, value or
namespace entry. -/
def enumEntriesPresent (g : HeaderGenerator) : Bool :=
  g.globalEnums.all (fun metaEnum => metaEnum.typeEntry.isSome)
    && g.classes.all (fun metaClass =>
      !(g.shouldGenerate metaClass && !metaClass.enclosingClass.isSome &&
          (metaClass.typeEntry.isObject || metaClass.typeEntry.isValue ||
            metaClass.typeEntry.isNamespace))
        || metaClass.enums.all (fun metaEnum => metaEnum.typeEntry.isSome))

end HeaderGenerator

/-! ## Reference notions for the include guard -/

namespace HeaderGenerator

/-- The name of the include guard of the header of a class: `SBK_`, the
wrapper name with every `::` replaced by `_` and upper-cased, and `_H`. -/
def includeGuardName (g : HeaderGenerator) (metaClass : AbstractMetaClass) : String :=
  "SBK_" ++ QString.toUpper (QString.replace (g.wrapperName metaClass) "::" "_") ++ "_H"

/-- The header of a class without wrapper class, as the claim lists its parts:
the license comment, the include guard, the shiboken include and the include
of the class, when valid. -/
def headerWithoutWrapperText (g : HeaderGenerator) (metaClass : AbstractMetaClass) : String :=
  g.licenseComment
    ++ "#ifndef " ++ includeGuardName g metaClass ++ "\n"
    ++ "#define " ++ includeGuardName g metaClass ++ "\n\n"
    ++ "#include <shiboken.h>\n\n"
    ++ (if metaClass.typeEntry.m_include.isValid then
          g.includeToString metaClass.typeEntry.m_include ++ "\n\n"
        else "")
    ++ "#endif // " ++ includeGuardName g metaClass ++ "\n\n"

end HeaderGenerator

/-! ## Reference notions for the required imports -/

namespace TypeDatabase

/-- The names of a sequence of registrations, each once, in the order of their
first registration. -/
def firstOccurrences : List String → List String
  | [] => []
  | name :: names => name :: (firstOccurrences names).filter (fun other => other != name)

/-- The database after the calls of `addRequiredTargetImport` with the given
names, in order. -/
def addRequiredTargetImports (db : TypeDatabase) (names : List String) : TypeDatabase :=
  names.foldl addRequiredTargetImport db

end TypeDatabase

namespace HeaderGenerator

/-- One `#include` line per module, in order. -/
def moduleIncludeLinesText (g : HeaderGenerator) : List String → String
  | [] => ""
  | requiredModule :: rest =>
    "#include <" ++ g.getModuleHeaderFileName requiredModule ++ ">\n"
      ++ moduleIncludeLinesText g rest

end HeaderGenerator

/-! ## The enum and flags entries as objects -/

/-- The address of an object. -/
abbrev Address := Nat

/-- The pointer members that link enum entries and flags entries, over all
objects of a program state: `m_flags a` is `EnumTypeEntry::m_flags` of the enum
entry at address `a`, and `m_enum a` is `FlagsTypeEntry::m_enum` of the flags
entry at address `a`; a null pointer is `none`.  The record `TypeEntry` holds
the flags entry of an enum entry by value and has no place for the pointer
back; here both pointers are kept, by address. -/
structure EntryObjects where
  m_flags : Address → Option Address
  m_enum : Address → Option Address

namespace EntryObjects

/-- The state in which every entry is as its constructor leaves it:
`m_flags(0)` in `EnumTypeEntry`, `m_enum(0)` in `FlagsTypeEntry`. -/
def constructed : EntryObjects :=
  { m_flags := fun _ => none, m_enum := fun _ => none }

/-- `EnumTypeEntry::flags()` of the enum entry at `e`. -/
def flags (h : EntryObjects) (e : Address) : Option Address := h.m_flags e

/-- `EnumTypeEntry::setFlags(FlagsTypeEntry *flags)` on the enum entry at `e`. -/
def setFlags (h : EntryObjects) (e : Address) (flags : Option Address) : EntryObjects :=
  { h with m_flags := fun a => if a = e then flags else h.m_flags a }

/-- `FlagsTypeEntry::originator()` of the flags entry at `f`. -/
def originator (h : EntryObjects) (f : Address) : Option Address := h.m_enum f

/-- `FlagsTypeEntry::setOriginator(EnumTypeEntry *e)` on the flags entry at
`f`. -/
def setOriginator (h : EntryObjects) (f : Address) (e : Option Address) : EntryObjects :=
  { h with m_enum := fun a => if a = f then e else h.m_enum a }

/-- The association of the claim: it is the same in both directions. -/
def Bidirectional (h : EntryObjects) : Prop :=
  (∀ e f : Address, h.flags e = some f → h.originator f = some e) ∧
    (∀ f e : Address, h.originator f = some e → h.flags e = some f)

end EntryObjects

/-! ## Reference notions for the input of the index assignment -/

namespace HeaderGenerator

/-- What the index assignment reads of a type entry: `generateCode()`,
`isEnum()`, which the static type of the entry fixes, the index name, and the
same of the flags entry when there is one. -/
inductive IndexAttributes where
  | mk (generateCode : Bool) (isEnum : Bool) (indexName : String)
      (flags : Option IndexAttributes)

/-- The attributes of an entry that the index assignment reads. -/
def indexAttributes (g : HeaderGenerator) : TypeEntry → IndexAttributes
  | ⟨fields, m_flags⟩ =>
    IndexAttributes.mk (TypeEntry.mk fields m_flags).generateCode
      (TypeEntry.mk fields m_flags).isEnum
      (g.getTypeIndexVariableName (TypeEntry.mk fields m_flags))
      (match m_flags with
        | some flags => some (indexAttributes g flags)
        | none => none)

/-- What the index assignment reads of a class: the attributes of its entry,
the namespace flag, and the attributes of the entries of its enums, in
declaration order. -/
structure ClassIndexAttributes where
  typeEntry : IndexAttributes
  isNamespace : Bool
  enums : List (Option IndexAttributes)

/-- The input of the index assignment: the attributes of the classes in
iteration order, those of the global enums in order, and the module name. -/
def indexInput (g : HeaderGenerator) :
    List ClassIndexAttributes × List (Option IndexAttributes) × String :=
  (g.classes.map (fun metaClass =>
      { typeEntry := indexAttributes g metaClass.typeEntry,
        isNamespace := metaClass.isNamespace,
        enums := metaClass.enums.map
          (fun metaEnum => metaEnum.typeEntry.map (indexAttributes g)) }),
    g.globalEnums.map (fun metaEnum => metaEnum.typeEntry.map (indexAttributes g)),
    g.moduleName)

end HeaderGenerator

/-! ## Reference notions for the class includes -/

namespace HeaderGenerator

/-- The includes whose lines `finishGeneration` writes for a class.  A class
counts when it passes `shouldGenerate`, has no enclosing class and has an
object, value or namespace entry: then its own include when valid, and, unless
the class is a namespace, the includes of its inner classes that pass
`shouldGenerate`. -/
def classIncludesOf (g : HeaderGenerator) (metaClass : AbstractMetaClass) : List Include :=
  if g.shouldGenerate metaClass && !metaClass.enclosingClass.isSome &&
      (metaClass.typeEntry.isObject || metaClass.typeEntry.isValue ||
        metaClass.typeEntry.isNamespace) then
    (if metaClass.typeEntry.m_include.isValid then [metaClass.typeEntry.m_include] else [])
      ++ (if metaClass.isNamespace then []
          else (metaClass.innerClasses.filter g.shouldGenerate).map
            (fun innerClass => innerClass.typeEntry.m_include))
  else []

/-- One include line per include, in order. -/
def includeLinesText (g : HeaderGenerator) : List Include → String
  | [] => ""
  | inc :: rest => g.includeToString inc ++ "\n" ++ includeLinesText g rest

end HeaderGenerator

/-! ## Reference text of the converter declaration -/

namespace HeaderGenerator

/-- The head of the converter declaration of a type: the specialisation of
`Converter` for the type, or for a pointer to it when the type is an object
type or its class is abstract, derived from `Converter_CppEnum` for an enum or
flags entry and from `ConverterBase` otherwise. -/
def converterDeclHeadText (g : HeaderGenerator) (type : TypeEntry) : String :=
  "template<>\n"
    ++ "struct Converter<" ++ type.name
    ++ (if (match g.findClass type.name with
              | some metaClass => metaClass.isAbstract
              | none => false) || type.isObject then "*" else "")
    ++ " > : "
    ++ (if type.isEnum || type.isFlags then "Converter_CppEnum" else "ConverterBase")
    ++ "<" ++ type.name
    ++ (if (match g.findClass type.name with
              | some metaClass => metaClass.isAbstract
              | none => false) || type.isObject then "*" else "")
    ++ " >\n"
    ++ "\x7b\n"

/-- The declarations of the specialised members `toCpp` and `isConvertible`. -/
def converterMembersText (g : HeaderGenerator) (depth : Nat) (type : TypeEntry) : String :=
  g.INDENT depth ++ "static " ++ type.name ++ " toCpp(PyObject* pyobj);\n"
    ++ g.INDENT depth ++ "static bool isConvertible(PyObject* pyobj);\n"

end HeaderGenerator

/-! ## Reference notions for the macros with an index -/

namespace HeaderGenerator

/-- The entries of a class that get both an index line and the macros: those
that the class contributes to the type indices, when the class also passes
the test of the loop that writes the macros (it passes `shouldGenerate`, has no
enclosing class and has an object, value or namespace entry). -/
def indexedAndCheckedOfClass (g : HeaderGenerator) (metaClass : AbstractMetaClass) :
    List TypeEntry :=
  if g.shouldGenerate metaClass && !metaClass.enclosingClass.isSome &&
      (metaClass.typeEntry.isObject || metaClass.typeEntry.isValue ||
        metaClass.typeEntry.isNamespace) then
    indexedOfClass metaClass
  else []

/-- The entries that get both an index line and the macros: the entries that
the global enums contribute to the type indices, and those of the classes. -/
def indexedAndChecked (g : HeaderGenerator) : List TypeEntry :=
  g.globalEnums.flatMap (fun metaEnum => indexedOfEnum metaEnum.typeEntry)
    ++ g.classes.flatMap (indexedAndCheckedOfClass g)

end HeaderGenerator

/-! ## Example data -/

namespace Examples

/-- A stand-in for `ContainerTypeEntry::qualifiedCppName()`. -/
def containerName (fields : TypeEntryFields) : String := fields.m_qualifiedCppName

/-- The primitive entry `qreal` marked as not preferred. -/
def qrealAlias : TypeEntry := (PrimitiveTypeEntry.new "qreal").setPreferredTargetLangType false

/-- A database in which `qreal` is registered twice, the non-preferred entry
first, and `int` once, as a non-preferred entry. -/
def primitivesDb : TypeDatabase :=
  (((TypeDatabase.empty true).addType containerName qrealAlias).addType containerName
    (PrimitiveTypeEntry.new "qreal")).addType containerName
    ((PrimitiveTypeEntry.new "int").setPreferredTargetLangType false)

/-- A database in which `Foo` names a primitive entry and then an object entry,
and `Bar` a primitive entry and then a namespace entry. -/
def homonymsDb : TypeDatabase :=
  ((((TypeDatabase.empty true).addType containerName (PrimitiveTypeEntry.new "Foo")).addType
    containerName (ObjectTypeEntry.new "Foo")).addType containerName
    (PrimitiveTypeEntry.new "Bar")).addType containerName (NamespaceTypeEntry.new "Bar")

/-- The index name used in the examples. -/
def indexName (e : TypeEntry) : String := "SBK_" ++ e.m_name ++ "_IDX"

/-- A metamodel with one class `A` that declares the enum `E` with the flags
entry `Es`, and one global enum `G`; the functions defined outside the sources
are simple stand-ins. -/
def generator : HeaderGenerator :=
  { classes :=
      [{ qualifiedCppName := "A", typeEntry := ObjectTypeEntry.new "A", isNamespace := false,
         enums := [{ name := "E",
                     typeEntry := some ((EnumTypeEntry.new "A" "E").setFlags
                       (some (FlagsTypeEntry.new "Es"))) }],
         enclosingClass := none, innerClasses := [], hasVirtualDestructor := false,
         isQObject := false }],
    globalEnums := [{ name := "G", typeEntry := some (EnumTypeEntry.new "" "G") }],
    moduleName := "mod",
    getTypeIndexVariableName := indexName,
    AVOID_PROTECTED_HACK := false,
    INDENT := fun depth => "".pushn ' ' (4 * depth),
    licenseComment := "// license\n",
    includeToString := fun inc => "#include <" ++ inc.name ++ ">",
    wrapperName := fun c => c.qualifiedCppName ++ "Wrapper",
    shouldGenerate := fun _ => true,
    shouldGenerateCppWrapper := fun _ => true,
    usePySideExtensions := false,
    isCopyable := fun _ => false,
    filterFunctions := fun _ => [],
    functionSignature := fun func prepend append _ => prepend ++ func.name ++ append ++ "()",
    writeFunctionCall := fun func => func.name ++ "()",
    writeCodeSnips := fun _ => "",
    cppApiVariableName := "SbkmodTypes",
    cpythonCheckFunction := fun e => e.m_name ++ "_Check",
    cpythonCheckFunctionOfType := fun t => t.cppSignature ++ "_Check",
    implicitConversions := fun _ => [],
    writeToCppConversionOfClass := fun c arg => "toCpp<" ++ c.qualifiedCppName ++ ">(" ++ arg ++ ")",
    writeToCppConversionOfType := fun t arg => "toCpp<" ++ t.cppSignature ++ ">(" ++ arg ++ ")",
    cpythonWrapperCPtr := fun e arg => "cptr<" ++ e.m_name ++ ">(" ++ arg ++ ")",
    getModuleHeaderFileName := fun moduleName => moduleName ++ "_python.h",
    findClass := fun _ => none }

/-- The class `A` of the example metamodel. -/
def classA : AbstractMetaClass :=
  { qualifiedCppName := "A", typeEntry := ObjectTypeEntry.new "A", isNamespace := false,
    enums := [], enclosingClass := none, innerClasses := [], hasVirtualDestructor := false,
    isQObject := false }

/-- A public member function of `A` without arguments and return type, which
is neither a constructor nor virtual, abstract, static or removed. -/
def plainFunction (name : String) : AbstractMetaFunction :=
  { name := name, ownerClass := classA, arguments := [], type := none,
    isConstructor := false, isCopyConstructor := false, isUserAdded := false,
    isPrivate := false, isProtected := false, isStatic := false, isVirtual := false,
    isAbstract := false, isModifiedRemoved := false, isConversionOperator := false }

/-- The copy constructor of `A`. -/
def copyConstructor : AbstractMetaFunction :=
  { plainFunction "A" with isConstructor := true, isCopyConstructor := true }

/-- A constructor of `A` that is neither virtual nor abstract. -/
def constructor : AbstractMetaFunction :=
  { plainFunction "A" with isConstructor := true }

/-- A private virtual function of `A`. -/
def privateFunction : AbstractMetaFunction :=
  { plainFunction "secret" with isPrivate := true, isVirtual := true }

/-- A protected static function of `A` with a return type, marked removed and
not abstract. -/
def removedProtected : AbstractMetaFunction :=
  { plainFunction "helper" with
    isProtected := true, isStatic := true, isModifiedRemoved := true,
    type := some { cppSignature := "int" } }

/-- An abstract function of `A` that is marked removed. -/
def removedAbstract : AbstractMetaFunction :=
  { plainFunction "draw" with isAbstract := true, isModifiedRemoved := true }

/-- The example generator built with `AVOID_PROTECTED_HACK`. -/
def protectedHackGenerator : HeaderGenerator :=
  { generator with AVOID_PROTECTED_HACK := true }

/-- The value type `Point`. -/
def pointEntry : TypeEntry := ValueTypeEntry.new "Point"

/-- The class of the value type `Point`. -/
def pointClass : AbstractMetaClass :=
  { qualifiedCppName := "Point", typeEntry := pointEntry, isNamespace := false,
    enums := [], enclosingClass := none, innerClasses := [], hasVirtualDestructor := false,
    isQObject := false }

/-- The converting constructor `Point(Tuple)`. -/
def pointFromTuple : AbstractMetaFunction :=
  { plainFunction "Point" with
    ownerClass := pointClass, isConstructor := true,
    arguments := [{ name := "tuple", type := { cppSignature := "Tuple" } }] }

/-- A generator for which `Point` has the single implicit conversion
`Point(Tuple)`. -/
def pointGenerator : HeaderGenerator :=
  { generator with
    implicitConversions := fun type => if type.name = "Point" then [pointFromTuple] else [] }

/-- The value type `Color`. -/
def colorEntry : TypeEntry := ValueTypeEntry.new "Color"

/-- The converting constructor of `Color` from the type `signature`. -/
def colorFrom (signature : String) : AbstractMetaFunction :=
  { plainFunction "Color" with
    isConstructor := true,
    arguments := [{ name := "value", type := { cppSignature := signature } }] }

/-- The conversion operator of the class `A` to `Color`. -/
def colorOfA : AbstractMetaFunction :=
  { plainFunction "operator Color" with isConversionOperator := true }

/-- A generator for which `Color` has five implicit conversions: from `Name`,
from `Rgb` (user added), from `Hsv` (marked removed), from the class `A` by a
conversion operator, and from `int`. -/
def colorGenerator : HeaderGenerator :=
  { generator with
    implicitConversions := fun type =>
      if type.name = "Color" then
        [colorFrom "Name", { colorFrom "Rgb" with isUserAdded := true },
          { colorFrom "Hsv" with isModifiedRemoved := true }, colorOfA, colorFrom "int"]
      else [] }

/-- The class `Outer::Shape` with a virtual destructor. -/
def shapeClass : AbstractMetaClass :=
  { qualifiedCppName := "Outer::Shape", typeEntry := ObjectTypeEntry.new "Outer::Shape",
    isNamespace := false, enums := [], enclosingClass := some "Outer", innerClasses := [],
    hasVirtualDestructor := true, isQObject := false }

/-- A generator for which the functions of a class are a constructor, an
abstract function marked removed, a private function and a function that is
neither virtual nor abstract. -/
def shapeGenerator : HeaderGenerator :=
  { generator with
    filterFunctions := fun _ =>
      [constructor, removedAbstract, privateFunction, plainFunction "area"] }

/-- A metamodel for the type indices: the class `A` with the enum `E` and its
flags entry `Es`; the namespace `N` with the enum `NE`; the class `H`, whose
entry does not generate code, with the enum `HE`; and the global enums `G`,
whose flags entry `Gs` does not generate code, and `Anonymous`, which has no
entry. -/
def indexGenerator : HeaderGenerator :=
  { generator with
    classes := generator.classes ++
      [{ qualifiedCppName := "N", typeEntry := NamespaceTypeEntry.new "N", isNamespace := true,
         enums := [{ name := "NE", typeEntry := some (EnumTypeEntry.new "N" "NE") }],
         enclosingClass := none, innerClasses := [], hasVirtualDestructor := false,
         isQObject := false },
       { qualifiedCppName := "H",
         typeEntry := (ObjectTypeEntry.new "H").setCodeGeneration TypeEntry.GenerateNothing,
         isNamespace := false,
         enums := [{ name := "HE", typeEntry := some (EnumTypeEntry.new "H" "HE") }],
         enclosingClass := none, innerClasses := [], hasVirtualDestructor := false,
         isQObject := false }],
    globalEnums :=
      [{ name := "G",
         typeEntry := some ((EnumTypeEntry.new "" "G").setFlags
           (some ((FlagsTypeEntry.new "Gs").setCodeGeneration TypeEntry.GenerateNothing))) },
       { name := "Anonymous", typeEntry := none }] }

/-- The class `Outer::Inner`, declared inside the class `Outer`, with the enum
`Outer::Inner::E`. -/
def innerClass : AbstractMetaClass :=
  { qualifiedCppName := "Outer::Inner", typeEntry := ObjectTypeEntry.new "Outer::Inner",
    isNamespace := false,
    enums := [{ name := "E", typeEntry := some (EnumTypeEntry.new "Outer::Inner" "E") }],
    enclosingClass := some "Outer", innerClasses := [], hasVirtualDestructor := false,
    isQObject := false }

/-- A metamodel for the type-check macros: the class `Outer`, its inner class
`Outer::Inner` with an enum, and the class `Iface` whose entry is an interface
entry. -/
def macroGenerator : HeaderGenerator :=
  { generator with
    classes :=
      [{ qualifiedCppName := "Outer", typeEntry := ObjectTypeEntry.new "Outer",
         isNamespace := false, enums := [], enclosingClass := none,
         innerClasses := [innerClass], hasVirtualDestructor := false, isQObject := false },
       innerClass,
       { qualifiedCppName := "Iface", typeEntry := InterfaceTypeEntry.new "Iface",
         isNamespace := false, enums := [], enclosingClass := none, innerClasses := [],
         hasVirtualDestructor := false, isQObject := false }],
    globalEnums := [] }

/-- The example generator with a negative wrapper decision for every class. -/
def noWrapperGenerator : HeaderGenerator :=
  { generator with shouldGenerateCppWrapper := fun _ => false }

/-- The class `A` with the include `a.h`. -/
def classWithInclude : AbstractMetaClass :=
  { classA with
    typeEntry := (ObjectTypeEntry.new "A").setInclude
      { type := Include.IncludeType.IncludePath, name := "a.h" } }

/-- The class `B` declared in the namespace `A`. -/
def nestedB : AbstractMetaClass :=
  { classA with qualifiedCppName := "A::B", typeEntry := ObjectTypeEntry.new "A::B" }

/-- The class `A_B` declared at top level. -/
def flatB : AbstractMetaClass :=
  { classA with qualifiedCppName := "A_B", typeEntry := ObjectTypeEntry.new "A_B" }

/-- The include of the file `a.h` by include path. -/
def includeA : Include := { type := Include.IncludeType.IncludePath, name := "a.h" }

/-- The include of the file `b.h` by include path. -/
def includeB : Include := { type := Include.IncludeType.IncludePath, name := "b.h" }

/-- The include of the file `a.h` as a local path. -/
def includeLocalA : Include := { type := Include.IncludeType.LocalPath, name := "a.h" }

/-- A metamodel that agrees with the example metamodel in what the index
assignment reads and differs elsewhere: the class `A` has another qualified
name, a virtual destructor, an include and a conversion rule, and the
functions defined outside the sources are other ones. -/
def otherGenerator : HeaderGenerator :=
  { generator with
    classes :=
      [{ qualifiedCppName := "ns::A",
         typeEntry := ((ObjectTypeEntry.new "A").setInclude includeA).setConversionRule "rule",
         isNamespace := false,
         enums := [{ name := "E2",
                     typeEntry := some ((EnumTypeEntry.new "A" "E").setFlags
                       (some ((FlagsTypeEntry.new "Es").setInclude includeB))) }],
         enclosingClass := some "ns", innerClasses := [classA], hasVirtualDestructor := true,
         isQObject := true }],
    globalEnums := [{ name := "G2", typeEntry := some (EnumTypeEntry.new "" "G") }],
    licenseComment := "", cppApiVariableName := "Other",
    cpythonCheckFunction := fun _ => "check",
    shouldGenerate := fun _ => false }

/-- A metamodel of two classes, `A` and `B`, that share the include `a.h`. -/
def sharedIncludeGenerator : HeaderGenerator :=
  { generator with
    classes :=
      [classWithInclude,
       { classA with
         qualifiedCppName := "B",
         typeEntry := (ObjectTypeEntry.new "B").setInclude includeA }],
    globalEnums := [] }

/-- A metamodel without classes and with the global enums of the metamodel
for the type indices. -/
def noClassGenerator : HeaderGenerator :=
  { indexGenerator with classes := [] }

/-- The metamodel of the class `A` without enums and the global enum `G`, whose
entry generates code for subclasses only, as an entry of an imported type
system does. -/
def importedEnumGenerator : HeaderGenerator :=
  { generator with
    classes := [classA],
    globalEnums :=
      [{ name := "G",
         typeEntry := some ((EnumTypeEntry.new "" "G").setCodeGeneration
           TypeEntry.GenerateForSubclass) }] }

end Examples

/-! # Theorems -/

/-! ## `QHash` lookups -/

theorem QHash.value_assign_self {T : Type} [Inhabited T] (h : QHash T) (key : String) (v : T) :
    QHash.value (QHash.assign h key v) key = v := by
  induction h with
  | nil => simp [QHash.assign, QHash.value]
  | cons p rest ih =>
    obtain ⟨k, w⟩ := p
    by_cases hk : k = key
    · simp [QHash.assign, QHash.value, hk]
    · simp [QHash.assign, QHash.value, hk, ih]

theorem QHash.value_assign_of_ne {T : Type} [Inhabited T] (h : QHash T) (key n : String) (v : T)
    (hn : n ≠ key) : QHash.value (QHash.assign h key v) n = QHash.value h n := by
  induction h with
  | nil =>
    have : ¬ key = n := fun h => hn h.symm
    simp [QHash.assign, QHash.value, this]
  | cons p rest ih =>
    obtain ⟨k, w⟩ := p
    by_cases hk : k = key
    · subst hk
      have : ¬ k = n := fun h => hn h.symm
      simp [QHash.assign, QHash.value, this]
    · by_cases hkn : k = n
      · subst hkn
        simp [QHash.assign, QHash.value, hk]
      · simp [QHash.assign, QHash.value, hk, hkn, ih]

/-! ## Type lookups -/

namespace TypeDatabase

theorem findType_loop_eq_some_iff (l : List (Option TypeEntry)) (e : TypeEntry) :
    findType.loop l = some e ↔
      ∃ pre post, l = pre ++ some e :: post ∧
        (∀ e', some e' ∈ pre → e'.isNonPreferredPrimitive = true) ∧
        e.isNonPreferredPrimitive = false := by
  induction l with
  | nil => simp [findType.loop]
  | cons x rest ih =>
    cases x with
    | none =>
      rw [findType.loop, ih]
      constructor
      · rintro ⟨pre, post, h1, h2, h3⟩
        refine ⟨none :: pre, post, by simp [h1], ?_, h3⟩
        intro e' he'
        simp at he'
        exact h2 e' he'
      · rintro ⟨pre, post, h1, h2, h3⟩
        cases pre with
        | nil => simp at h1
        | cons y pre =>
          simp at h1
          refine ⟨pre, post, h1.2, ?_, h3⟩
          intro e' he'
          exact h2 e' (by simp [he'])
    | some x =>
      rw [findType.loop]
      by_cases hx : x.isNonPreferredPrimitive = true
      · have hc : (!x.isPrimitive || x.preferredTargetLangType) = false := by
          simp [TypeEntry.isNonPreferredPrimitive] at hx
          simp [hx]
        simp only [hc, Bool.false_eq_true, if_false]
        rw [ih]
        constructor
        · rintro ⟨pre, post, h1, h2, h3⟩
          refine ⟨some x :: pre, post, by simp [h1], ?_, h3⟩
          intro e' he'
          simp at he'
          rcases he' with rfl | he'
          · exact hx
          · exact h2 e' he'
        · rintro ⟨pre, post, h1, h2, h3⟩
          cases pre with
          | nil =>
            simp at h1
            rw [h1.1] at hx
            rw [hx] at h3
            cases h3
          | cons y pre =>
            simp at h1
            refine ⟨pre, post, h1.2, ?_, h3⟩
            intro e' he'
            exact h2 e' (by simp [he'])
      · have hx' : x.isNonPreferredPrimitive = false := by simpa using hx
        have hc : (!x.isPrimitive || x.preferredTargetLangType) = true := by
          simp [TypeEntry.isNonPreferredPrimitive] at hx'
          cases hp : x.isPrimitive <;> simp_all
        simp only [hc, if_true]
        constructor
        · intro h
          cases h
          exact ⟨[], rest, rfl, by simp, hx'⟩
        · rintro ⟨pre, post, h1, h2, h3⟩
          cases pre with
          | nil =>
            simp at h1
            rw [h1.1]
          | cons y pre =>
            simp at h1
            have := h2 x (by simp [h1.1])
            rw [this] at hx'
            cases hx'

theorem findType_loop_eq_none_iff (l : List (Option TypeEntry)) :
    findType.loop l = none ↔ ∀ e', some e' ∈ l → e'.isNonPreferredPrimitive = true := by
  induction l with
  | nil => simp [findType.loop]
  | cons x rest ih =>
    cases x with
    | none =>
      rw [findType.loop, ih]
      simp
    | some x =>
      rw [findType.loop]
      by_cases hx : x.isNonPreferredPrimitive = true
      · have hc : (!x.isPrimitive || x.preferredTargetLangType) = false := by
          simp [TypeEntry.isNonPreferredPrimitive] at hx
          simp [hx]
        simp only [hc, Bool.false_eq_true, if_false]
        rw [ih]
        simp [hx]
      · have hx' : x.isNonPreferredPrimitive = false := by simpa using hx
        have hc : (!x.isPrimitive || x.preferredTargetLangType) = true := by
          simp [TypeEntry.isNonPreferredPrimitive] at hx'
          cases hp : x.isPrimitive <;> simp_all
        simp only [hc, if_true]
        simp [hx']

theorem findTypes_addType_self (cq : TypeEntryFields → String) (db : TypeDatabase)
    (e : TypeEntry) :
    (db.addType cq e).findTypes (e.qualifiedCppName cq) =
      db.findTypes (e.qualifiedCppName cq) ++ [some e] := by
  simp [addType, findTypes, QHash.value_assign_self]

theorem findTypes_addType_of_ne (cq : TypeEntryFields → String) (db : TypeDatabase)
    (e : TypeEntry) (n : String) (hn : n ≠ e.qualifiedCppName cq) :
    (db.addType cq e).findTypes n = db.findTypes n := by
  simp [addType, findTypes, QHash.value_assign_of_ne _ _ _ _ hn]

end TypeDatabase

/-! ## Claims on the type lookups -/

/-- C1. `findType(name)` returns the first entry of the name's list, in
registration order, that is not a primitive entry with
`preferredTargetLangType() == false`: it returns `e` exactly when the list is
`pre ++ e :: post` with every entry of `pre` a non-preferred primitive and `e`
not one; it returns null exactly when every entry is a non-preferred primitive. -/
theorem TypeDatabase.findType_first_preferred (db : TypeDatabase) (name : String) :
    (∀ e, db.findType name = some e ↔
      ∃ pre post, db.findTypes name = pre ++ some e :: post ∧
        (∀ e', some e' ∈ pre → e'.isNonPreferredPrimitive = true) ∧
        e.isNonPreferredPrimitive = false) ∧
    (db.findType name = none ↔
      ∀ e', some e' ∈ db.findTypes name → e'.isNonPreferredPrimitive = true) :=
  ⟨fun e => findType_loop_eq_some_iff (db.findTypes name) e,
   findType_loop_eq_none_iff (db.findTypes name)⟩

/-- C1 at a concrete database: `qreal` is registered as a non-preferred entry
and then as a preferred one, and `findType` returns the second. -/
theorem TypeDatabase.findType_first_preferred_witness :
    Examples.primitivesDb.findTypes "qreal" =
        [some Examples.qrealAlias] ++ some (PrimitiveTypeEntry.new "qreal") :: [] ∧
      Examples.primitivesDb.findType "qreal" = some (PrimitiveTypeEntry.new "qreal") :=
  ⟨rfl, ((TypeDatabase.findType_first_preferred Examples.primitivesDb "qreal").1
    (PrimitiveTypeEntry.new "qreal")).2
    ⟨[some Examples.qrealAlias], [], rfl, by
      intro e' he'
      simp only [List.mem_singleton, Option.some.injEq] at he'
      subst he'
      rfl, rfl⟩⟩

/-- C2, refuted as stated: `int` is registered once, as a non-preferred
primitive entry; the claim has `findType` return that first entry, the code
returns null. -/
theorem TypeDatabase.findType_all_nonpreferred_counterexample :
    Examples.primitivesDb.findTypes "int" =
        [some ((PrimitiveTypeEntry.new "int").setPreferredTargetLangType false)] ∧
      ((PrimitiveTypeEntry.new "int").setPreferredTargetLangType false).isNonPreferredPrimitive
        = true ∧
      Examples.primitivesDb.findType "int" = none ∧
      Examples.primitivesDb.findType "int" ≠
        some ((PrimitiveTypeEntry.new "int").setPreferredTargetLangType false) :=
  ⟨rfl, rfl, rfl, by
    have h : Examples.primitivesDb.findType "int" = none := rfl
    rw [h]
    exact fun h => Option.noConfusion h⟩

/-- C2, amended. When every entry registered under a name is a non-preferred
primitive, `findType(name)` returns null: there is no fallback to the first
registered entry. -/
theorem TypeDatabase.findType_all_nonpreferred (db : TypeDatabase) (name : String)
    (h : ∀ e, some e ∈ db.findTypes name → e.isNonPreferredPrimitive = true) :
    db.findType name = none :=
  (findType_loop_eq_none_iff (db.findTypes name)).2 h

/-- C2, amended, at the database of the counterexample. -/
theorem TypeDatabase.findType_all_nonpreferred_witness :
    Examples.primitivesDb.findTypes "int" ≠ [] ∧ Examples.primitivesDb.findType "int" = none :=
  ⟨by
    have h : Examples.primitivesDb.findTypes "int" =
        [some ((PrimitiveTypeEntry.new "int").setPreferredTargetLangType false)] := rfl
    rw [h]
    exact List.cons_ne_nil _ _,
   TypeDatabase.findType_all_nonpreferred Examples.primitivesDb "int" (by
    have h : Examples.primitivesDb.findTypes "int" =
        [some ((PrimitiveTypeEntry.new "int").setPreferredTargetLangType false)] := rfl
    rw [h]
    intro e he
    simp only [List.mem_singleton, Option.some.injEq] at he
    subst he
    rfl)⟩

/-- C3. `addType(e)` appends and never replaces: the list of
`e.qualifiedCppName()` becomes the previous list followed by `e`, and the list
of every other name is unchanged. -/
theorem TypeDatabase.addType_appends (containerQualifiedCppName : TypeEntryFields → String)
    (db : TypeDatabase) (e : TypeEntry) :
    (db.addType containerQualifiedCppName e).findTypes
        (e.qualifiedCppName containerQualifiedCppName) =
      db.findTypes (e.qualifiedCppName containerQualifiedCppName) ++ [some e] ∧
    ∀ n, n ≠ e.qualifiedCppName containerQualifiedCppName →
      (db.addType containerQualifiedCppName e).findTypes n = db.findTypes n :=
  ⟨findTypes_addType_self containerQualifiedCppName db e,
   fun n hn => findTypes_addType_of_ne containerQualifiedCppName db e n hn⟩

/-- C4, refuted as stated: under `Foo` a preferred primitive entry is registered
before an object entry, under `Bar` before a namespace entry.  The lists hold
an entry of the requested kind, yet the three lookups return null. -/
theorem TypeDatabase.findKind_counterexample :
    (some (ObjectTypeEntry.new "Foo") ∈ Examples.homonymsDb.findTypes "Foo" ∧
      (ObjectTypeEntry.new "Foo").isComplex = true ∧
      (ObjectTypeEntry.new "Foo").isObject = true ∧
      Examples.homonymsDb.findComplexType "Foo" = none ∧
      Examples.homonymsDb.findObjectType "Foo" = none) ∧
    (some (NamespaceTypeEntry.new "Bar") ∈ Examples.homonymsDb.findTypes "Bar" ∧
      (NamespaceTypeEntry.new "Bar").isNamespace = true ∧
      Examples.homonymsDb.findNamespaceType "Bar" = none) := by
  have hFoo : Examples.homonymsDb.findTypes "Foo" =
      [some (PrimitiveTypeEntry.new "Foo"), some (ObjectTypeEntry.new "Foo")] := rfl
  have hBar : Examples.homonymsDb.findTypes "Bar" =
      [some (PrimitiveTypeEntry.new "Bar"), some (NamespaceTypeEntry.new "Bar")] := rfl
  refine ⟨⟨?_, rfl, rfl, rfl, rfl⟩, ?_, rfl, rfl⟩
  · rw [hFoo]
    exact List.mem_cons_of_mem _ (List.mem_singleton.2 rfl)
  · rw [hBar]
    exact List.mem_cons_of_mem _ (List.mem_singleton.2 rfl)

/-- C4, amended. `findComplexType` (`findObjectType`, `findNamespaceType`)
returns `e` exactly when `e` is the first entry of the name's list that is not
a non-preferred primitive, i.e. the result of `findType`, and `e` satisfies
`isComplex()` (`isObject()`, `isNamespace()`); otherwise it returns null. -/
theorem TypeDatabase.findKind_characterisation (db : TypeDatabase) (name : String) :
    (∀ e, db.findComplexType name = some e ↔
      ∃ pre post, db.findTypes name = pre ++ some e :: post ∧
        (∀ e', some e' ∈ pre → e'.isNonPreferredPrimitive = true) ∧
        e.isNonPreferredPrimitive = false ∧ e.isComplex = true) ∧
    (∀ e, db.findObjectType name = some e ↔
      ∃ pre post, db.findTypes name = pre ++ some e :: post ∧
        (∀ e', some e' ∈ pre → e'.isNonPreferredPrimitive = true) ∧
        e.isNonPreferredPrimitive = false ∧ e.isObject = true) ∧
    (∀ e, db.findNamespaceType name = some e ↔
      ∃ pre post, db.findTypes name = pre ++ some e :: post ∧
        (∀ e', some e' ∈ pre → e'.isNonPreferredPrimitive = true) ∧
        e.isNonPreferredPrimitive = false ∧ e.isNamespace = true) := by
  have key : ∀ (p : TypeEntry → Bool) (e : TypeEntry),
      (match db.findType name with
        | some entry => if p entry = true then some entry else none
        | none => none) = some e ↔
      ∃ pre post, db.findTypes name = pre ++ some e :: post ∧
        (∀ e', some e' ∈ pre → e'.isNonPreferredPrimitive = true) ∧
        e.isNonPreferredPrimitive = false ∧ p e = true := by
    intro p e
    have h := findType_loop_eq_some_iff (db.findTypes name) e
    constructor
    · intro hm
      cases hf : db.findType name with
      | none => rw [hf] at hm; cases hm
      | some x =>
        rw [hf] at hm
        by_cases hp : p x = true
        · simp only [hp, if_true, Option.some.injEq] at hm
          subst hm
          obtain ⟨pre, post, h1, h2, h3⟩ := h.1 hf
          exact ⟨pre, post, h1, h2, h3, hp⟩
        · simp only [hp, Bool.false_eq_true, if_false] at hm
          cases hm
    · rintro ⟨pre, post, h1, h2, h3, hp⟩
      have hf : db.findType name = some e := h.2 ⟨pre, post, h1, h2, h3⟩
      rw [hf]
      simp [hp]
  exact ⟨fun e => key TypeEntry.isComplex e, fun e => key TypeEntry.isObject e,
    fun e => key TypeEntry.isNamespace e⟩

/-- C5. For a name without registered entry the five lookups return null. -/
theorem TypeDatabase.find_unregistered (db : TypeDatabase) (name : String)
    (h : db.findTypes name = []) :
    db.findType name = none ∧ db.findPrimitiveType name = none ∧
      db.findComplexType name = none ∧ db.findObjectType name = none ∧
      db.findNamespaceType name = none := by
  have hf : db.findType name = none := by
    simp [findType, h, findType.loop]
  refine ⟨hf, ?_, ?_, ?_, ?_⟩
  · simp [findPrimitiveType, h, findPrimitiveType.loop]
  · simp [findComplexType, hf]
  · simp [findObjectType, hf]
  · simp [findNamespaceType, hf]

/-- C5 at a concrete database, for a name that was never registered. -/
theorem TypeDatabase.find_unregistered_witness :
    Examples.homonymsDb.findTypes "Baz" = [] ∧
      Examples.homonymsDb.findType "Baz" = none ∧
      Examples.homonymsDb.findPrimitiveType "Baz" = none ∧
      Examples.homonymsDb.findComplexType "Baz" = none ∧
      Examples.homonymsDb.findObjectType "Baz" = none ∧
      Examples.homonymsDb.findNamespaceType "Baz" = none :=
  ⟨rfl, TypeDatabase.find_unregistered Examples.homonymsDb "Baz" rfl⟩

/-! ## Qt string functions -/

namespace QString

theorem isPrefixOf_eq_false {l₁ l₂ : List Char} (h : ¬ l₁ <+: l₂) : l₁.isPrefixOf l₂ = false := by
  rw [Bool.eq_false_iff]
  exact fun hp => h (List.isPrefixOf_iff_prefix.1 hp)

theorem isPrefixOf_eq_true {l₁ l₂ : List Char} (h : l₁ <+: l₂) : l₁.isPrefixOf l₂ = true :=
  List.isPrefixOf_iff_prefix.2 h

theorem replaceAux_skip (before after x rest : List Char) :
    replaceAux before after x.length (x ++ rest) = replaceAux before after 0 rest := by
  induction x with
  | nil => rfl
  | cons c x ih => simpa [replaceAux] using ih

/-- Replacing a text that does not occur changes nothing. -/
theorem replaceAux_of_not_infix (before after s : List Char) (h : ¬ before <:+: s) :
    replaceAux before after 0 s = s := by
  induction s with
  | nil => rfl
  | cons c cs ih =>
    have hp : before.isPrefixOf (c :: cs) = false :=
      isPrefixOf_eq_false (fun hp => h hp.isInfix)
    have hcs : ¬ before <:+: cs := fun hi => h (List.infix_cons hi)
    simp [replaceAux, hp, ih hcs]

/-- The first occurrence of `before` is replaced when no occurrence starts
earlier. -/
theorem replaceAux_append_occurrence (before after x rest : List Char) (hb : before ≠ [])
    (h : ∀ t, t ≠ [] → t <:+ x → ¬ before <+: t ++ (before ++ rest)) :
    replaceAux before after 0 (x ++ (before ++ rest)) =
      x ++ (after ++ replaceAux before after 0 rest) := by
  induction x with
  | nil =>
    cases before with
    | nil => exact absurd rfl hb
    | cons b bs =>
      have hp : (b :: bs).isPrefixOf (b :: (bs ++ rest)) = true :=
        isPrefixOf_eq_true (List.prefix_append (b :: bs) rest)
      show replaceAux (b :: bs) after 0 (b :: (bs ++ rest)) = _
      rw [replaceAux, if_pos hp, List.length_cons, Nat.add_sub_cancel, replaceAux_skip]
      rfl
  | cons c x ih =>
    have hp : before.isPrefixOf (c :: (x ++ (before ++ rest))) = false :=
      isPrefixOf_eq_false (h (c :: x) (List.cons_ne_nil _ _) (List.suffix_refl _))
    have ih' := ih (fun t ht hs => h t ht (hs.trans (List.suffix_cons c x)))
    simp [replaceAux, hp, ih']

theorem replaceAux_cons_of_not_prefix (before after : List Char) (c : Char) (cs : List Char)
    (h : ¬ before <+: c :: cs) :
    replaceAux before after 0 (c :: cs) = c :: replaceAux before after 0 cs := by
  simp [replaceAux, isPrefixOf_eq_false h]

theorem replaceAux_occurrence (before after rest : List Char) (hb : before ≠ []) :
    replaceAux before after 0 (before ++ rest) = after ++ replaceAux before after 0 rest := by
  have := replaceAux_append_occurrence before after [] rest hb
    (fun t ht hs => absurd (List.suffix_nil.1 hs) ht)
  simpa using this

theorem splitAux_ne_nil (sep : List Char) (skip : Nat) (s : List Char) :
    splitAux sep skip s ≠ [] := by
  induction s generalizing skip with
  | nil => simp [splitAux]
  | cons c cs ih =>
    cases skip with
    | succ k => simpa [splitAux] using ih k
    | zero =>
      rw [splitAux]
      split
      · simp
      · cases h : splitAux sep 0 cs with
        | nil => exact absurd h (ih 0)
        | cons a l => simp [consHead]

theorem splitAux_star_cons_star (cs : List Char) :
    splitAux ['*'] 0 ('*' :: cs) = [] :: splitAux ['*'] 0 cs := by
  simp [splitAux, List.isPrefixOf]

theorem splitAux_star_cons_of_ne (c : Char) (cs : List Char) (h : c ≠ '*') :
    splitAux ['*'] 0 (c :: cs) = consHead c (splitAux ['*'] 0 cs) := by
  have h' : ¬ '*' = c := fun e => h e.symm
  simp [splitAux, List.isPrefixOf, h']

/-- A text without asterisk in front of the remaining text extends the part
under construction. -/
theorem splitAux_star_append (x y : List Char) (hx : '*' ∉ x) :
    splitAux ['*'] 0 (x ++ y) = x.foldr consHead (splitAux ['*'] 0 y) := by
  induction x with
  | nil => rfl
  | cons c x ih =>
    have hc : c ≠ '*' := fun e => hx (by simp [e])
    have hx' : '*' ∉ x := fun hm => hx (List.mem_cons_of_mem _ hm)
    rw [List.cons_append, splitAux_star_cons_of_ne c _ hc, ih hx', List.foldr_cons]

theorem foldr_consHead_cons (x seg : List Char) (rest : List (List Char)) :
    x.foldr consHead (seg :: rest) = (x ++ seg) :: rest := by
  induction x with
  | nil => rfl
  | cons c x ih => rw [List.foldr_cons, ih]; rfl

/-- A text without asterisk is a single part. -/
theorem splitAux_star_of_not_mem (x : List Char) (hx : '*' ∉ x) :
    splitAux ['*'] 0 x = [x] := by
  have := splitAux_star_append x [] hx
  rw [List.append_nil] at this
  rw [this]
  simp [splitAux, foldr_consHead_cons]

theorem indexOfAux_cases (str s : List Char) (i : Nat) :
    (indexOfAux str s i = -1 ∧ ∀ q, q ≤ s.length → ¬ str <+: s.drop q) ∨
    (∃ q, q ≤ s.length ∧ indexOfAux str s i = ((i + q : Nat) : Int) ∧ str <+: s.drop q ∧
      ∀ q', q' < q → ¬ str <+: s.drop q') := by
  induction s generalizing i with
  | nil =>
    cases str with
    | nil =>
      right
      exact ⟨0, Nat.le_refl _, by simp [indexOfAux], by simp, fun q' hq' => absurd hq' (Nat.not_lt_zero _)⟩
    | cons c cs =>
      left
      refine ⟨by simp [indexOfAux], ?_⟩
      intro q _
      simp
  | cons c cs ih =>
    by_cases hp : str <+: c :: cs
    · right
      refine ⟨0, Nat.zero_le _, ?_, by simpa using hp, fun q' hq' => absurd hq' (Nat.not_lt_zero _)⟩
      simp [indexOfAux, isPrefixOf_eq_true hp]
    · have hstep : indexOfAux str (c :: cs) i = indexOfAux str cs (i + 1) := by
        simp [indexOfAux, isPrefixOf_eq_false hp]
      rcases ih (i + 1) with ⟨h1, h2⟩ | ⟨q, hq, h1, h2, h3⟩
      · left
        refine ⟨hstep.trans h1, ?_⟩
        intro q hq
        cases q with
        | zero => simpa using hp
        | succ q =>
          simp only [List.drop_succ_cons]
          exact h2 q (by simpa using hq)
      · right
        refine ⟨q + 1, by simpa using hq, ?_, by simpa using h2, ?_⟩
        · rw [hstep, h1]
          congr 1
          omega
        · intro q' hq'
          cases q' with
          | zero => simpa using hp
          | succ q' =>
            simp only [List.drop_succ_cons]
            exact h3 q' (by omega)

end QString

/-! ## The scan of `isSuppressedWarning` -/

namespace QString

open SuppressedWarning in
theorem indexOf_cases (m str : String) (start : Nat) :
    (indexOf m str start = -1 ∧ ∀ q, start ≤ q → ¬ OccursAt m str q) ∨
    (∃ q, start ≤ q ∧ indexOf m str start = (q : Int) ∧ OccursAt m str q ∧
      ∀ q', start ≤ q' → q' < q → ¬ OccursAt m str q') := by
  unfold indexOf
  by_cases hl : m.length < start
  · left
    refine ⟨by simp [hl], ?_⟩
    rintro q hq ⟨hq', _⟩
    omega
  · have hlen : (m.data.drop start).length = m.length - start := by
      rw [List.length_drop]
      rfl
    rw [if_neg hl]
    rcases indexOfAux_cases str.data (m.data.drop start) start with
      ⟨h1, h2⟩ | ⟨q, hq, h1, h2, h3⟩
    · left
      refine ⟨h1, ?_⟩
      rintro q hq ⟨hq', hocc⟩
      have := h2 (q - start) (by rw [hlen]; omega)
      rw [List.drop_drop] at this
      have e : start + (q - start) = q := by omega
      rw [e] at this
      exact this hocc
    · right
      rw [hlen] at hq
      rw [List.drop_drop] at h2
      refine ⟨start + q, Nat.le_add_right _ _, h1, ⟨by omega, h2⟩, ?_⟩
      rintro q' hq1 hq2 ⟨_, hocc⟩
      have := h3 (q' - start) (by omega)
      rw [List.drop_drop] at this
      have e : start + (q' - start) = q' := by omega
      rw [e] at this
      exact this hocc

end QString

namespace SuppressedWarning

theorem OccurFromStarts.mono (m : String) (segs : List String) {k k' : Nat} (hk : k' ≤ k)
    (h : OccurFromStarts m segs k) : OccurFromStarts m segs k' := by
  cases segs with
  | nil => trivial
  | cons seg segs =>
    obtain ⟨q, hq, hocc, hrest⟩ := h
    exact ⟨q, Nat.le_trans hk hq, hocc, hrest⟩

/-- Occurrences that do not overlap are in particular occurrences whose
starts do not decrease. -/
theorem OccurInOrder.fromStarts (m : String) (segs : List String) (k : Nat)
    (h : OccurInOrder m segs k) : OccurFromStarts m segs k := by
  induction segs generalizing k with
  | nil => trivial
  | cons seg segs ih =>
    obtain ⟨q, hq, hocc, hrest⟩ := h
    exact ⟨q, hq, hocc, OccurFromStarts.mono m segs (Nat.le_add_right _ _) (ih _ hrest)⟩

end SuppressedWarning

namespace TypeDatabase

open SuppressedWarning

/-- What the `while` loop computes: it succeeds exactly when the remaining
segments occur in the message with starts that do not decrease, the first one
at or after `pos`. -/
theorem isSuppressedWarning_scan_eq_true_iff (m : String) (segs : List String) (pos : Int)
    (hpos : pos = -1 ∨ 0 ≤ pos) :
    isSuppressedWarning.scan m segs pos = true ↔
      pos ≠ -1 ∧
        OccurFromStarts m
          (segs.map (fun seg => QString.replace seg place_holder_for_asterisk "*"))
          pos.toNat := by
  induction segs generalizing pos with
  | nil => simp [isSuppressedWarning.scan, OccurFromStarts]
  | cons seg segs ih =>
    rw [isSuppressedWarning.scan]
    by_cases hp : pos = -1
    · simp [hp]
    · have hp' : (pos != -1) = true := by simpa using hp
      rw [if_pos hp']
      simp only [List.map_cons, OccurFromStarts]
      rcases QString.indexOf_cases m (QString.replace seg place_holder_for_asterisk "*")
        pos.toNat with ⟨h1, h2⟩ | ⟨q, hq, h1, h2, h3⟩
      · rw [h1, ih (-1) (Or.inl rfl)]
        constructor
        · rintro ⟨h, _⟩
          exact absurd rfl h
        · rintro ⟨_, q, hq, hocc, _⟩
          exact absurd hocc (h2 q hq)
      · rw [h1, ih (q : Int) (Or.inr (Int.ofNat_nonneg q))]
        simp only [Int.toNat_ofNat]
        constructor
        · rintro ⟨_, hrest⟩
          exact ⟨hp, q, hq, h2, hrest⟩
        · rintro ⟨_, q2, hq2, hocc, hrest⟩
          have hle : q ≤ q2 := by
            by_contra hlt
            exact h3 q2 hq2 (Nat.lt_of_not_le hlt) hocc
          refine ⟨by omega, OccurFromStarts.mono m _ hle hrest⟩

/-- One iteration succeeds exactly when the pattern has a segment and its
segments occur in the message with starts that do not decrease. -/
theorem isSuppressedWarning_iteration_eq_true_iff (m p : String) :
    isSuppressedWarning.iteration m p = true ↔
      isSuppressedWarning.segments p ≠ [] ∧
        OccurFromStarts m (isSuppressedWarning.segments p) 0 := by
  have hit : isSuppressedWarning.iteration m p =
      match QString.split (QString.replace p "\\*" place_holder_for_asterisk) "*"
        QString.SplitBehavior.SkipEmptyParts with
      | [] => false
      | seg :: segs => isSuppressedWarning.scan m (seg :: segs) 0 := by
    unfold isSuppressedWarning.iteration
    simp only []
    split <;> rfl
  rw [hit]
  unfold isSuppressedWarning.segments
  generalize QString.split (QString.replace p "\\*" place_holder_for_asterisk) "*"
    QString.SplitBehavior.SkipEmptyParts = l
  cases l with
  | nil => simp
  | cons seg segs =>
    simp only []
    rw [isSuppressedWarning_scan_eq_true_iff m (seg :: segs) 0 (Or.inr (Int.le_refl 0))]
    simp

theorem isSuppressedWarning_loop_eq_true_iff (m : String) (patterns : List String) :
    isSuppressedWarning.loop m patterns = true ↔
      ∃ p ∈ patterns, isSuppressedWarning.iteration m p = true := by
  induction patterns with
  | nil => simp [isSuppressedWarning.loop]
  | cons p rest ih =>
    rw [isSuppressedWarning.loop]
    by_cases hp : isSuppressedWarning.iteration m p = true
    · simp [hp]
    · simp [hp, ih]

theorem isSuppressedWarning_singlePattern (m p : String) :
    (singlePattern p).isSuppressedWarning m = isSuppressedWarning.iteration m p := by
  simp [isSuppressedWarning, singlePattern, empty, setSuppressWarnings, addSuppressedWarning,
    isSuppressedWarning.loop]

end TypeDatabase

/-! ## The placeholder of escaped asterisks -/

namespace TypeDatabase

open SuppressedWarning

theorem placeholder_star_not_mem : '*' ∉ place_holder_for_asterisk.data := by decide

theorem placeholder_ne_nil : place_holder_for_asterisk.data ≠ [] := by decide

theorem placeholder_getElem?_ne :
    ∀ k, k < 27 → 1 ≤ k → place_holder_for_asterisk.data[k]? ≠ some '&' := by decide

/-- The placeholder does not overlap itself: behind a non-empty text that it
is not a prefix of, it cannot start before its own occurrence. -/
theorem placeholder_not_prefix_append (t rest : List Char) (ht : t ≠ [])
    (h : ¬ place_holder_for_asterisk.data <+: t) :
    ¬ place_holder_for_asterisk.data <+: t ++ (place_holder_for_asterisk.data ++ rest) := by
  intro hp
  by_cases hl : place_holder_for_asterisk.data.length ≤ t.length
  · exact h (List.prefix_of_prefix_length_le hp (List.prefix_append t _) hl)
  · have hlt : t.length < place_holder_for_asterisk.data.length := Nat.lt_of_not_le hl
    have h1 : (t ++ (place_holder_for_asterisk.data ++ rest))[t.length]? = some '&' := by
      rw [List.getElem?_append_right (Nat.le_refl _)]
      simp
      rfl
    obtain ⟨r, hr⟩ := hp
    rw [← hr, List.getElem?_append_left hlt] at h1
    have hpos : 1 ≤ t.length := by
      cases t with
      | nil => exact absurd rfl ht
      | cons c t => simp
    exact placeholder_getElem?_ne t.length hlt hpos h1

theorem escape_prefix_iff (c : Char) (cs : List Char) :
    "\\*".data <+: c :: cs ↔ c = '\\' ∧ cs.head? = some '*' := by
  show ['\\', '*'] <+: c :: cs ↔ _
  rw [List.cons_prefix_cons]
  cases cs with
  | nil => simp
  | cons d ds =>
    rw [List.cons_prefix_cons]
    simp [eq_comm]

/-- In the escaped pattern the placeholder is not a prefix of the first part
when read behind a non-empty text `t`, as long as `t` followed by the pattern
does not contain the placeholder. -/
theorem placeholder_not_prefix_head (s : List Char) :
    ∀ (t h : List Char) (tl : List (List Char)), t ≠ [] →
      ¬ place_holder_for_asterisk.data <:+: t ++ s →
      QString.splitAux "*".data 0
        (QString.replaceAux "\\*".data place_holder_for_asterisk.data 0 s) = h :: tl →
      ¬ place_holder_for_asterisk.data <+: t ++ h := by
  generalize hn : s.length = n
  induction n using Nat.strong_induction_on generalizing s with
  | _ n ih =>
    intro t h tl ht hinf hsplit
    have hpre : ¬ place_holder_for_asterisk.data <+: t := fun hp =>
      hinf ((hp.trans (List.prefix_append t s)).isInfix)
    cases s with
    | nil =>
      have : h = [] := by
        simp [QString.replaceAux, QString.splitAux] at hsplit
        exact hsplit.1
      rw [this, List.append_nil]
      exact hpre
    | cons c cs =>
      by_cases hesc : "\\*".data <+: c :: cs
      · obtain ⟨cs', hcs'⟩ := hesc
        rw [← hcs', QString.replaceAux_occurrence _ _ _ (by decide),
          QString.splitAux_star_append _ _ placeholder_star_not_mem] at hsplit
        cases hW : QString.splitAux "*".data 0
            (QString.replaceAux "\\*".data place_holder_for_asterisk.data 0 cs') with
        | nil => exact absurd hW (QString.splitAux_ne_nil _ _ _)
        | cons h' tl' =>
          rw [hW, QString.foldr_consHead_cons] at hsplit
          have : h = place_holder_for_asterisk.data ++ h' := (List.cons.inj hsplit).1.symm
          rw [this]
          exact placeholder_not_prefix_append t h' ht hpre
      · rw [QString.replaceAux_cons_of_not_prefix _ _ _ _ hesc] at hsplit
        by_cases hc : c = '*'
        · subst hc
          rw [show "*".data = ['*'] from rfl, QString.splitAux_star_cons_star] at hsplit
          have : h = [] := (List.cons.inj hsplit).1.symm
          rw [this, List.append_nil]
          exact hpre
        · rw [show "*".data = ['*'] from rfl, QString.splitAux_star_cons_of_ne _ _ hc] at hsplit
          cases hW : QString.splitAux ['*'] 0
              (QString.replaceAux "\\*".data place_holder_for_asterisk.data 0 cs) with
          | nil => exact absurd hW (QString.splitAux_ne_nil _ _ _)
          | cons h1 tl1 =>
            rw [hW] at hsplit
            have : h = c :: h1 := (List.cons.inj hsplit).1.symm
            rw [this]
            have hlen : cs.length < n := by rw [← hn]; simp
            have := ih cs.length hlen cs rfl (t ++ [c]) h1 tl1 (by simp)
              (by simpa using hinf) hW
            simpa using this

/-- The segments computed through the placeholder are the literal segments of
the pattern, for a pattern that does not contain the placeholder text. -/
theorem segments_refine_aux (p : List Char)
    (hp : ¬ place_holder_for_asterisk.data <:+: p) :
    (QString.splitAux "*".data 0
        (QString.replaceAux "\\*".data place_holder_for_asterisk.data 0 p)).map
      (QString.replaceAux place_holder_for_asterisk.data "*".data 0) =
      literalSegmentsAux false p := by
  generalize hn : p.length = n
  induction n using Nat.strong_induction_on generalizing p with
  | _ n ih =>
    cases p with
    | nil => rfl
    | cons c cs =>
      have hcs : ¬ place_holder_for_asterisk.data <:+: cs := fun hi => hp (List.infix_cons hi)
      by_cases hesc : "\\*".data <+: c :: cs
      · have hcond := (escape_prefix_iff c cs).1 hesc
        obtain ⟨cs', hcs'⟩ := hesc
        have hc : c = '\\' := hcond.1
        have hcs2 : cs = '*' :: cs' := by
          have : '\\' :: '*' :: cs' = c :: cs := hcs'
          exact (List.cons.inj this).2.symm
        subst hc
        subst hcs2
        have hcs'' : ¬ place_holder_for_asterisk.data <:+: cs' := fun hi =>
          hcs (List.infix_cons hi)
        have hlen : cs'.length < n := by rw [← hn]; simp; omega
        have IH := ih cs'.length hlen cs' hcs'' rfl
        rw [show ('\\' :: '*' :: cs') = "\\*".data ++ cs' from rfl,
          QString.replaceAux_occurrence _ _ _ (by decide),
          QString.splitAux_star_append _ _ placeholder_star_not_mem]
        cases hW : QString.splitAux "*".data 0
            (QString.replaceAux "\\*".data place_holder_for_asterisk.data 0 cs') with
        | nil => exact absurd hW (QString.splitAux_ne_nil _ _ _)
        | cons h' tl' =>
          rw [hW] at IH
          rw [QString.foldr_consHead_cons, List.map_cons,
            QString.replaceAux_occurrence _ _ _ placeholder_ne_nil]
          rw [List.map_cons] at IH
          show _ = literalSegmentsAux false ('\\' :: '*' :: cs')
          rw [literalSegmentsAux, if_pos ⟨rfl, rfl⟩, literalSegmentsAux, ← IH]
          rfl
      · have hcond : ¬ (c = '\\' ∧ cs.head? = some '*') := fun h =>
          hesc ((escape_prefix_iff c cs).2 h)
        have hlen : cs.length < n := by rw [← hn]; simp
        have IH := ih cs.length hlen cs hcs rfl
        rw [QString.replaceAux_cons_of_not_prefix _ _ _ _ hesc]
        by_cases hc : c = '*'
        · subst hc
          rw [show "*".data = ['*'] from rfl, QString.splitAux_star_cons_star, List.map_cons]
          rw [show "*".data = ['*'] from rfl] at IH
          rw [literalSegmentsAux, if_neg hcond, if_pos rfl, ← IH]
          rfl
        · rw [show "*".data = ['*'] from rfl, QString.splitAux_star_cons_of_ne _ _ hc]
          rw [show "*".data = ['*'] from rfl] at IH
          cases hW : QString.splitAux ['*'] 0
              (QString.replaceAux "\\*".data place_holder_for_asterisk.data 0 cs) with
          | nil => exact absurd hW (QString.splitAux_ne_nil _ _ _)
          | cons h1 tl1 =>
            rw [hW] at IH
            have hnp : ¬ place_holder_for_asterisk.data <+: c :: h1 :=
              placeholder_not_prefix_head cs [c] h1 tl1 (by simp) (by simpa using hp) hW
            rw [literalSegmentsAux, if_neg hcond, if_neg hc, ← IH]
            simp only [QString.consHead, List.map_cons]
            rw [QString.replaceAux_cons_of_not_prefix _ _ _ _ hnp]

end TypeDatabase

/-! ## Claims on the suppressed-warning patterns -/

namespace TypeDatabase

open SuppressedWarning

theorem replaceAux_isEmpty (before after s : List Char) (ha : after ≠ []) :
    (QString.replaceAux before after 0 s).isEmpty = s.isEmpty := by
  cases s with
  | nil => rfl
  | cons c cs =>
    rw [QString.replaceAux]
    split
    · cases after with
      | nil => exact absurd rfl ha
      | cons x xs => rfl
    · rfl

theorem segments_eq_of_data (p : String) :
    isSuppressedWarning.segments p =
      ((QString.splitAux "*".data 0
          (QString.replaceAux "\\*".data place_holder_for_asterisk.data 0 p.data)).filter
        (fun l => !l.isEmpty)).map
        (fun l => String.mk (QString.replaceAux place_holder_for_asterisk.data "*".data 0 l)) := by
  simp only [isSuppressedWarning.segments, QString.split, QString.replace, List.map_map]
  rfl

theorem filter_map_restore (L : List (List Char)) :
    (L.filter (fun l => !l.isEmpty)).map
        (fun l => String.mk (QString.replaceAux place_holder_for_asterisk.data "*".data 0 l)) =
      ((L.map (QString.replaceAux place_holder_for_asterisk.data "*".data 0)).filter
        (fun l => !l.isEmpty)).map String.mk := by
  induction L with
  | nil => rfl
  | cons l L ih =>
    have h := replaceAux_isEmpty place_holder_for_asterisk.data "*".data l (by decide)
    cases hl : l.isEmpty
    · simp only [List.filter_cons, List.map_cons, hl, h, Bool.not_false, if_true, ih]
    · simp only [List.filter_cons, List.map_cons, hl, h, Bool.not_true, Bool.false_eq_true,
        if_false, ih]

/-- The segments that the code searches for are the literal segments of the
pattern, for a pattern that does not contain the placeholder text. -/
theorem segments_eq_literalSegments (p : String)
    (hp : ¬ place_holder_for_asterisk.data <:+: p.data) :
    isSuppressedWarning.segments p = literalSegments p := by
  rw [segments_eq_of_data, filter_map_restore, segments_refine_aux p.data hp]
  rfl

theorem infix_iff_occursAt (m str : String) :
    str.data <:+: m.data ↔ ∃ q, OccursAt m str q := by
  constructor
  · rintro ⟨s, t, h⟩
    refine ⟨s.length, ?_, ?_⟩
    · have : m.length = (s ++ str.data ++ t).length := by rw [h]; rfl
      rw [this]
      simp
    · rw [← h, List.append_assoc, List.drop_left]
      exact List.prefix_append _ _
  · rintro ⟨q, _, hq⟩
    exact List.infix_iff_prefix_suffix.2 ⟨_, hq, List.drop_suffix q m.data⟩

theorem not_infix_of_not_mem (c : Char) (t l : List Char) (h : c ∉ l) : ¬ (c :: t) <:+: l :=
  fun hi => h (hi.subset (List.mem_cons_self c t))

theorem data_ne_nil_of_ne_empty (a : String) (h : a ≠ "") : a.data ≠ [] := by
  intro hd
  apply h
  cases a
  simp only at hd
  rw [hd]

/-- The pattern `a*b` has the two segments `a` and `b`. -/
theorem segments_glob (a b : String) (ha : a ≠ "") (hb : b ≠ "")
    (ha1 : '*' ∉ a.data) (ha2 : '\\' ∉ a.data)
    (ha3 : ¬ place_holder_for_asterisk.data <:+: a.data)
    (hb1 : '*' ∉ b.data) (hb2 : '\\' ∉ b.data)
    (hb3 : ¬ place_holder_for_asterisk.data <:+: b.data) :
    isSuppressedWarning.segments (a ++ "*" ++ b) = [a, b] := by
  have hdata : (a ++ "*" ++ b).data = a.data ++ ('*' :: b.data) := by
    simp [String.data_append]
  have hnoesc : ¬ "\\*".data <:+: a.data ++ ('*' :: b.data) := by
    apply not_infix_of_not_mem
    simp only [List.mem_append, List.mem_cons]
    rintro (h | h | h)
    · exact ha2 h
    · exact absurd h (by decide)
    · exact hb2 h
  have hane := data_ne_nil_of_ne_empty a ha
  have hbne := data_ne_nil_of_ne_empty b hb
  have hae : a.data.isEmpty = false := by
    cases h : a.data with
    | nil => exact absurd h hane
    | cons c cs => rfl
  have hbe : b.data.isEmpty = false := by
    cases h : b.data with
    | nil => exact absurd h hbne
    | cons c cs => rfl
  rw [segments_eq_of_data, hdata, QString.replaceAux_of_not_infix _ _ _ hnoesc,
    show "*".data = ['*'] from rfl, QString.splitAux_star_append _ _ ha1,
    QString.splitAux_star_cons_star, QString.splitAux_star_of_not_mem _ hb1,
    QString.foldr_consHead_cons, List.append_nil]
  simp only [List.filter_cons, hae, hbe, Bool.not_false, if_true, List.filter_nil, List.map_cons,
    List.map_nil]
  rw [QString.replaceAux_of_not_infix _ _ _ ha3, QString.replaceAux_of_not_infix _ _ _ hb3]

/-- The pattern `a\*b` has the single segment `a*b`. -/
theorem segments_escaped (a b : String)
    (ha1 : '*' ∉ a.data) (ha2 : '\\' ∉ a.data)
    (ha3 : ¬ place_holder_for_asterisk.data <:+: a.data)
    (hb1 : '*' ∉ b.data) (hb2 : '\\' ∉ b.data)
    (hb3 : ¬ place_holder_for_asterisk.data <:+: b.data) :
    isSuppressedWarning.segments (a ++ "\\*" ++ b) = [a ++ "*" ++ b] := by
  have hdata : (a ++ "\\*" ++ b).data = a.data ++ ("\\*".data ++ b.data) := by
    simp [String.data_append]
  have hnoesc : ¬ "\\*".data <:+: b.data := not_infix_of_not_mem _ _ _ hb2
  have h1 : QString.replaceAux "\\*".data place_holder_for_asterisk.data 0
      (a.data ++ ("\\*".data ++ b.data)) =
      a.data ++ (place_holder_for_asterisk.data ++ b.data) := by
    rw [QString.replaceAux_append_occurrence _ _ _ _ (by decide),
      QString.replaceAux_of_not_infix _ _ _ hnoesc]
    intro t ht hs hp
    cases t with
    | nil => exact ht rfl
    | cons c t =>
      have hc : c ∈ a.data := hs.subset (List.mem_cons_self c t)
      have : c = '\\' := by
        have hp' : ['\\', '*'] <+: c :: (t ++ ("\\*".data ++ b.data)) := hp
        rw [List.cons_prefix_cons] at hp'
        exact hp'.1.symm
      exact ha2 (this ▸ hc)
  have hnostar : '*' ∉ a.data ++ (place_holder_for_asterisk.data ++ b.data) := by
    simp only [List.mem_append]
    rintro (h | h | h)
    · exact ha1 h
    · exact placeholder_star_not_mem h
    · exact hb1 h
  have hne : (a.data ++ (place_holder_for_asterisk.data ++ b.data)).isEmpty = false := by
    cases h : a.data ++ (place_holder_for_asterisk.data ++ b.data) with
    | nil =>
      have h' := List.append_eq_nil.1 h
      exact absurd (List.append_eq_nil.1 h'.2).1 placeholder_ne_nil
    | cons c cs => rfl
  have h2 : QString.replaceAux place_holder_for_asterisk.data "*".data 0
      (a.data ++ (place_holder_for_asterisk.data ++ b.data)) = a.data ++ ("*".data ++ b.data) := by
    rw [QString.replaceAux_append_occurrence _ _ _ _ placeholder_ne_nil,
      QString.replaceAux_of_not_infix _ _ _ hb3]
    intro t ht hs
    apply placeholder_not_prefix_append t b.data ht
    intro hp
    exact ha3 (List.infix_iff_prefix_suffix.2 ⟨t, hp, hs⟩)
  rw [segments_eq_of_data, hdata, h1, show "*".data = ['*'] from rfl,
    QString.splitAux_star_of_not_mem _ hnostar]
  simp only [List.filter_cons, hne, Bool.not_false, if_true, List.filter_nil, List.map_cons,
    List.map_nil]
  rw [show ['*'] = "*".data from rfl, h2]
  congr 1
  apply String.ext
  simp [String.data_append]

end TypeDatabase

/-- C6, refuted as stated, at three inputs.  The pattern `*` has no literal
segment, so the condition of the claim holds for every message, and nothing is
suppressed.  The pattern `foo*foo` suppresses the message `foo`, in which the
two segments do not occur one behind the other.  The pattern that is the
placeholder text suppresses the message `*`, in which that text does not
occur. -/
theorem TypeDatabase.isSuppressedWarning_segments_counterexample :
    ¬ ((SuppressedWarning.singlePattern "*").isSuppressedWarning "warning" = true ↔
        SuppressedWarning.OccurInOrder "warning" (SuppressedWarning.literalSegments "*") 0) ∧
    ¬ ((SuppressedWarning.singlePattern "foo*foo").isSuppressedWarning "foo" = true ↔
        SuppressedWarning.OccurInOrder "foo" (SuppressedWarning.literalSegments "foo*foo") 0) ∧
    ¬ ((SuppressedWarning.singlePattern "&place_holder_for_asterisk;").isSuppressedWarning "*"
          = true ↔
        SuppressedWarning.OccurInOrder "*"
          (SuppressedWarning.literalSegments "&place_holder_for_asterisk;") 0) := by
  refine ⟨?_, ?_, ?_⟩
  · intro h
    have hcode : (SuppressedWarning.singlePattern "*").isSuppressedWarning "warning" = false := by
      decide
    have hsegs : SuppressedWarning.literalSegments "*" = [] := by decide
    rw [hcode, hsegs] at h
    exact Bool.false_ne_true (h.2 trivial)
  · intro h
    have hcode : (SuppressedWarning.singlePattern "foo*foo").isSuppressedWarning "foo" = true := by
      decide
    have hsegs : SuppressedWarning.literalSegments "foo*foo" = ["foo", "foo"] := by decide
    rw [hsegs] at h
    obtain ⟨q, _, ⟨_, _⟩, q2, hq2, ⟨hq2', hocc⟩, _⟩ := h.1 hcode
    have hlen := hocc.length_le
    rw [List.length_drop] at hlen
    have h3 : ("foo" : String).length = 3 := by decide
    have h3' : ("foo" : String).data.length = 3 := by decide
    omega
  · intro h
    have hcode : (SuppressedWarning.singlePattern
        "&place_holder_for_asterisk;").isSuppressedWarning "*" = true := by decide
    have hsegs : SuppressedWarning.literalSegments "&place_holder_for_asterisk;" =
        ["&place_holder_for_asterisk;"] := by decide
    rw [hsegs] at h
    obtain ⟨q, _, ⟨_, hocc⟩, _⟩ := h.1 hcode
    have hlen := hocc.length_le
    rw [List.length_drop] at hlen
    have h1 : ("*" : String).data.length = 1 := by decide
    have h27 : ("&place_holder_for_asterisk;" : String).data.length = 27 := by decide
    omega

/-- C6, amended.  For a single stored pattern `p` that does not contain the
placeholder text, with suppression enabled: a pattern without literal segment
suppresses nothing; a pattern with a literal segment suppresses `m` whenever
its literal segments occur in `m` in order, each occurrence starting no
earlier than the end of the one before it; and it suppresses `m` only if its
literal segments occur in `m` with starts that do not decrease. -/
theorem TypeDatabase.isSuppressedWarning_segments (p m : String)
    (hp : ¬ place_holder_for_asterisk.data <:+: p.data) :
    (SuppressedWarning.literalSegments p = [] →
      (SuppressedWarning.singlePattern p).isSuppressedWarning m = false) ∧
    (SuppressedWarning.literalSegments p ≠ [] →
      SuppressedWarning.OccurInOrder m (SuppressedWarning.literalSegments p) 0 →
      (SuppressedWarning.singlePattern p).isSuppressedWarning m = true) ∧
    ((SuppressedWarning.singlePattern p).isSuppressedWarning m = true →
      SuppressedWarning.literalSegments p ≠ [] ∧
        SuppressedWarning.OccurFromStarts m (SuppressedWarning.literalSegments p) 0) := by
  have h := isSuppressedWarning_iteration_eq_true_iff m p
  rw [segments_eq_literalSegments p hp] at h
  rw [isSuppressedWarning_singlePattern]
  refine ⟨?_, ?_, h.1⟩
  · intro hnil
    rw [Bool.eq_false_iff]
    exact fun ht => (h.1 ht).1 hnil
  · intro hne hocc
    exact h.2 ⟨hne, SuppressedWarning.OccurInOrder.fromStarts m _ 0 hocc⟩

/-- C6, amended, at the inputs of the specification: `foo*bar` suppresses
`foobazbar` and does not suppress `barfoo`. -/
theorem TypeDatabase.isSuppressedWarning_segments_witness :
    (SuppressedWarning.singlePattern "foo*bar").isSuppressedWarning "foobazbar" = true ∧
      (SuppressedWarning.singlePattern "foo*bar").isSuppressedWarning "barfoo" = false :=
  ⟨(TypeDatabase.isSuppressedWarning_segments "foo*bar" "foobazbar" (by decide)).2.1
      (by decide)
      (by
        have hsegs : SuppressedWarning.literalSegments "foo*bar" = ["foo", "bar"] := by decide
        rw [hsegs]
        exact ⟨0, Nat.le_refl 0, ⟨by decide, by decide⟩, 6, by decide, ⟨by decide, by decide⟩,
          trivial⟩),
   by decide⟩

/-- C7.  With suppression enabled, a database that holds the pattern `a*b`,
for non-empty `a` and `b` without asterisk, backslash and placeholder text,
suppresses every message `a ++ x ++ b`. -/
theorem TypeDatabase.isSuppressedWarning_glob (db : TypeDatabase) (a b x : String)
    (hs : db.m_suppressWarnings = true)
    (hmem : a ++ "*" ++ b ∈ db.m_suppressedWarnings)
    (ha : a ≠ "") (hb : b ≠ "")
    (ha1 : '*' ∉ a.data) (ha2 : '\\' ∉ a.data)
    (ha3 : ¬ place_holder_for_asterisk.data <:+: a.data)
    (hb1 : '*' ∉ b.data) (hb2 : '\\' ∉ b.data)
    (hb3 : ¬ place_holder_for_asterisk.data <:+: b.data) :
    db.isSuppressedWarning (a ++ x ++ b) = true := by
  have hit : isSuppressedWarning.iteration (a ++ x ++ b) (a ++ "*" ++ b) = true := by
    rw [isSuppressedWarning_iteration_eq_true_iff,
      segments_glob a b ha hb ha1 ha2 ha3 hb1 hb2 hb3]
    have hdata : (a ++ x ++ b).data = a.data ++ (x.data ++ b.data) := by
      simp [String.data_append]
    have hlen : (a ++ x ++ b).length = a.data.length + (x.data.length + b.data.length) := by
      show (a ++ x ++ b).data.length = _
      rw [hdata]
      simp
    refine ⟨List.cons_ne_nil _ _, 0, Nat.le_refl 0, ⟨Nat.zero_le _, ?_⟩,
      a.data.length + x.data.length, Nat.zero_le _, ⟨?_, ?_⟩, trivial⟩
    · rw [hdata, List.drop_zero]
      exact List.prefix_append _ _
    · rw [hlen]
      omega
    · rw [hdata, ← List.append_assoc, show a.data.length + x.data.length =
        (a.data ++ x.data).length by simp, List.drop_left]
  unfold isSuppressedWarning
  rw [hs]
  simp only [Bool.not_true, Bool.false_eq_true, if_false]
  exact (isSuppressedWarning_loop_eq_true_iff _ _).2 ⟨_, hmem, hit⟩

/-- C7 at the input of the specification: `foo*bar` suppresses `foobazbar`. -/
theorem TypeDatabase.isSuppressedWarning_glob_witness :
    (SuppressedWarning.singlePattern ("foo" ++ "*" ++ "bar")).isSuppressedWarning
      ("foo" ++ "baz" ++ "bar") = true :=
  TypeDatabase.isSuppressedWarning_glob (SuppressedWarning.singlePattern ("foo" ++ "*" ++ "bar"))
    "foo" "bar" "baz" rfl (by decide) (by decide) (by decide) (by decide) (by decide) (by decide)
    (by decide) (by decide) (by decide)

/-- C8.  An escaped asterisk is matched literally: with suppression enabled and
the single stored pattern `a\*b`, for `a` and `b` without asterisk, backslash
and placeholder text, a message is suppressed exactly when it contains the
text `a*b`. -/
theorem TypeDatabase.isSuppressedWarning_escaped_asterisk (a b m : String)
    (ha1 : '*' ∉ a.data) (ha2 : '\\' ∉ a.data)
    (ha3 : ¬ place_holder_for_asterisk.data <:+: a.data)
    (hb1 : '*' ∉ b.data) (hb2 : '\\' ∉ b.data)
    (hb3 : ¬ place_holder_for_asterisk.data <:+: b.data) :
    (SuppressedWarning.singlePattern (a ++ "\\*" ++ b)).isSuppressedWarning m = true ↔
      (a ++ "*" ++ b).data <:+: m.data := by
  rw [isSuppressedWarning_singlePattern, isSuppressedWarning_iteration_eq_true_iff,
    segments_escaped a b ha1 ha2 ha3 hb1 hb2 hb3, infix_iff_occursAt]
  constructor
  · rintro ⟨_, q, _, hocc, _⟩
    exact ⟨q, hocc⟩
  · rintro ⟨q, hocc⟩
    exact ⟨List.cons_ne_nil _ _, q, Nat.zero_le _, hocc, trivial⟩

/-- C8 at concrete inputs: the pattern `a\*b` suppresses `xa*by`, which
contains `a*b`, and does not suppress `xaby`. -/
theorem TypeDatabase.isSuppressedWarning_escaped_asterisk_witness :
    ((SuppressedWarning.singlePattern ("a" ++ "\\*" ++ "b")).isSuppressedWarning "xa*by" = true ↔
        ("a" ++ "*" ++ "b").data <:+: "xa*by".data) ∧
      (SuppressedWarning.singlePattern ("a" ++ "\\*" ++ "b")).isSuppressedWarning "xa*by" = true ∧
      (SuppressedWarning.singlePattern ("a" ++ "\\*" ++ "b")).isSuppressedWarning "xaby" = false :=
  ⟨TypeDatabase.isSuppressedWarning_escaped_asterisk "a" "b" "xa*by" (by decide) (by decide)
    (by decide) (by decide) (by decide) (by decide), by decide, by decide⟩

/-! ## Claim on the generation policy -/

/-- C9, refuted as stated: an object entry carries the constructor default
`GenerateAll`, in which the bit `GenerateForSubclass` is set, and
`generateCode()` is true for it. -/
theorem TypeEntry.generateCode_counterexample :
    (ObjectTypeEntry.new "Foo").codeGeneration = TypeEntry.GenerateAll ∧
      (ObjectTypeEntry.new "Foo").codeGeneration &&& TypeEntry.GenerateForSubclass
        = TypeEntry.GenerateForSubclass ∧
      (ObjectTypeEntry.new "Foo").generateCode = true ∧
      ¬ ((ObjectTypeEntry.new "Foo").generateCode = true ↔
        ((ObjectTypeEntry.new "Foo").codeGeneration &&& TypeEntry.GenerateForSubclass = 0 ∧
          (ObjectTypeEntry.new "Foo").codeGeneration ≠ TypeEntry.GenerateNothing)) := by
  refine ⟨rfl, by decide, rfl, ?_⟩
  intro h
  have h1 := (h.1 rfl).1
  revert h1
  decide

/-- C9, amended. `generateCode()` is true exactly when the policy value is
neither the value `GenerateForSubclass` nor the value `GenerateNothing`; a
policy that holds the bit `GenerateForSubclass` next to other bits generates
code. -/
theorem TypeEntry.generateCode_iff (e : TypeEntry) :
    (e.generateCode = true ↔
      e.codeGeneration ≠ TypeEntry.GenerateForSubclass ∧
        e.codeGeneration ≠ TypeEntry.GenerateNothing) ∧
    (e.codeGeneration &&& TypeEntry.GenerateForSubclass = TypeEntry.GenerateForSubclass →
      e.codeGeneration ≠ TypeEntry.GenerateForSubclass → e.generateCode = true) := by
  have h : e.generateCode = true ↔
      e.codeGeneration ≠ TypeEntry.GenerateForSubclass ∧
        e.codeGeneration ≠ TypeEntry.GenerateNothing := by
    simp [TypeEntry.generateCode, TypeEntry.codeGeneration]
  refine ⟨h, fun hb hne => h.2 ⟨hne, ?_⟩⟩
  intro h0
  rw [h0] at hb
  revert hb
  decide

/-! ## The type index table -/

namespace HeaderGenerator

theorem typeIndexDefineLinesText_append (g : HeaderGenerator) (es1 es2 : List TypeEntry)
    (first : Nat) :
    typeIndexDefineLinesText g (es1 ++ es2) first =
      typeIndexDefineLinesText g es1 first
        ++ typeIndexDefineLinesText g es2 (first + es1.length) := by
  induction es1 generalizing first with
  | nil => simp [typeIndexDefineLinesText]
  | cons e es ih =>
    have h : first + 1 + es.length = first + (es.length + 1) := by omega
    rw [List.cons_append, typeIndexDefineLinesText, typeIndexDefineLinesText, ih,
      List.length_cons, String.append_assoc, h]

theorem Emits.nil (g : HeaderGenerator) (s : QTextStream) (idx : Nat) :
    Emits g s idx (s, idx) [] :=
  ⟨by simp [typeIndexDefineLinesText], rfl, rfl, rfl, rfl⟩

theorem Emits.append {g : HeaderGenerator} {s : QTextStream} {idx : Nat}
    {r1 r2 : QTextStream × Nat} {es1 es2 : List TypeEntry}
    (h1 : Emits g s idx r1 es1) (h2 : Emits g r1.1 r1.2 r2 es2) :
    Emits g s idx r2 (es1 ++ es2) := by
  refine ⟨?_, ?_, ?_, ?_, ?_⟩
  · rw [h2.string_eq, h1.string_eq, h1.idx_eq, typeIndexDefineLinesText_append,
      String.append_assoc]
  · rw [h2.idx_eq, h1.idx_eq, List.length_append, Nat.add_assoc]
  · rw [h2.fieldWidth_eq, h1.fieldWidth_eq]
  · rw [h2.padChar_eq, h1.padChar_eq]
  · rw [h2.fieldAlignment_eq, h1.fieldAlignment_eq]
    cases es1 <;> cases es2 <;> simp

theorem pushn_zero (c : Char) : "".pushn c 0 = "" := rfl

/-- One define line: the stream after the statements of `writeTypeIndexDefineLine`
that write the line. -/
theorem writeLine_string (s : QTextStream) (name : String) (idx : Nat)
    (hw : s.fieldWidth = 0) (hp : s.padChar = ' ') :
    ((((((((s.setFieldAlignment .AlignLeft).putString "#define ").setFieldWidth 60).putString
      name).setFieldWidth 0).putChar ' ').putInt idx).endl).string =
      s.string ++ typeIndexDefineLineText name idx := by
  simp [QTextStream.endl, QTextStream.putInt, QTextStream.putChar, QTextStream.putString,
    QTextStream.setFieldWidth, QTextStream.setFieldAlignment, QTextStream.pad, hw, hp,
    typeIndexDefineLineText, pushn_zero, String.append_assoc]
  rfl

end HeaderGenerator

namespace HeaderGenerator

theorem Emits.single (g : HeaderGenerator) (s : QTextStream) (e : TypeEntry) (idx : Nat)
    (hw : s.fieldWidth = 0) (hp : s.padChar = ' ') :
    Emits g s idx
      ((((((((s.setFieldAlignment .AlignLeft).putString "#define ").setFieldWidth 60).putString
        (g.getTypeIndexVariableName e)).setFieldWidth 0).putChar ' ').putInt idx).endl,
        idx + 1) [e] := by
  refine ⟨?_, rfl, ?_, ?_, rfl⟩
  · rw [writeLine_string s _ idx hw hp]
    simp [typeIndexDefineLinesText]
  · simp [QTextStream.endl, QTextStream.putInt, QTextStream.putChar, QTextStream.putString,
      QTextStream.setFieldWidth, QTextStream.setFieldAlignment, hw]
  · simp [QTextStream.endl, QTextStream.putInt, QTextStream.putChar, QTextStream.putString,
      QTextStream.setFieldWidth, QTextStream.setFieldAlignment]

theorem writeTypeIndexDefineLine_entry_emits (g : HeaderGenerator) (e : TypeEntry) :
    ∀ (s : QTextStream) (idx : Nat), s.fieldWidth = 0 → s.padChar = ' ' →
      ∃ entries, Emits g s idx (writeTypeIndexDefineLine.entry g s e idx) entries := by
  induction e using TypeEntry.rec
    (motive_2 := fun o => ∀ f, o = some f → ∀ (s : QTextStream) (idx : Nat),
      s.fieldWidth = 0 → s.padChar = ' ' →
      ∃ entries, Emits g s idx (writeTypeIndexDefineLine.entry g s f idx) entries) with
  | mk fields m_flags ih =>
    intro s idx hw hp
    rw [writeTypeIndexDefineLine.entry]
    by_cases hg : (TypeEntry.mk fields m_flags).generateCode = true
    · simp only [hg, Bool.not_true, Bool.false_eq_true, if_false]
      have h1 := Emits.single g s (TypeEntry.mk fields m_flags) idx hw hp
      by_cases he : (TypeEntry.mk fields m_flags).isEnum = true
      · simp only [he, if_true]
        cases m_flags with
        | none => exact ⟨_, h1⟩
        | some flags =>
          obtain ⟨es, h2⟩ := ih flags rfl _ (idx + 1)
            (h1.fieldWidth_eq.trans hw) (h1.padChar_eq.trans hp)
          exact ⟨_, h1.append h2⟩
      · simp only [he, Bool.false_eq_true, if_false]
        exact ⟨_, h1⟩
    · simp only [hg, Bool.not_false, if_true]
      exact ⟨[], Emits.nil g s idx⟩
  | none =>
    rename_i f hf s idx hw hp
    cases hf
  | some v ih =>
    rename_i f hf s idx hw hp
    cases hf
    exact ih s idx hw hp

theorem writeTypeIndexDefineLine_emits (g : HeaderGenerator) (typeEntry : Option TypeEntry)
    (s : QTextStream) (idx : Nat) (hw : s.fieldWidth = 0) (hp : s.padChar = ' ') :
    ∃ entries, Emits g s idx (g.writeTypeIndexDefineLine s typeEntry idx) entries := by
  cases typeEntry with
  | none => exact ⟨[], Emits.nil g s idx⟩
  | some e => exact writeTypeIndexDefineLine_entry_emits g e s idx hw hp

/-- A `foreach` loop whose body emits define lines emits define lines. -/
theorem foldl_emits {α : Type} (g : HeaderGenerator)
    (body : QTextStream → α → Nat → QTextStream × Nat)
    (hbody : ∀ (a : α) (s : QTextStream) (idx : Nat), s.fieldWidth = 0 → s.padChar = ' ' →
      ∃ entries, Emits g s idx (body s a idx) entries)
    (l : List α) :
    ∀ (r : QTextStream × Nat), r.1.fieldWidth = 0 → r.1.padChar = ' ' →
      ∃ entries, Emits g r.1 r.2 (l.foldl (fun r a => body r.1 a r.2) r) entries := by
  induction l with
  | nil => intro r _ _; exact ⟨[], Emits.nil g r.1 r.2⟩
  | cons a l ih =>
    intro r hw hp
    obtain ⟨es1, h1⟩ := hbody a r.1 r.2 hw hp
    obtain ⟨es2, h2⟩ := ih (body r.1 a r.2) (h1.fieldWidth_eq.trans hw) (h1.padChar_eq.trans hp)
    exact ⟨es1 ++ es2, h1.append h2⟩

theorem writeTypeIndexDefine_emits (g : HeaderGenerator) (metaClass : AbstractMetaClass)
    (s : QTextStream) (idx : Nat) (hw : s.fieldWidth = 0) (hp : s.padChar = ' ') :
    ∃ entries, Emits g s idx (g.writeTypeIndexDefine s metaClass idx) entries := by
  unfold writeTypeIndexDefine
  by_cases hg : metaClass.typeEntry.generateCode = true
  · simp only [hg, Bool.not_true, Bool.false_eq_true, if_false]
    have h1 : ∃ entries, Emits g s idx
        (if (!metaClass.isNamespace) = true then
          g.writeTypeIndexDefineLine s (some metaClass.typeEntry) idx else (s, idx)) entries := by
      by_cases hn : (!metaClass.isNamespace) = true
      · rw [if_pos hn]
        exact writeTypeIndexDefineLine_emits g _ s idx hw hp
      · rw [if_neg hn]
        exact ⟨[], Emits.nil g s idx⟩
    obtain ⟨es1, h1⟩ := h1
    obtain ⟨es2, h2⟩ := foldl_emits g
      (fun s (metaEnum : AbstractMetaEnum) idx => g.writeTypeIndexDefineLine s metaEnum.typeEntry idx)
      (fun a s idx hw hp => writeTypeIndexDefineLine_emits g a.typeEntry s idx hw hp)
      metaClass.enums _ (h1.fieldWidth_eq.trans hw) (h1.padChar_eq.trans hp)
    exact ⟨es1 ++ es2, h1.append h2⟩
  · simp only [hg, Bool.not_false, if_true]
    exact ⟨[], Emits.nil g s idx⟩

/-- The two loops of `finishGeneration` over the classes and the global enums
emit define lines numbered from 0. -/
theorem typeIndex_loops_emit (g : HeaderGenerator) (s : QTextStream)
    (hw : s.fieldWidth = 0) (hp : s.padChar = ' ') :
    ∃ entries, Emits g s 0
      (g.globalEnums.foldl
        (fun r metaEnum => g.writeTypeIndexDefineLine r.1 metaEnum.typeEntry r.2)
        (g.classes.foldl (fun r metaClass => g.writeTypeIndexDefine r.1 metaClass r.2) (s, 0)))
      entries := by
  obtain ⟨es1, h1⟩ := foldl_emits g
    (fun s (metaClass : AbstractMetaClass) idx => g.writeTypeIndexDefine s metaClass idx)
    (fun a s idx hw hp => writeTypeIndexDefine_emits g a s idx hw hp)
    g.classes (s, 0) hw hp
  obtain ⟨es2, h2⟩ := foldl_emits g
    (fun s (metaEnum : AbstractMetaEnum) idx => g.writeTypeIndexDefineLine s metaEnum.typeEntry idx)
    (fun a s idx hw hp => writeTypeIndexDefineLine_emits g a.typeEntry s idx hw hp)
    g.globalEnums _ (h1.fieldWidth_eq.trans hw) (h1.padChar_eq.trans hp)
  exact ⟨es1 ++ es2, h1.append h2⟩

/-- C10. The type index counter of `finishGeneration` is gap-free and
increasing: whenever the class list is not empty there is a list `entries` of
indexed entries such that the stream holds, after the heading, exactly one
define line per entry, the `k`-th line (counted from 1) carrying the index
`k - 1`, followed by the `_IDX_COUNT` line whose value is the number of
define lines; that number is also the final value of the counter. -/
theorem finishGeneration_typeIndices_gap_free (g : HeaderGenerator) (h : g.classes ≠ []) :
    ∃ (entries : List TypeEntry) (s_pts : QTextStream),
      finishGeneration.typeIndices g = some (s_pts, entries.length) ∧
      s_pts.string =
        "// Type indices\n" ++ typeIndexDefineLinesText g entries 0
          ++ typeIndexCountLineText g (!entries.isEmpty) entries.length
          ++ "\n" := by
  have hc : g.classes.isEmpty = false := by
    cases hcl : g.classes with
    | nil => exact absurd hcl h
    | cons a l => rfl
  obtain ⟨entries, he⟩ := typeIndex_loops_emit g
    ((QTextStream.new "").putString "// Type indices").endl rfl rfl
  simp only [finishGeneration.typeIndices, hc, Bool.false_eq_true, if_false]
  generalize List.foldl (fun r (metaEnum : AbstractMetaEnum) =>
      g.writeTypeIndexDefineLine r.1 metaEnum.typeEntry r.2)
    (List.foldl (fun r metaClass => g.writeTypeIndexDefine r.1 metaClass r.2)
      (((QTextStream.new "").putString "// Type indices").endl, 0) g.classes)
    g.globalEnums = r at he
  obtain ⟨s, n⟩ := r
  have hn : n = entries.length := by simpa using he.idx_eq
  have hs := he.string_eq
  have hw := he.fieldWidth_eq
  have hp := he.padChar_eq
  have ha := he.fieldAlignment_eq
  simp only at hs hw hp ha
  subst hn
  refine ⟨entries, _, ⟨rfl, ?_⟩⟩
  have h0 : ((QTextStream.new "").putString "// Type indices").endl.string
      = "// Type indices\n" := by decide
  rw [h0] at hs
  have hw0 : s.fieldWidth = 0 := hw
  have hp0 : s.padChar = ' ' := hp
  cases hE : entries.isEmpty
  · have ha0 : s.fieldAlignment = FieldAlignment.AlignLeft := by simpa [hE] using ha
    simp [QTextStream.endl, QTextStream.putInt, QTextStream.putChar, QTextStream.putString,
      QTextStream.setFieldWidth, QTextStream.pad, hw0, hp0, ha0, hs, typeIndexCountLineText,
      pushn_zero, String.append_assoc]
    rfl
  · have ha0 : s.fieldAlignment = FieldAlignment.AlignRight := by
      rw [ha, hE]
      rfl
    simp [QTextStream.endl, QTextStream.putInt, QTextStream.putChar, QTextStream.putString,
      QTextStream.setFieldWidth, QTextStream.pad, hw0, hp0, ha0, hs, typeIndexCountLineText,
      pushn_zero, String.append_assoc]
    rfl

set_option maxRecDepth 100000 in
/-- C10 at a concrete metamodel: the class `A`, its enum `A::E`, the flags entry
`Es` of that enum and the global enum `G` receive the indices 0, 1, 2, 3 and
the count is 4. -/
theorem finishGeneration_typeIndices_gap_free_witness :
    Examples.generator.classes ≠ [] ∧
      (finishGeneration.typeIndices Examples.generator).map (fun r => (r.1.string, r.2)) =
        some ("// Type indices\n#define SBK_A_IDX                                                    0\n#define SBK_A::E_IDX                                                 1\n#define SBK_Es_IDX                                                   2\n#define SBK_G_IDX                                                    3\n#define SBK_mod_IDX_COUNT                                            4\n\n", 4) ∧
      ∃ (entries : List TypeEntry) (s_pts : QTextStream),
        finishGeneration.typeIndices Examples.generator = some (s_pts, entries.length) ∧
        s_pts.string =
          "// Type indices\n" ++ typeIndexDefineLinesText Examples.generator entries 0
            ++ typeIndexCountLineText Examples.generator (!entries.isEmpty) entries.length
            ++ "\n" :=
  ⟨List.cons_ne_nil _ _, by decide,
   finishGeneration_typeIndices_gap_free Examples.generator (List.cons_ne_nil _ _)⟩

end HeaderGenerator

/-! ## Streams of field width 0 -/

namespace QTextStream

theorem pad_of_fieldWidth_zero (s : QTextStream) (str : String) (h : s.fieldWidth = 0) :
    s.pad str = str := by
  have hp : ∀ c : Char, "".pushn c 0 = "" := fun _ => rfl
  unfold pad
  rw [h]
  cases s.fieldAlignment <;>
    simp [hp, String.append_empty, String.empty_append]

theorem write_fieldWidth (s : QTextStream) (text : String) :
    (s.write text).fieldWidth = s.fieldWidth := rfl

theorem write_string (s : QTextStream) (text : String) :
    (s.write text).string = s.string ++ text := rfl

theorem write_write (s : QTextStream) (a b : String) :
    (s.write a).write b = s.write (a ++ b) := by
  simp [write, String.append_assoc]

theorem write_empty (s : QTextStream) : s.write "" = s := by
  cases s
  simp [write, String.append_empty]

/-- On a stream of field width 0 the output operators append their text. -/
theorem putString_eq_write (s : QTextStream) (str : String) (h : s.fieldWidth = 0) :
    s.putString str = s.write str := by
  simp [putString, write, pad_of_fieldWidth_zero s str h]

theorem putChar_eq_write (s : QTextStream) (c : Char) (h : s.fieldWidth = 0) :
    s.putChar c = s.write (String.singleton c) :=
  putString_eq_write s _ h

theorem putInt_eq_write (s : QTextStream) (i : Nat) (h : s.fieldWidth = 0) :
    s.putInt i = s.write (toString i) :=
  putString_eq_write s _ h

theorem endl_eq_write (s : QTextStream) (h : s.fieldWidth = 0) :
    s.endl = s.write "\n" :=
  putString_eq_write s _ h

theorem ite_write (c : Bool) (s : QTextStream) (text : String) :
    (if c = true then s.write text else s) = s.write (if c = true then text else "") := by
  cases c <;> simp [write_empty]

end QTextStream

/-! ## Member declarations -/

namespace HeaderGenerator

/-- On a stream of field width 0, `writeFunction` appends the text of the
member emission policy. -/
theorem writeFunction_eq_write (g : HeaderGenerator) (depth : Nat) (s : QTextStream)
    (func : AbstractMetaFunction) (h : s.fieldWidth = 0) :
    g.writeFunction depth s func = s.write (memberText g depth func) := by
  unfold writeFunction memberText
  by_cases h1 : func.isCopyConstructor = true
  · simp [h1, QTextStream.write_empty]
  by_cases h2 : (func.isConstructor && func.isUserAdded) = true
  · simp only [h1, h2, Bool.false_eq_true, if_false, if_true, Bool.or_true,
      QTextStream.write_empty]
  simp only [h1, h2, Bool.false_eq_true, if_false, Bool.or_false]
  have hf : ∀ (c : Bool),
      (if c = true then
          ((((((((s.write (g.INDENT depth)).putString "inline ").putString
            (if func.isStatic = true then "static " else "")).putString
            (g.functionSignature func "" "_protected" .NoOption)).putString " \x7b ").putString
            (if func.type.isSome = true then "return " else "")).putString
            func.ownerClass.qualifiedCppName).putString "::").write
            (g.writeFunctionCall func) |>.putString "; \x7d" |>.endl
        else s) =
      s.write (if c = true then forwardingDeclarationText g depth func else "") := by
    intro c
    cases c
    · simp [QTextStream.write_empty]
    · simp [QTextStream.putString_eq_write, QTextStream.endl_eq_write,
        QTextStream.write_fieldWidth, h, QTextStream.write_write, forwardingDeclarationText,
        String.append_assoc]
  rw [hf]
  generalize (if (g.AVOID_PROTECTED_HACK && (func.isProtected && !func.isConstructor)) = true
    then forwardingDeclarationText g depth func else "") = fwd
  by_cases h3 : (func.isPrivate || (func.isModifiedRemoved && !func.isAbstract)) = true
  · simp only [h3, if_true, String.append_empty]
  simp only [h3, Bool.false_eq_true, if_false]
  by_cases h4 : (func.isConstructor || func.isAbstract || func.isVirtual) = true
  · simp only [h4, if_true]
    by_cases h5 : (func.isVirtual || func.isAbstract) = true
    · simp [h5, QTextStream.putString_eq_write, QTextStream.endl_eq_write,
        QTextStream.putChar_eq_write,
        QTextStream.write_fieldWidth, h, QTextStream.write_write, overrideDeclarationText,
        String.append_assoc]
      rfl
    · simp [h5, QTextStream.putString_eq_write, QTextStream.endl_eq_write,
        QTextStream.putChar_eq_write,
        QTextStream.write_fieldWidth, h, QTextStream.write_write, overrideDeclarationText,
        String.append_assoc]
      rfl
  · simp only [h4, Bool.false_eq_true, if_false, String.append_empty]

end HeaderGenerator

/-! ## Claims on the member declarations -/

/-- C16. For a copy constructor and for a user-added constructor
`writeFunction` emits nothing: it returns the stream as it got it, in both
build modes and whatever the other flags of the function are. -/
theorem HeaderGenerator.writeFunction_skips_copy_and_added_constructors (g : HeaderGenerator)
    (depth : Nat) (s : QTextStream) (func : AbstractMetaFunction)
    (h : func.isCopyConstructor = true ∨
      (func.isConstructor = true ∧ func.isUserAdded = true)) :
    g.writeFunction depth s func = s := by
  unfold HeaderGenerator.writeFunction
  rcases h with h | ⟨h1, h2⟩
  · simp [h]
  · simp [h1, h2]

/-- C16 at concrete functions: the copy constructor of `A`, and a user-added
constructor that is also virtual and protected, in the build with
`AVOID_PROTECTED_HACK`. -/
theorem HeaderGenerator.writeFunction_skips_copy_and_added_constructors_witness :
    Examples.generator.writeFunction 1 (QTextStream.new "class") Examples.copyConstructor
        = QTextStream.new "class" ∧
      Examples.protectedHackGenerator.writeFunction 1 (QTextStream.new "class")
          { Examples.constructor with isUserAdded := true, isVirtual := true,
                                      isProtected := true }
        = QTextStream.new "class" :=
  ⟨HeaderGenerator.writeFunction_skips_copy_and_added_constructors _ _ _ _ (Or.inl rfl),
   HeaderGenerator.writeFunction_skips_copy_and_added_constructors _ _ _ _ (Or.inr ⟨rfl, rfl⟩)⟩

/-- C17, refuted as stated: in the build with `AVOID_PROTECTED_HACK`, a
protected function that is marked removed and is not abstract still gets its
forwarding declaration. -/
theorem HeaderGenerator.writeFunction_private_or_removed_counterexample :
    Examples.protectedHackGenerator.AVOID_PROTECTED_HACK = true ∧
      Examples.removedProtected.isModifiedRemoved = true ∧
      Examples.removedProtected.isAbstract = false ∧
      Examples.removedProtected.isProtected = true ∧
      (Examples.protectedHackGenerator.writeFunction 1 (QTextStream.new "")
          Examples.removedProtected).string
        = "    inline static helper_protected() \x7b return A::helper(); \x7d\n" := by
  decide

/-- C17, amended. For a private function and for a function that is marked
removed and is not abstract, `writeFunction` emits no override declaration.
It emits nothing at all without `AVOID_PROTECTED_HACK`, and with it unless the
function is protected and neither a constructor nor a copy constructor; for
such a function it emits exactly the forwarding declaration. -/
theorem HeaderGenerator.writeFunction_private_or_removed (g : HeaderGenerator) (depth : Nat)
    (s : QTextStream) (func : AbstractMetaFunction)
    (h : func.isPrivate = true ∨
      (func.isModifiedRemoved = true ∧ func.isAbstract = false)) :
    ((g.AVOID_PROTECTED_HACK = false ∨ func.isProtected = false ∨ func.isConstructor = true ∨
        func.isCopyConstructor = true) →
      g.writeFunction depth s func = s) ∧
    (g.AVOID_PROTECTED_HACK = true → func.isProtected = true → func.isConstructor = false →
      func.isCopyConstructor = false → s.fieldWidth = 0 →
      (g.writeFunction depth s func).string =
        s.string ++ HeaderGenerator.forwardingDeclarationText g depth func) := by
  have hskip : (func.isPrivate || (func.isModifiedRemoved && !func.isAbstract)) = true := by
    rcases h with h | ⟨h1, h2⟩
    · simp [h]
    · simp [h1, h2]
  constructor
  · intro hno
    unfold HeaderGenerator.writeFunction
    by_cases h1 : func.isCopyConstructor = true
    · simp [h1]
    by_cases h2 : (func.isConstructor && func.isUserAdded) = true
    · simp only [h1, h2, Bool.false_eq_true, if_false, if_true]
    have hfw : (g.AVOID_PROTECTED_HACK && (func.isProtected && !func.isConstructor)) = false := by
      rcases hno with hno | hno | hno | hno
      · simp [hno]
      · simp [hno]
      · simp [hno]
      · exact absurd hno h1
    simp only [h1, h2, hfw, hskip, Bool.false_eq_true, if_false, if_true]
  · intro ha hp hc hcc hw
    rw [HeaderGenerator.writeFunction_eq_write g depth s func hw, QTextStream.write_string]
    unfold HeaderGenerator.memberText
    simp [ha, hp, hc, hcc, hskip]

/-- C17, amended, at concrete functions: a private virtual function is not
written in either build mode; the removed protected function is not written
without `AVOID_PROTECTED_HACK` and gets only its forwarding declaration with
it. -/
theorem HeaderGenerator.writeFunction_private_or_removed_witness :
    Examples.generator.writeFunction 1 (QTextStream.new "") Examples.privateFunction
        = QTextStream.new "" ∧
      Examples.protectedHackGenerator.writeFunction 1 (QTextStream.new "")
          Examples.privateFunction = QTextStream.new "" ∧
      Examples.generator.writeFunction 1 (QTextStream.new "") Examples.removedProtected
        = QTextStream.new "" ∧
      (Examples.protectedHackGenerator.writeFunction 1 (QTextStream.new "")
          Examples.removedProtected).string
        = (QTextStream.new "").string ++
          HeaderGenerator.forwardingDeclarationText Examples.protectedHackGenerator 1
            Examples.removedProtected :=
  ⟨(HeaderGenerator.writeFunction_private_or_removed Examples.generator 1 _
      Examples.privateFunction (Or.inl rfl)).1 (Or.inl rfl),
   (HeaderGenerator.writeFunction_private_or_removed Examples.protectedHackGenerator 1 _
      Examples.privateFunction (Or.inl rfl)).1 (Or.inr (Or.inl rfl)),
   (HeaderGenerator.writeFunction_private_or_removed Examples.generator 1 _
      Examples.removedProtected (Or.inr ⟨rfl, rfl⟩)).1 (Or.inl rfl),
   (HeaderGenerator.writeFunction_private_or_removed Examples.protectedHackGenerator 1 _
      Examples.removedProtected (Or.inr ⟨rfl, rfl⟩)).2 rfl rfl rfl rfl rfl⟩

/-- C18. For a function that is not a copy constructor, not a user-added
constructor, not private and not removed without being abstract,
`writeFunction` emits, behind the forwarding declaration that the build mode
may ask for, the override declaration exactly when the function is a
constructor, abstract or virtual, and it emits it once; the declaration begins
with `virtual ` exactly when the function is virtual or abstract. -/
theorem HeaderGenerator.writeFunction_override_declaration (g : HeaderGenerator) (depth : Nat)
    (s : QTextStream) (func : AbstractMetaFunction) (hs : s.fieldWidth = 0)
    (h1 : func.isCopyConstructor = false)
    (h2 : ¬ (func.isConstructor = true ∧ func.isUserAdded = true))
    (h3 : func.isPrivate = false)
    (h4 : ¬ (func.isModifiedRemoved = true ∧ func.isAbstract = false)) :
    (g.writeFunction depth s func).string =
      s.string
        ++ (if g.AVOID_PROTECTED_HACK && (func.isProtected && !func.isConstructor) then
              HeaderGenerator.forwardingDeclarationText g depth func
            else "")
        ++ (if func.isConstructor || func.isAbstract || func.isVirtual then
              g.INDENT depth ++ (if func.isVirtual || func.isAbstract then "virtual " else "")
                ++ g.functionSignature func "" ""
                    (if func.isVirtual || func.isAbstract then
                      Generator.Options.OriginalTypeDescription
                     else Generator.Options.NoOption)
                ++ ";\n"
            else "") := by
  rw [HeaderGenerator.writeFunction_eq_write g depth s func hs, QTextStream.write_string]
  unfold HeaderGenerator.memberText
  have h2' : (func.isConstructor && func.isUserAdded) = false := by
    cases hc : func.isConstructor <;> cases hu : func.isUserAdded <;> simp_all
  have h4' : (func.isModifiedRemoved && !func.isAbstract) = false := by
    cases hc : func.isModifiedRemoved <;> cases hu : func.isAbstract <;> simp_all
  simp only [h1, h2', h3, h4', Bool.or_false, Bool.false_eq_true, if_false,
    HeaderGenerator.overrideDeclarationText, String.append_assoc]

/-- C18 at concrete functions: an abstract function that is marked removed is
declared, with `virtual `; a constructor that is neither virtual nor abstract
is declared without it. -/
theorem HeaderGenerator.writeFunction_override_declaration_witness :
    (Examples.generator.writeFunction 1 (QTextStream.new "") Examples.removedAbstract).string
        = "    virtual draw();\n" ∧
      (Examples.generator.writeFunction 1 (QTextStream.new "") Examples.constructor).string
        = "    A();\n" := by
  have ha := HeaderGenerator.writeFunction_override_declaration Examples.generator 1
    (QTextStream.new "") Examples.removedAbstract rfl rfl (by decide) rfl (by decide)
  have hc := HeaderGenerator.writeFunction_override_declaration Examples.generator 1
    (QTextStream.new "") Examples.constructor rfl rfl (by decide) rfl (by decide)
  exact ⟨ha.trans (by decide), hc.trans (by decide)⟩

/-- C19. With `AVOID_PROTECTED_HACK`, for a protected function that is neither
a constructor nor a copy constructor, `writeFunction` emits first, and once,
the inline forwarding declaration: the signature with the suffix `_protected`,
with `static ` exactly for a static function, and a body that calls the
function of the owner class, behind `return ` exactly for a function with a
return type; what follows is at most the override declaration.  Without
`AVOID_PROTECTED_HACK` the output of `writeFunction` is at most the override
declaration. -/
theorem HeaderGenerator.writeFunction_forwarding_declaration :
    (∀ (g : HeaderGenerator) (depth : Nat) (s : QTextStream) (func : AbstractMetaFunction),
      g.AVOID_PROTECTED_HACK = true → func.isProtected = true → func.isConstructor = false →
      func.isCopyConstructor = false → s.fieldWidth = 0 →
      (g.writeFunction depth s func).string =
        s.string
          ++ (g.INDENT depth ++ "inline " ++ (if func.isStatic then "static " else "")
              ++ g.functionSignature func "" "_protected" .NoOption ++ " \x7b "
              ++ (if func.type.isSome then "return " else "")
              ++ func.ownerClass.qualifiedCppName ++ "::" ++ g.writeFunctionCall func
              ++ "; \x7d\n")
          ++ (if func.isPrivate || (func.isModifiedRemoved && !func.isAbstract) then ""
              else if func.isConstructor || func.isAbstract || func.isVirtual then
                HeaderGenerator.overrideDeclarationText g depth func
              else "")) ∧
    (∀ (g : HeaderGenerator) (depth : Nat) (s : QTextStream) (func : AbstractMetaFunction),
      g.AVOID_PROTECTED_HACK = false → s.fieldWidth = 0 →
      (g.writeFunction depth s func).string =
        s.string
          ++ (if func.isCopyConstructor || (func.isConstructor && func.isUserAdded) ||
                func.isPrivate || (func.isModifiedRemoved && !func.isAbstract) then ""
              else if func.isConstructor || func.isAbstract || func.isVirtual then
                HeaderGenerator.overrideDeclarationText g depth func
              else "")) := by
  constructor
  · intro g depth s func ha hp hc hcc hs
    rw [HeaderGenerator.writeFunction_eq_write g depth s func hs, QTextStream.write_string]
    unfold HeaderGenerator.memberText
    simp only [ha, hp, hc, hcc, Bool.false_and, Bool.or_false, Bool.false_eq_true, if_false,
      Bool.not_false, Bool.and_self, if_true, HeaderGenerator.forwardingDeclarationText,
      String.append_assoc]
  · intro g depth s func ha hs
    rw [HeaderGenerator.writeFunction_eq_write g depth s func hs, QTextStream.write_string]
    unfold HeaderGenerator.memberText
    by_cases h1 : (func.isCopyConstructor || (func.isConstructor && func.isUserAdded)) = true
    · simp only [h1, if_true, Bool.true_or]
    · have h1' : (func.isCopyConstructor || (func.isConstructor && func.isUserAdded)) = false := by
        simpa using h1
      simp only [h1', ha, Bool.false_and, Bool.false_eq_true, if_false, Bool.false_or,
        String.empty_append]

/-- C19 at a concrete function: the protected static function `helper` with a
return type gets its forwarding declaration with `AVOID_PROTECTED_HACK` and
nothing without it. -/
theorem HeaderGenerator.writeFunction_forwarding_declaration_witness :
    (Examples.protectedHackGenerator.writeFunction 1 (QTextStream.new "")
        { Examples.removedProtected with isModifiedRemoved := false }).string
      = "    inline static helper_protected() \x7b return A::helper(); \x7d\n" ∧
    (Examples.generator.writeFunction 1 (QTextStream.new "")
        { Examples.removedProtected with isModifiedRemoved := false }).string = "" := by
  have h1 := HeaderGenerator.writeFunction_forwarding_declaration.1
    Examples.protectedHackGenerator 1 (QTextStream.new "")
    { Examples.removedProtected with isModifiedRemoved := false } rfl rfl rfl rfl rfl
  have h2 := HeaderGenerator.writeFunction_forwarding_declaration.2
    Examples.generator 1 (QTextStream.new "")
    { Examples.removedProtected with isModifiedRemoved := false } rfl rfl
  exact ⟨h1.trans (by decide), h2.trans (by decide)⟩

/-! ## Converter functions -/

namespace HeaderGenerator

theorem typeCheck_of_wellFormed (g : HeaderGenerator) (ctor : AbstractMetaFunction)
    (h : sourceWellFormed ctor = true) :
    writeTypeConverterImpl.typeCheck g ctor = some (sourceCheckName g ctor) := by
  unfold writeTypeConverterImpl.typeCheck sourceCheckName
  unfold sourceWellFormed at h
  cases hop : ctor.isConversionOperator
  · cases harg : ctor.arguments with
    | nil => simp [hop, harg] at h
    | cons first rest => simp
  · simp

theorem toCppConv_of_wellFormed (g : HeaderGenerator) (ctor : AbstractMetaFunction)
    (h : sourceWellFormed ctor = true) :
    writeTypeConverterImpl.toCppConv g ctor = some (sourceConversionText g ctor) := by
  unfold writeTypeConverterImpl.toCppConv sourceConversionText
  unfold sourceWellFormed at h
  cases hop : ctor.isConversionOperator
  · cases harg : ctor.arguments with
    | nil => simp [hop, harg] at h
    | cons first rest => simp
  · simp

theorem isConvertibleLoop_later (g : HeaderGenerator) (depth : Nat) (s : QTextStream)
    (hs : s.fieldWidth = 0) (ctors : List AbstractMetaFunction)
    (hwf : ∀ ctor ∈ ctors, sourceWellFormed ctor = true) (acc : String) :
    writeTypeConverterImpl.isConvertibleLoop g depth (s.write acc) false ctors
      = some (s.write (String.intercalate.go acc ("\n" ++ g.INDENT (depth + 1) ++ " || ")
          (ctors.map (disjunctText g)))) := by
  induction ctors generalizing acc with
  | nil => simp [writeTypeConverterImpl.isConvertibleLoop, String.intercalate.go]
  | cons ctor rest ih =>
    have hrest : ∀ c ∈ rest, sourceWellFormed c = true :=
      fun c hc => hwf c (List.mem_cons_of_mem _ hc)
    rw [writeTypeConverterImpl.isConvertibleLoop,
      typeCheck_of_wellFormed g ctor (hwf ctor (List.mem_cons_self _ _))]
    simp only [Bool.false_eq_true, if_false, List.map_cons, String.intercalate.go]
    rw [← ih hrest]
    simp [QTextStream.putString_eq_write, QTextStream.endl_eq_write,
      QTextStream.write_fieldWidth, hs, QTextStream.write_write, disjunctText,
      String.append_assoc]

theorem isConvertibleLoop_first (g : HeaderGenerator) (depth : Nat) (s : QTextStream)
    (hs : s.fieldWidth = 0) (ctors : List AbstractMetaFunction)
    (hwf : ∀ ctor ∈ ctors, sourceWellFormed ctor = true) (hne : ctors ≠ []) :
    writeTypeConverterImpl.isConvertibleLoop g depth s true ctors
      = some (s.write (String.intercalate ("\n" ++ g.INDENT (depth + 1) ++ " || ")
          (ctors.map (disjunctText g)))) := by
  cases ctors with
  | nil => exact absurd rfl hne
  | cons ctor rest =>
    have hrest : ∀ c ∈ rest, sourceWellFormed c = true :=
      fun c hc => hwf c (List.mem_cons_of_mem _ hc)
    rw [writeTypeConverterImpl.isConvertibleLoop,
      typeCheck_of_wellFormed g ctor (hwf ctor (List.mem_cons_self _ _))]
    simp only [if_true, List.map_cons, String.intercalate]
    rw [← isConvertibleLoop_later g depth s hs rest hrest]
    simp [QTextStream.putString_eq_write, QTextStream.write_fieldWidth, hs,
      QTextStream.write_write, disjunctText]

theorem toCppLoop_eq_write (g : HeaderGenerator) (depth : Nat) (type : TypeEntry)
    (ctors : List AbstractMetaFunction)
    (hwf : ∀ ctor ∈ ctors, sourceWellFormed ctor = true) (s : QTextStream)
    (hs : s.fieldWidth = 0) (firstImplicitIf : Bool) :
    writeTypeConverterImpl.toCppLoop g depth type s firstImplicitIf ctors
      = some (s.write (branchesText g depth type firstImplicitIf
          (ctors.filter (fun source => !source.isModifiedRemoved)))) := by
  induction ctors generalizing s firstImplicitIf with
  | nil => simp [writeTypeConverterImpl.toCppLoop, branchesText, QTextStream.write_empty]
  | cons ctor rest ih =>
    have hrest : ∀ c ∈ rest, sourceWellFormed c = true :=
      fun c hc => hwf c (List.mem_cons_of_mem _ hc)
    have hctor := hwf ctor (List.mem_cons_self _ _)
    rw [writeTypeConverterImpl.toCppLoop]
    cases hrem : ctor.isModifiedRemoved
    · simp only [Bool.false_eq_true, if_false, typeCheck_of_wellFormed g ctor hctor,
        toCppConv_of_wellFormed g ctor hctor, List.filter_cons, hrem, Bool.not_false, if_true,
        branchesText]
      rw [ih hrest]
      · cases firstImplicitIf <;>
          simp [QTextStream.putString_eq_write, QTextStream.endl_eq_write,
            QTextStream.putChar_eq_write, QTextStream.write_fieldWidth, hs,
            QTextStream.write_write, branchText, String.append_assoc,
            String.empty_append] <;> rfl
      · cases firstImplicitIf <;>
          simp [QTextStream.putString_eq_write, QTextStream.endl_eq_write,
            QTextStream.putChar_eq_write, QTextStream.write_fieldWidth, hs]
    · simp only [if_true, List.filter_cons, hrem, Bool.not_true, Bool.false_eq_true, if_false]
      exact ih hrest s hs firstImplicitIf

theorem writeTypeConverterImpl_eq_write (g : HeaderGenerator) (depth : Nat) (s : QTextStream)
    (type : TypeEntry) (hs : s.fieldWidth = 0) (hrule : type.hasConversionRule = false)
    (hsrc : (conversionSources g type).isEmpty = false)
    (hwf : ∀ source ∈ conversionSources g type, sourceWellFormed source = true) :
    g.writeTypeConverterImpl depth s type
      = some (s.write (isConvertibleText g depth type ++ toCppText g depth type)) := by
  have hsrc' : writeTypeConverterImpl.implicitConvs g type ≠ [] := by
    intro hnil
    have hsrc2 : (writeTypeConverterImpl.implicitConvs g type).isEmpty = false := hsrc
    rw [hnil] at hsrc2
    exact absurd hsrc2 (by decide)
  have hwf' : ∀ ctor ∈ writeTypeConverterImpl.implicitConvs g type,
      sourceWellFormed ctor = true := hwf
  have hempty : (writeTypeConverterImpl.implicitConvs g type).isEmpty = false := by
    cases h : writeTypeConverterImpl.implicitConvs g type with
    | nil => exact absurd h hsrc'
    | cons a l => rfl
  have hw : ∀ (t : QTextStream) (text : String), t.fieldWidth = 0 →
      (t.write text).fieldWidth = 0 := fun _ _ ht => ht
  have himp : writeTypeConverterImpl.implicitConvs g type = conversionSources g type := rfl
  unfold writeTypeConverterImpl
  simp only [hrule, hempty, Bool.false_eq_true, if_false, Bool.not_false, Bool.not_true]
  simp only [QTextStream.putString_eq_write, QTextStream.endl_eq_write,
    QTextStream.putChar_eq_write, hw, hs, QTextStream.write_write]
  rw [isConvertibleLoop_first g depth _ (hw _ _ hs) _ hwf' hsrc']
  simp only [QTextStream.putString_eq_write, QTextStream.endl_eq_write,
    QTextStream.putChar_eq_write, hw, hs, QTextStream.write_write]
  rw [toCppLoop_eq_write g depth type _ hwf' _ (hw _ _ hs)]
  simp only [QTextStream.putString_eq_write, QTextStream.endl_eq_write,
    QTextStream.putChar_eq_write, hw, hs, QTextStream.write_write]
  simp only [isConvertibleText, toCppText, himp, String.append_assoc]
  rfl

end HeaderGenerator

/-! ## Claims on the converter functions -/

/-- C13. For a type entry without a conversion rule that has at least one
source (an implicit conversion that is not user added), `writeTypeConverterImpl`
returns, and what it emits begins with the definition of `isConvertible` whose
body is the `||` disjunction with exactly one disjunct per source, in
registration order: the type-check of the owner class for a conversion
operator, the type-check of the type of the first argument for a converting
constructor. -/
theorem HeaderGenerator.writeTypeConverterImpl_isConvertible (g : HeaderGenerator)
    (depth : Nat) (s : QTextStream) (type : TypeEntry) (hs : s.fieldWidth = 0)
    (hrule : type.hasConversionRule = false)
    (hsrc : (HeaderGenerator.conversionSources g type).isEmpty = false)
    (hwf : ∀ source ∈ HeaderGenerator.conversionSources g type,
      HeaderGenerator.sourceWellFormed source = true) :
    ∃ (s' : QTextStream) (rest : String),
      g.writeTypeConverterImpl depth s type = some s' ∧
      s'.string =
        s.string
          ++ ("inline bool Shiboken::Converter<" ++ type.name
              ++ " >::isConvertible(PyObject* pyobj)\n"
              ++ "\x7b\n"
              ++ g.INDENT depth ++ "return "
              ++ String.intercalate ("\n" ++ g.INDENT (depth + 1) ++ " || ")
                  ((HeaderGenerator.conversionSources g type).map
                    (HeaderGenerator.disjunctText g))
              ++ ";\n"
              ++ "\x7d\n\n")
          ++ rest := by
  refine ⟨_, HeaderGenerator.toCppText g depth type,
    HeaderGenerator.writeTypeConverterImpl_eq_write g depth s type hs hrule hsrc hwf, ?_⟩
  rw [QTextStream.write_string, ← String.append_assoc]
  rfl

set_option maxRecDepth 100000 in
/-- C13 at the value type `Point` with the single converting constructor
`Point(Tuple)`: the body of `isConvertible` is the single check for `Tuple`. -/
theorem HeaderGenerator.writeTypeConverterImpl_isConvertible_witness :
    ∃ (s' : QTextStream) (rest : String),
      Examples.pointGenerator.writeTypeConverterImpl 1 (QTextStream.new "") Examples.pointEntry
        = some s' ∧
      s'.string =
        "inline bool Shiboken::Converter<Point >::isConvertible(PyObject* pyobj)\n\x7b\n    return Tuple_Check(pyobj);\n\x7d\n\n"
          ++ rest := by
  obtain ⟨s', rest, h1, h2⟩ := HeaderGenerator.writeTypeConverterImpl_isConvertible
    Examples.pointGenerator 1 (QTextStream.new "") Examples.pointEntry rfl rfl
    (by decide) (by decide)
  refine ⟨s', rest, h1, h2.trans ?_⟩
  congr 1

/-- C14. For a type entry without a conversion rule that has at least one
source, what `writeTypeConverterImpl` emits behind the definition of
`isConvertible` is the definition of `toCpp`: one block guarded by the negation
of the own type-check of the target, holding a chain with exactly one branch
per source that is not marked removed, in registration order, the first branch
an `if` and every later one an `else if`, each branch returning the target
constructed through the conversion of its source; after the block the stored
native value is returned. -/
theorem HeaderGenerator.writeTypeConverterImpl_toCpp (g : HeaderGenerator)
    (depth : Nat) (s : QTextStream) (type : TypeEntry) (hs : s.fieldWidth = 0)
    (hrule : type.hasConversionRule = false)
    (hsrc : (HeaderGenerator.conversionSources g type).isEmpty = false)
    (hwf : ∀ source ∈ HeaderGenerator.conversionSources g type,
      HeaderGenerator.sourceWellFormed source = true) :
    ∃ s' : QTextStream,
      g.writeTypeConverterImpl depth s type = some s' ∧
      s'.string =
        s.string ++ HeaderGenerator.isConvertibleText g depth type
          ++ ("inline " ++ type.name ++ " Shiboken::Converter<" ++ type.name
              ++ " >::toCpp(PyObject* pyobj)\n"
              ++ "\x7b\n"
              ++ g.INDENT depth ++ "if (!Shiboken_TypeCheck(pyobj, " ++ type.name ++ ")) \x7b\n"
              ++ HeaderGenerator.branchesText g depth type true
                  ((HeaderGenerator.conversionSources g type).filter
                    (fun source => !source.isModifiedRemoved))
              ++ g.INDENT depth ++ "\x7d\n"
              ++ g.INDENT depth ++ "return *" ++ g.cpythonWrapperCPtr type "pyobj" ++ ";\n"
              ++ "\x7d\n\n") := by
  refine ⟨_, HeaderGenerator.writeTypeConverterImpl_eq_write g depth s type hs hrule hsrc hwf,
    ?_⟩
  rw [QTextStream.write_string, ← String.append_assoc]
  rfl

set_option maxRecDepth 100000 in
/-- C14 at the value type `Color` with five implicit conversions, of which one
is user added and one is marked removed: the chain has the three branches of
the others, in registration order. -/
theorem HeaderGenerator.writeTypeConverterImpl_toCpp_witness :
    ∃ s' : QTextStream,
      Examples.colorGenerator.writeTypeConverterImpl 1 (QTextStream.new "") Examples.colorEntry
        = some s' ∧
      s'.string =
        "inline bool Shiboken::Converter<Color >::isConvertible(PyObject* pyobj)\n\x7b\n    return Name_Check(pyobj)\n         || Hsv_Check(pyobj)\n         || A_Check(pyobj)\n         || int_Check(pyobj);\n\x7d\n\n"
          ++ ("inline Color Shiboken::Converter<Color >::toCpp(PyObject* pyobj)\n\x7b\n"
            ++ "    if (!Shiboken_TypeCheck(pyobj, Color)) \x7b\n"
            ++ "        if (Name_Check(pyobj))\n"
            ++ "            return Color(toCpp<Name>(pyobj));\n"
            ++ "        else if (A_Check(pyobj))\n"
            ++ "            return Color(toCpp<A>(pyobj));\n"
            ++ "        else if (int_Check(pyobj))\n"
            ++ "            return Color(toCpp<int>(pyobj));\n"
            ++ "    \x7d\n"
            ++ "    return *cptr<Color>(pyobj);\n\x7d\n\n") := by
  obtain ⟨s', h1, h2⟩ := HeaderGenerator.writeTypeConverterImpl_toCpp
    Examples.colorGenerator 1 (QTextStream.new "") Examples.colorEntry rfl rfl
    (by decide) (by decide)
  refine ⟨s', h1, h2.trans ?_⟩
  decide

/-- C15. For a type entry with a non-empty conversion rule
`writeTypeConverterImpl` emits nothing: it returns the stream as it got it,
whatever implicit conversions the type has. -/
theorem HeaderGenerator.writeTypeConverterImpl_conversionRule (g : HeaderGenerator)
    (depth : Nat) (s : QTextStream) (type : TypeEntry) (h : type.conversionRule ≠ "") :
    g.writeTypeConverterImpl depth s type = some s := by
  have hrule : type.hasConversionRule = true := by
    unfold TypeEntry.hasConversionRule
    unfold TypeEntry.conversionRule at h
    cases he : type.m_conversionRule.isEmpty
    · rfl
    · exact absurd ((String.isEmpty_iff _).1 he) h
  unfold HeaderGenerator.writeTypeConverterImpl
  simp [hrule]

/-- C15 at the value type `Color` with its five implicit conversions and a
conversion rule. -/
theorem HeaderGenerator.writeTypeConverterImpl_conversionRule_witness :
    Examples.colorGenerator.writeTypeConverterImpl 1 (QTextStream.new "")
        (Examples.colorEntry.setConversionRule "%out = toColor(%in);")
      = some (QTextStream.new "") :=
  HeaderGenerator.writeTypeConverterImpl_conversionRule Examples.colorGenerator 1
    (QTextStream.new "") (Examples.colorEntry.setConversionRule "%out = toColor(%in);")
    (by decide)

/-! ## The wrapper class -/

namespace HeaderGenerator

theorem writeCopyCtor_eq_write (g : HeaderGenerator) (depth : Nat) (s : QTextStream)
    (metaClass : AbstractMetaClass) (hs : s.fieldWidth = 0) :
    g.writeCopyCtor depth s metaClass = s.write (copyCtorText g depth metaClass) := by
  have hw : ∀ (t : QTextStream) (text : String), t.fieldWidth = 0 →
      (t.write text).fieldWidth = 0 := fun _ _ ht => ht
  unfold writeCopyCtor
  simp only [QTextStream.putString_eq_write, QTextStream.endl_eq_write,
    QTextStream.putChar_eq_write, hw, hs, QTextStream.write_write]
  simp only [copyCtorText, String.append_assoc]
  rfl

theorem foldl_writeFunction_eq_write (g : HeaderGenerator) (depth : Nat)
    (funcs : List AbstractMetaFunction) (s : QTextStream) (hs : s.fieldWidth = 0) :
    funcs.foldl (fun s func => g.writeFunction depth s func) s
      = s.write (membersText g depth funcs) := by
  induction funcs generalizing s with
  | nil => simp [membersText, QTextStream.write_empty]
  | cons func rest ih =>
    rw [List.foldl_cons, writeFunction_eq_write g depth s func hs,
      ih (s.write (memberText g depth func)) hs, QTextStream.write_write]
    rfl

theorem generateClass_eq_write (g : HeaderGenerator) (depth : Nat) (s : QTextStream)
    (metaClass : AbstractMetaClass) (hs : s.fieldWidth = 0)
    (hwrap : g.shouldGenerateCppWrapper metaClass = true) :
    g.generateClass depth s metaClass
      = s.write (classHeadText g metaClass ++ memberDeclarationsText g (depth + 1) metaClass
          ++ destructorText g (depth + 1) metaClass ++ classTailText g (depth + 1) metaClass) := by
  have hw : ∀ (t : QTextStream) (text : String), t.fieldWidth = 0 →
      (t.write text).fieldWidth = 0 := fun _ _ ht => ht
  unfold generateClass classHeadText memberDeclarationsText destructorText classTailText
    writtenWrapperName
  cases h1 : g.AVOID_PROTECTED_HACK <;> cases h2 : metaClass.typeEntry.m_include.isValid <;>
    cases h3 : (g.usePySideExtensions && metaClass.isQObject) <;>
    cases h4 : g.isCopyable metaClass <;>
    simp only [hwrap, if_true, if_false, Bool.false_eq_true, Bool.not_false, Bool.not_true,
      QTextStream.putString_eq_write, QTextStream.endl_eq_write,
      QTextStream.putChar_eq_write, hw, hs, QTextStream.write_write,
      writeCopyCtor_eq_write, foldl_writeFunction_eq_write, String.append_assoc,
      String.empty_append, String.append_empty] <;>
    rfl

end HeaderGenerator

/-! ## Claim on the destructor of the wrapper class -/

/-- C20. For a class for which `generateClass` emits a wrapper class, the
output is the head of the class, the member declarations, then the destructor
declaration `~<wrapper>();` with the name written in the head of the class,
and then the rest of the file: the destructor declaration is emitted once,
behind all member declarations, and it begins with `virtual ` exactly when the
wrapped class has a virtual destructor. -/
theorem HeaderGenerator.generateClass_destructor (g : HeaderGenerator) (depth : Nat)
    (s : QTextStream) (metaClass : AbstractMetaClass) (hs : s.fieldWidth = 0)
    (hwrap : g.shouldGenerateCppWrapper metaClass = true) :
    (g.generateClass depth s metaClass).string =
      s.string ++ HeaderGenerator.classHeadText g metaClass
        ++ HeaderGenerator.memberDeclarationsText g (depth + 1) metaClass
        ++ (g.INDENT (depth + 1) ++ (if metaClass.hasVirtualDestructor then "virtual " else "")
            ++ "~" ++ QString.replace (g.wrapperName metaClass) "::" "_" ++ "();\n")
        ++ HeaderGenerator.classTailText g (depth + 1) metaClass := by
  rw [HeaderGenerator.generateClass_eq_write g depth s metaClass hs hwrap,
    QTextStream.write_string]
  simp only [HeaderGenerator.destructorText, HeaderGenerator.writtenWrapperName,
    String.append_assoc]

set_option maxRecDepth 1000000 in
/-- C20 at the class `Outer::Shape` with a virtual destructor: the destructor
declaration follows the declarations of the constructor and of the abstract
function, and the two destructor declarations with and without `virtual ` are
`virtual ~Outer_ShapeWrapper();` and `~AWrapper();`. -/
theorem HeaderGenerator.generateClass_destructor_witness :
    (Examples.shapeGenerator.generateClass 0 (QTextStream.new "") Examples.shapeClass).string
      = "// license\n#ifndef SBK_OUTER_SHAPEWRAPPER_H\n#define SBK_OUTER_SHAPEWRAPPER_H\n\n"
        ++ "#define protected public\n\n#include <shiboken.h>\n\n"
        ++ "class Outer_ShapeWrapper : public Outer::Shape\n\x7b\npublic:\n"
        ++ "    A();\n    virtual draw();\n"
        ++ "    virtual ~Outer_ShapeWrapper();\n"
        ++ "\x7d;\n\n#endif // SBK_OUTER_SHAPEWRAPPER_H\n\n" ∧
    HeaderGenerator.occurrences "~".data
      (Examples.shapeGenerator.generateClass 0 (QTextStream.new "") Examples.shapeClass).string.data
      = 1 ∧
    HeaderGenerator.destructorText Examples.generator 1 Examples.classA = "    ~AWrapper();\n" := by
  have h := HeaderGenerator.generateClass_destructor Examples.shapeGenerator 0
    (QTextStream.new "") Examples.shapeClass rfl rfl
  refine ⟨h.trans (by decide), ?_, by decide⟩
  rw [h]
  decide

/-! ## The sequence of indexed entries -/

namespace HeaderGenerator

theorem writeTypeIndexDefineLine_entry_plain (g : HeaderGenerator) (e : TypeEntry)
    (he : e.isEnum = false) (s : QTextStream) (idx : Nat) (hw : s.fieldWidth = 0)
    (hp : s.padChar = ' ') :
    Emits g s idx (writeTypeIndexDefineLine.entry g s e idx)
      (if e.generateCode then [e] else []) := by
  obtain ⟨fields, m_flags⟩ := e
  rw [writeTypeIndexDefineLine.entry]
  by_cases hg : (TypeEntry.mk fields m_flags).generateCode = true
  · simp only [hg, he, Bool.not_true, Bool.false_eq_true, if_false, if_true]
    exact Emits.single g s _ idx hw hp
  · simp only [hg, Bool.not_false, if_true, Bool.false_eq_true, if_false]
    exact Emits.nil g s idx

theorem writeTypeIndexDefineLine_typed (g : HeaderGenerator) (typeEntry : Option TypeEntry)
    (ht : enumEntryTyped typeEntry = true) (s : QTextStream) (idx : Nat)
    (hw : s.fieldWidth = 0) (hp : s.padChar = ' ') :
    Emits g s idx (g.writeTypeIndexDefineLine s typeEntry idx) (indexedOfEnum typeEntry) := by
  cases typeEntry with
  | none => exact Emits.nil g s idx
  | some e =>
    obtain ⟨fields, m_flags⟩ := e
    simp only [enumEntryTyped, Bool.and_eq_true] at ht
    obtain ⟨he, hf⟩ := ht
    simp only [writeTypeIndexDefineLine, indexedOfEnum]
    rw [writeTypeIndexDefineLine.entry]
    by_cases hg : (TypeEntry.mk fields m_flags).generateCode = true
    · simp only [hg, he, Bool.not_true, Bool.false_eq_true, if_false, if_true]
      have h1 := Emits.single g s (TypeEntry.mk fields m_flags) idx hw hp
      cases m_flags with
      | none => exact h1
      | some flags =>
        have hfl : flags.isEnum = false := by simpa [TypeEntry.flags] using hf
        exact h1.append (writeTypeIndexDefineLine_entry_plain g flags hfl _ (idx + 1)
          (h1.fieldWidth_eq.trans hw) (h1.padChar_eq.trans hp))
    · simp only [hg, Bool.not_false, if_true, Bool.false_eq_true, if_false]
      exact Emits.nil g s idx

/-- A `foreach` loop whose body emits the define lines of the entries of its
element emits the define lines of the entries of all elements, in order. -/
theorem foldl_emits_flatMap {α : Type} (g : HeaderGenerator)
    (body : QTextStream → α → Nat → QTextStream × Nat) (entriesOf : α → List TypeEntry)
    (l : List α)
    (hbody : ∀ a ∈ l, ∀ (s : QTextStream) (idx : Nat), s.fieldWidth = 0 → s.padChar = ' ' →
      Emits g s idx (body s a idx) (entriesOf a)) :
    ∀ (r : QTextStream × Nat), r.1.fieldWidth = 0 → r.1.padChar = ' ' →
      Emits g r.1 r.2 (l.foldl (fun r a => body r.1 a r.2) r) (l.flatMap entriesOf) := by
  induction l with
  | nil => intro r _ _; exact Emits.nil g r.1 r.2
  | cons a l ih =>
    intro r hw hp
    have h1 := hbody a (List.mem_cons_self _ _) r.1 r.2 hw hp
    have h2 := ih (fun b hb => hbody b (List.mem_cons_of_mem _ hb)) (body r.1 a r.2)
      (h1.fieldWidth_eq.trans hw) (h1.padChar_eq.trans hp)
    rw [List.flatMap_cons]
    exact h1.append h2

theorem writeTypeIndexDefine_typed (g : HeaderGenerator) (metaClass : AbstractMetaClass)
    (hc : metaClass.typeEntry.isEnum = false)
    (he : ∀ metaEnum ∈ metaClass.enums, enumEntryTyped metaEnum.typeEntry = true)
    (s : QTextStream) (idx : Nat) (hw : s.fieldWidth = 0) (hp : s.padChar = ' ') :
    Emits g s idx (g.writeTypeIndexDefine s metaClass idx) (indexedOfClass metaClass) := by
  unfold writeTypeIndexDefine indexedOfClass
  by_cases hg : metaClass.typeEntry.generateCode = true
  · simp only [hg, Bool.not_true, Bool.false_eq_true, if_false, if_true]
    have h1 : Emits g s idx
        (if (!metaClass.isNamespace) = true then
          g.writeTypeIndexDefineLine s (some metaClass.typeEntry) idx else (s, idx))
        (if metaClass.isNamespace = true then [] else [metaClass.typeEntry]) := by
      cases hn : metaClass.isNamespace
      · simp only [Bool.not_false, if_true, Bool.false_eq_true, if_false]
        have h := writeTypeIndexDefineLine_entry_plain g metaClass.typeEntry hc s idx hw hp
        simpa [writeTypeIndexDefineLine, hg] using h
      · simp only [Bool.not_true, Bool.false_eq_true, if_false, if_true]
        exact Emits.nil g s idx
    have h2 := foldl_emits_flatMap g
      (fun s (metaEnum : AbstractMetaEnum) idx => g.writeTypeIndexDefineLine s metaEnum.typeEntry idx)
      (fun metaEnum => indexedOfEnum metaEnum.typeEntry) metaClass.enums
      (fun a ha s idx hw hp => writeTypeIndexDefineLine_typed g a.typeEntry (he a ha) s idx hw hp)
      _ (h1.fieldWidth_eq.trans hw) (h1.padChar_eq.trans hp)
    exact h1.append h2
  · simp only [hg, Bool.not_false, if_true, Bool.false_eq_true, if_false]
    exact Emits.nil g s idx

/-- The two loops of `finishGeneration` over the classes and the global enums
emit the define lines of `indexedEntries`, numbered from 0. -/
theorem typeIndex_loops_emit_indexedEntries (g : HeaderGenerator)
    (ht : typedMetamodel g = true) (s : QTextStream)
    (hw : s.fieldWidth = 0) (hp : s.padChar = ' ') :
    Emits g s 0
      (g.globalEnums.foldl
        (fun r metaEnum => g.writeTypeIndexDefineLine r.1 metaEnum.typeEntry r.2)
        (g.classes.foldl (fun r metaClass => g.writeTypeIndexDefine r.1 metaClass r.2) (s, 0)))
      (indexedEntries g) := by
  simp only [typedMetamodel, Bool.and_eq_true, List.all_eq_true, Bool.not_eq_true'] at ht
  obtain ⟨hcl, hge⟩ := ht
  have h1 := foldl_emits_flatMap g
    (fun s (metaClass : AbstractMetaClass) idx => g.writeTypeIndexDefine s metaClass idx)
    indexedOfClass g.classes
    (fun a ha s idx hw hp =>
      writeTypeIndexDefine_typed g a (hcl a ha).1 (hcl a ha).2 s idx hw hp)
    (s, 0) hw hp
  have h2 := foldl_emits_flatMap g
    (fun s (metaEnum : AbstractMetaEnum) idx => g.writeTypeIndexDefineLine s metaEnum.typeEntry idx)
    (fun metaEnum => indexedOfEnum metaEnum.typeEntry) g.globalEnums
    (fun a ha s idx hw hp => writeTypeIndexDefineLine_typed g a.typeEntry (hge a ha) s idx hw hp)
    _ (h1.fieldWidth_eq.trans hw) (h1.padChar_eq.trans hp)
  exact h1.append h2

/-- The type index table, given the entries whose define lines the two loops
emit. -/
theorem typeIndices_of_emits (g : HeaderGenerator) (h : g.classes ≠ [])
    (entries : List TypeEntry)
    (he : Emits g (((QTextStream.new "").putString "// Type indices").endl) 0
      (g.globalEnums.foldl
        (fun r metaEnum => g.writeTypeIndexDefineLine r.1 metaEnum.typeEntry r.2)
        (g.classes.foldl (fun r metaClass => g.writeTypeIndexDefine r.1 metaClass r.2)
          (((QTextStream.new "").putString "// Type indices").endl, 0)))
      entries) :
    ∃ s_pts : QTextStream,
      finishGeneration.typeIndices g = some (s_pts, entries.length) ∧
      s_pts.fieldWidth = 0 ∧
      s_pts.string =
        "// Type indices\n" ++ typeIndexDefineLinesText g entries 0
          ++ typeIndexCountLineText g (!entries.isEmpty) entries.length
          ++ "\n" := by
  have hc : g.classes.isEmpty = false := by
    cases hcl : g.classes with
    | nil => exact absurd hcl h
    | cons a l => rfl
  simp only [finishGeneration.typeIndices, hc, Bool.false_eq_true, if_false]
  generalize List.foldl (fun r (metaEnum : AbstractMetaEnum) =>
      g.writeTypeIndexDefineLine r.1 metaEnum.typeEntry r.2)
    (List.foldl (fun r metaClass => g.writeTypeIndexDefine r.1 metaClass r.2)
      (((QTextStream.new "").putString "// Type indices").endl, 0) g.classes)
    g.globalEnums = r at he
  obtain ⟨s, n⟩ := r
  have hn : n = entries.length := by simpa using he.idx_eq
  have hs := he.string_eq
  have hw := he.fieldWidth_eq
  have hp := he.padChar_eq
  have ha := he.fieldAlignment_eq
  simp only at hs hw hp ha
  subst hn
  refine ⟨_, rfl, rfl, ?_⟩
  have h0 : ((QTextStream.new "").putString "// Type indices").endl.string
      = "// Type indices\n" := by decide
  rw [h0] at hs
  have hw0 : s.fieldWidth = 0 := hw
  have hp0 : s.padChar = ' ' := hp
  cases hE : entries.isEmpty
  · have ha0 : s.fieldAlignment = FieldAlignment.AlignLeft := by simpa [hE] using ha
    simp [QTextStream.endl, QTextStream.putInt, QTextStream.putChar, QTextStream.putString,
      QTextStream.setFieldWidth, QTextStream.pad, hw0, hp0, ha0, hs, typeIndexCountLineText,
      pushn_zero, String.append_assoc]
    rfl
  · have ha0 : s.fieldAlignment = FieldAlignment.AlignRight := by
      rw [ha, hE]
      rfl
    simp [QTextStream.endl, QTextStream.putInt, QTextStream.putChar, QTextStream.putString,
      QTextStream.setFieldWidth, QTextStream.pad, hw0, hp0, ha0, hs, typeIndexCountLineText,
      pushn_zero, String.append_assoc]
    rfl

end HeaderGenerator

/-! ## Claim on the sequence of indexed entries -/

/-- C11. In a metamodel with the static types of the source (the entry of an
enum is an enum entry, the entry of a class and a flags entry are not), the
define lines of the type index table are exactly those of the sequence
`indexedEntries`, numbered from 0: for each class in iteration order whose
entry generates code, its own entry unless the class is a namespace, then for
each of its enums in declaration order the entry of the enum (when present and
generating code) immediately followed by its flags entry (when present and
generating code); and after all classes the global enums in order, each again
followed by its flags entry.  The count is the length of the sequence. -/
theorem HeaderGenerator.finishGeneration_typeIndices_sequence (g : HeaderGenerator)
    (h : g.classes ≠ []) (ht : HeaderGenerator.typedMetamodel g = true) :
    ∃ s_pts : QTextStream,
      HeaderGenerator.finishGeneration.typeIndices g
        = some (s_pts, (HeaderGenerator.indexedEntries g).length) ∧
      s_pts.string =
        "// Type indices\n"
          ++ HeaderGenerator.typeIndexDefineLinesText g (HeaderGenerator.indexedEntries g) 0
          ++ HeaderGenerator.typeIndexCountLineText g
              (!(HeaderGenerator.indexedEntries g).isEmpty)
              (HeaderGenerator.indexedEntries g).length
          ++ "\n" := by
  obtain ⟨s_pts, h1, _, h2⟩ := HeaderGenerator.typeIndices_of_emits g h
    (HeaderGenerator.indexedEntries g)
    (HeaderGenerator.typeIndex_loops_emit_indexedEntries g ht _ rfl rfl)
  exact ⟨s_pts, h1, h2⟩

set_option maxRecDepth 100000 in
/-- C11 at a concrete metamodel: the indexed entries are `A`, `A::E`, `Es`,
`N::NE` and `G`, in this order; the namespace `N`, the class `H` and its enum
`H::HE`, the flags entry `Gs` and the enum without entry consume no index. -/
theorem HeaderGenerator.finishGeneration_typeIndices_sequence_witness :
    (HeaderGenerator.indexedEntries Examples.indexGenerator).map TypeEntry.name
        = ["A", "A::E", "Es", "N::NE", "G"] ∧
      ∃ s_pts : QTextStream,
        HeaderGenerator.finishGeneration.typeIndices Examples.indexGenerator
          = some (s_pts, (HeaderGenerator.indexedEntries Examples.indexGenerator).length) ∧
        s_pts.string =
          "// Type indices\n#define SBK_A_IDX                                                    0\n#define SBK_A::E_IDX                                                 1\n#define SBK_Es_IDX                                                   2\n#define SBK_N::NE_IDX                                                3\n#define SBK_G_IDX                                                    4\n#define SBK_mod_IDX_COUNT                                            5\n\n" := by
  refine ⟨by decide, ?_⟩
  obtain ⟨s_pts, h1, h2⟩ := HeaderGenerator.finishGeneration_typeIndices_sequence
    Examples.indexGenerator (List.cons_ne_nil _ _) (by decide)
  exact ⟨s_pts, h1, h2.trans (by decide)⟩

/-! ## The type-check macros -/

namespace HeaderGenerator

theorem infix_append_of_left {α : Type} {a x : List α} (y : List α) (h : a <:+: x) :
    a <:+: x ++ y :=
  h.trans (List.prefix_append x y).isInfix

theorem infix_append_of_right {α : Type} {a y : List α} (x : List α) (h : a <:+: y) :
    a <:+: x ++ y :=
  h.trans (List.suffix_append x y).isInfix

theorem not_infix_of_occurrences_eq_zero (part text : List Char)
    (h : occurrences part text = 0) : ¬ part <:+: text := by
  induction text with
  | nil =>
    intro hin
    have hnil : part = [] := List.eq_nil_of_infix_nil hin
    subst hnil
    simp [occurrences] at h
  | cons c cs ih =>
    rw [occurrences] at h
    have h1 : (if part.isPrefixOf (c :: cs) = true then 1 else 0) = 0 := by omega
    have h2 : occurrences part cs = 0 := by omega
    intro hin
    rcases List.infix_cons_iff.1 hin with hp | hi
    · rw [if_pos (List.isPrefixOf_iff_prefix.2 hp)] at h1
      cases h1
    · exact ih h2 hi

theorem WritesMacros.refl (g : HeaderGenerator) (s : QTextStream) : WritesMacros g s s [] :=
  ⟨rfl, "", by simp [String.append_empty], by simp⟩

theorem WritesMacros.write (g : HeaderGenerator) (s : QTextStream) (text : String) :
    WritesMacros g s (s.write text) [] :=
  ⟨rfl, text, rfl, by simp⟩

theorem WritesMacros.trans {g : HeaderGenerator} {s r t : QTextStream}
    {es1 es2 : List TypeEntry} (h1 : WritesMacros g s r es1) (h2 : WritesMacros g r t es2) :
    WritesMacros g s t (es1 ++ es2) := by
  obtain ⟨t1, ht1, hm1⟩ := h1.appended
  obtain ⟨t2, ht2, hm2⟩ := h2.appended
  refine ⟨h2.fieldWidth_eq.trans h1.fieldWidth_eq, t1 ++ t2, ?_, ?_⟩
  · rw [ht2, ht1, String.append_assoc]
  · intro type hmem
    rw [String.data_append]
    rcases List.mem_append.1 hmem with hmem | hmem
    · exact ⟨infix_append_of_left _ (hm1 type hmem).1, infix_append_of_left _ (hm1 type hmem).2⟩
    · exact ⟨infix_append_of_right _ (hm2 type hmem).1,
        infix_append_of_right _ (hm2 type hmem).2⟩

theorem writeTypeCheckMacro_eq_write (g : HeaderGenerator) (s : QTextStream) (type : TypeEntry)
    (hs : s.fieldWidth = 0) :
    g.writeTypeCheckMacro s type
      = s.write (instanceCheckMacroText g type ++ exactCheckMacroText g type) := by
  have hw : ∀ (t : QTextStream) (text : String), t.fieldWidth = 0 →
      (t.write text).fieldWidth = 0 := fun _ _ ht => ht
  unfold writeTypeCheckMacro
  simp only [QTextStream.putString_eq_write, QTextStream.endl_eq_write,
    QTextStream.putChar_eq_write, hw, hs, QTextStream.write_write]
  simp only [instanceCheckMacroText, exactCheckMacroText, String.append_assoc]
  rfl

theorem WritesMacros.typeCheckMacro (g : HeaderGenerator) (s : QTextStream) (type : TypeEntry)
    (hs : s.fieldWidth = 0) : WritesMacros g s (g.writeTypeCheckMacro s type) [type] := by
  rw [writeTypeCheckMacro_eq_write g s type hs]
  refine ⟨rfl, _, rfl, ?_⟩
  intro t ht
  rw [List.mem_singleton] at ht
  subst ht
  rw [String.data_append]
  exact ⟨(List.prefix_append _ _).isInfix, (List.suffix_append _ _).isInfix⟩

theorem enumMacros_writes (g : HeaderGenerator) (s : QTextStream) (cppEnum : AbstractMetaEnum)
    (hs : s.fieldWidth = 0) (he : cppEnum.typeEntry.isSome = true) :
    ∃ r, finishGeneration.enumMacros g s cppEnum = some r ∧
      WritesMacros g s r (checkedOfEnum cppEnum) := by
  unfold finishGeneration.enumMacros checkedOfEnum
  cases hte : cppEnum.typeEntry with
  | none => rw [hte] at he; cases he
  | some typeEntry =>
    have h1 := WritesMacros.typeCheckMacro g s typeEntry hs
    have hs1 : (g.writeTypeCheckMacro s typeEntry).fieldWidth = 0 := h1.fieldWidth_eq.trans hs
    cases hfl : typeEntry.flags with
    | none =>
      refine ⟨_, rfl, ?_⟩
      simp only [hfl]
      rw [QTextStream.endl_eq_write _ hs1]
      exact h1.trans (WritesMacros.write g _ _)
    | some flags =>
      refine ⟨_, rfl, ?_⟩
      simp only [hfl]
      have h2 := WritesMacros.typeCheckMacro g _ flags hs1
      rw [QTextStream.endl_eq_write _ (h2.fieldWidth_eq.trans hs1)]
      exact h1.trans (h2.trans (WritesMacros.write g _ _))

theorem enumsLoop_writes (g : HeaderGenerator) (enums : List AbstractMetaEnum)
    (he : ∀ metaEnum ∈ enums, metaEnum.typeEntry.isSome = true) (s : QTextStream)
    (hs : s.fieldWidth = 0) :
    ∃ r, finishGeneration.enumsLoop g s enums = some r ∧
      WritesMacros g s r (enums.flatMap checkedOfEnum) := by
  induction enums generalizing s with
  | nil => exact ⟨s, rfl, WritesMacros.refl g s⟩
  | cons cppEnum rest ih =>
    obtain ⟨r1, hr1, h1⟩ := enumMacros_writes g s cppEnum hs (he cppEnum (List.mem_cons_self _ _))
    obtain ⟨r2, hr2, h2⟩ := ih (fun e hmem => he e (List.mem_cons_of_mem _ hmem)) r1
      (h1.fieldWidth_eq.trans hs)
    refine ⟨r2, ?_, ?_⟩
    · rw [finishGeneration.enumsLoop, hr1]
      exact hr2
    · rw [List.flatMap_cons]
      exact h1.trans h2

theorem innerClassesLoop_writes (g : HeaderGenerator) (innerClasses : List AbstractMetaClass)
    (s : QTextStream) (hs : s.fieldWidth = 0) :
    WritesMacros g s (finishGeneration.innerClassesLoop g s innerClasses)
      ((innerClasses.filter g.shouldGenerate).map (fun innerClass => innerClass.typeEntry)) := by
  induction innerClasses generalizing s with
  | nil => exact WritesMacros.refl g s
  | cons innerClass rest ih =>
    rw [finishGeneration.innerClassesLoop]
    cases hg : g.shouldGenerate innerClass
    · simp only [Bool.false_eq_true, if_false, List.filter_cons, hg]
      exact ih s hs
    · simp only [if_true, List.filter_cons, hg, List.map_cons]
      have h1 := WritesMacros.typeCheckMacro g s innerClass.typeEntry hs
      exact h1.trans (ih _ (h1.fieldWidth_eq.trans hs))

theorem classesLoop_writes (g : HeaderGenerator) (classes : List AbstractMetaClass)
    (he : ∀ metaClass ∈ classes,
      (!(g.shouldGenerate metaClass && !metaClass.enclosingClass.isSome &&
          (metaClass.typeEntry.isObject || metaClass.typeEntry.isValue ||
            metaClass.typeEntry.isNamespace))
        || metaClass.enums.all (fun metaEnum => metaEnum.typeEntry.isSome)) = true)
    (s : QTextStream) (hs : s.fieldWidth = 0) :
    ∃ r, finishGeneration.classesLoop g s classes = some r ∧
      WritesMacros g s r (classes.flatMap (checkedOfClass g)) := by
  induction classes generalizing s with
  | nil => exact ⟨s, rfl, WritesMacros.refl g s⟩
  | cons metaClass rest ih =>
    have hrest := fun c hmem => he c (List.mem_cons_of_mem metaClass hmem)
    have hthis := he metaClass (List.mem_cons_self _ _)
    have hdef : checkedOfClass g metaClass =
        (if g.shouldGenerate metaClass && !metaClass.enclosingClass.isSome &&
            (metaClass.typeEntry.isObject || metaClass.typeEntry.isValue ||
              metaClass.typeEntry.isNamespace) then
          metaClass.enums.flatMap checkedOfEnum
            ++ (if metaClass.isNamespace then []
                else ((metaClass.innerClasses.filter g.shouldGenerate).map
                  (fun innerClass => innerClass.typeEntry)) ++ [metaClass.typeEntry])
        else []) := rfl
    rw [finishGeneration.classesLoop, List.flatMap_cons, hdef]
    cases hsg : g.shouldGenerate metaClass
    · obtain ⟨r, hr, h⟩ := ih hrest s hs
      exact ⟨r, by simpa using hr, by simpa using h⟩
    cases hen : metaClass.enclosingClass.isSome
    swap
    · obtain ⟨r, hr, h⟩ := ih hrest s hs
      exact ⟨r, by simpa using hr, by simpa using h⟩
    cases hk : (metaClass.typeEntry.isObject || metaClass.typeEntry.isValue ||
        metaClass.typeEntry.isNamespace)
    · obtain ⟨r, hr, h⟩ := ih hrest s hs
      exact ⟨r, by simpa [hk] using hr, by simpa [hk] using h⟩
    have hpresent : ∀ metaEnum ∈ metaClass.enums, metaEnum.typeEntry.isSome = true := by
      simpa [hsg, hen, hk] using hthis
    obtain ⟨r1, hr1, h1⟩ := enumsLoop_writes g metaClass.enums hpresent s hs
    have hs1 : r1.fieldWidth = 0 := h1.fieldWidth_eq.trans hs
    simp only [Bool.not_true, Bool.not_false, Bool.or_false, Bool.false_or, Bool.and_self,
      Bool.false_eq_true, if_false, if_true, hr1]
    cases hns : metaClass.isNamespace
    · have h2 := innerClassesLoop_writes g metaClass.innerClasses r1 hs1
      have h3 := WritesMacros.typeCheckMacro g _ metaClass.typeEntry (h2.fieldWidth_eq.trans hs1)
      obtain ⟨r, hr, h⟩ := ih hrest _ (h3.fieldWidth_eq.trans (h2.fieldWidth_eq.trans hs1))
      refine ⟨r, by simpa using hr, ?_⟩
      simpa using (h1.trans (h2.trans h3)).trans h
    · obtain ⟨r, hr, h⟩ := ih hrest r1 hs1
      refine ⟨r, by simpa using hr, ?_⟩
      simpa using h1.trans h

theorem pythonTypeStuff_writes (g : HeaderGenerator) (h : g.classes ≠ [])
    (hp : enumEntriesPresent g = true) :
    ∃ text, finishGeneration.pythonTypeStuff g = some text ∧
      ∀ type ∈ checkedEntries g,
        (instanceCheckMacroText g type).data <:+: text.data ∧
          (exactCheckMacroText g type).data <:+: text.data := by
  have hw : ∀ (t : QTextStream) (text : String), t.fieldWidth = 0 →
      (t.write text).fieldWidth = 0 := fun _ _ ht => ht
  simp only [enumEntriesPresent, Bool.and_eq_true, List.all_eq_true] at hp
  obtain ⟨hge, hcl⟩ := hp
  obtain ⟨entries, hent⟩ := typeIndex_loops_emit g
    ((QTextStream.new "").putString "// Type indices").endl rfl rfl
  obtain ⟨s0, hs0, hw0, _⟩ := typeIndices_of_emits g h entries hent
  unfold finishGeneration.pythonTypeStuff
  rw [hs0]
  simp only [QTextStream.putString_eq_write, QTextStream.endl_eq_write,
    QTextStream.putChar_eq_write, hw, hw0, QTextStream.write_write]
  obtain ⟨r1, hr1, h1⟩ := enumsLoop_writes g g.globalEnums hge (s0.write _) (hw _ _ hw0)
  obtain ⟨r2, hr2, h2⟩ := classesLoop_writes g g.classes hcl r1
    (h1.fieldWidth_eq.trans (hw _ _ hw0))
  rw [hr1]
  simp only []
  rw [hr2]
  obtain ⟨text, htext, hm⟩ := ((WritesMacros.write g s0 _).trans (h1.trans h2)).appended
  refine ⟨r2.string, rfl, ?_⟩
  intro type hmem
  rw [htext, String.data_append]
  have hmem' : type ∈ [] ++ (g.globalEnums.flatMap checkedOfEnum
      ++ g.classes.flatMap (checkedOfClass g)) := by simpa [checkedEntries] using hmem
  exact ⟨infix_append_of_right _ (hm type hmem').1, infix_append_of_right _ (hm type hmem').2⟩

end HeaderGenerator

/-! ## Claim on the type-check macros -/

set_option maxRecDepth 1000000 in
/-- C12, refuted as stated: in the metamodel of the class `Outer`, its inner
class `Outer::Inner` with the enum `E`, and the class `Iface` with an interface
entry, the entries of `Iface` and of the enum have a type index, yet the text
that holds the type indices and the macros has no check macro for them. -/
theorem HeaderGenerator.finishGeneration_typeCheckMacros_counterexample :
    (HeaderGenerator.indexedEntries Examples.macroGenerator).map TypeEntry.name
        = ["Outer", "Outer::Inner", "Outer::Inner::E", "Iface"] ∧
      ∃ text : String,
        HeaderGenerator.finishGeneration.pythonTypeStuff Examples.macroGenerator = some text ∧
        HeaderGenerator.occurrences "#define SBK_Iface_IDX".data text.data = 1 ∧
        HeaderGenerator.occurrences "#define SBK_Outer::Inner::E_IDX".data text.data = 1 ∧
        ¬ "Iface_Check".data <:+: text.data ∧
        ¬ "Outer::Inner::E_Check".data <:+: text.data ∧
        ¬ (HeaderGenerator.instanceCheckMacroText Examples.macroGenerator
            (InterfaceTypeEntry.new "Iface")).data <:+: text.data := by
  refine ⟨by decide,
    "// Type indices\n#define SBK_Outer_IDX                                                0\n#define SBK_Outer::Inner_IDX                                         1\n#define SBK_Outer::Inner::E_IDX                                      2\n#define SBK_Iface_IDX                                                3\n#define SBK_mod_IDX_COUNT                                            4\n\n// This variable stores all python types exported by this module\nextern PyTypeObject** SbkmodTypes;\n\n// Useful macros\n#define Outer::Inner_Check(op) PyObject_TypeCheck(op, (PyTypeObject*)SbkmodTypes[SBK_Outer::Inner_IDX])\n#define Outer::Inner_CheckExact(op) ((op)->ob_type == (PyTypeObject*)SbkmodTypes[SBK_Outer::Inner_IDX])\n#define Outer_Check(op) PyObject_TypeCheck(op, (PyTypeObject*)SbkmodTypes[SBK_Outer_IDX])\n#define Outer_CheckExact(op) ((op)->ob_type == (PyTypeObject*)SbkmodTypes[SBK_Outer_IDX])\n",
    by decide, by decide, by decide,
    HeaderGenerator.not_infix_of_occurrences_eq_zero _ _ (by decide),
    HeaderGenerator.not_infix_of_occurrences_eq_zero _ _ (by decide),
    HeaderGenerator.not_infix_of_occurrences_eq_zero _ _ (by decide)⟩

/-- C12, amended. Whenever the class list is not empty and the enums have
entries, `finishGeneration` builds the text of the type indices and macros,
and this text contains both type-check macros, `<check>(op)` and
`<check>Exact(op)`, each through the type array at the index name of the
entry, for every entry of `checkedEntries`: the entries of the global enums
and their flags entries, and, for every class that passes `shouldGenerate`,
has no enclosing class and has an object, value or namespace entry, the
entries of its enums with their flags entries and, unless the class is a
namespace, the entries of its inner classes that pass `shouldGenerate` and its
own entry. -/
theorem HeaderGenerator.finishGeneration_typeCheckMacros (g : HeaderGenerator)
    (h : g.classes ≠ []) (hp : HeaderGenerator.enumEntriesPresent g = true) :
    ∃ text : String,
      HeaderGenerator.finishGeneration.pythonTypeStuff g = some text ∧
      ∀ type ∈ HeaderGenerator.checkedEntries g,
        ("#define " ++ g.cpythonCheckFunction type
            ++ "(op) PyObject_TypeCheck(op, (PyTypeObject*)"
            ++ (g.cppApiVariableName ++ "[" ++ g.getTypeIndexVariableName type ++ "]")
            ++ ")\n").data <:+: text.data ∧
        ("#define " ++ g.cpythonCheckFunction type
            ++ "Exact(op) ((op)->ob_type == (PyTypeObject*)"
            ++ (g.cppApiVariableName ++ "[" ++ g.getTypeIndexVariableName type ++ "]")
            ++ ")\n").data <:+: text.data :=
  HeaderGenerator.pythonTypeStuff_writes g h hp

set_option maxRecDepth 100000 in
/-- C12, amended, at the metamodel of the class `A` with the enum `A::E` and
its flags entry `Es`, and the global enum `G`: the text contains the macros of
these four entries. -/
theorem HeaderGenerator.finishGeneration_typeCheckMacros_witness :
    (HeaderGenerator.checkedEntries Examples.generator).map TypeEntry.name
        = ["G", "A::E", "Es", "A"] ∧
      ∃ text : String,
        HeaderGenerator.finishGeneration.pythonTypeStuff Examples.generator = some text ∧
        ∀ type ∈ HeaderGenerator.checkedEntries Examples.generator,
          ("#define " ++ Examples.generator.cpythonCheckFunction type
              ++ "(op) PyObject_TypeCheck(op, (PyTypeObject*)"
              ++ (Examples.generator.cppApiVariableName ++ "["
                  ++ Examples.generator.getTypeIndexVariableName type ++ "]")
              ++ ")\n").data <:+: text.data ∧
          ("#define " ++ Examples.generator.cpythonCheckFunction type
              ++ "Exact(op) ((op)->ob_type == (PyTypeObject*)"
              ++ (Examples.generator.cppApiVariableName ++ "["
                  ++ Examples.generator.getTypeIndexVariableName type ++ "]")
              ++ ")\n").data <:+: text.data :=
  ⟨by decide,
   HeaderGenerator.finishGeneration_typeCheckMacros Examples.generator (List.cons_ne_nil _ _)
    (by decide)⟩

/-! ## The header of a class without wrapper class -/

namespace HeaderGenerator

theorem generateClass_eq_write_of_no_wrapper (g : HeaderGenerator) (depth : Nat)
    (s : QTextStream) (metaClass : AbstractMetaClass) (hs : s.fieldWidth = 0)
    (hwrap : g.shouldGenerateCppWrapper metaClass = false) :
    g.generateClass depth s metaClass
      = s.write (g.licenseComment
          ++ "#ifndef " ++ includeGuardName g metaClass ++ "\n"
          ++ "#define " ++ includeGuardName g metaClass ++ "\n\n"
          ++ (if g.AVOID_PROTECTED_HACK then "" else "#define protected public\n\n")
          ++ "#include <shiboken.h>\n\n"
          ++ (if metaClass.typeEntry.m_include.isValid then
                g.includeToString metaClass.typeEntry.m_include ++ "\n\n"
              else "")
          ++ "#endif // " ++ includeGuardName g metaClass ++ "\n\n") := by
  have hw : ∀ (t : QTextStream) (text : String), t.fieldWidth = 0 →
      (t.write text).fieldWidth = 0 := fun _ _ ht => ht
  unfold generateClass includeGuardName
  cases h1 : g.AVOID_PROTECTED_HACK <;> cases h2 : metaClass.typeEntry.m_include.isValid <;>
    simp only [hwrap, if_true, if_false, Bool.false_eq_true, Bool.not_false, Bool.not_true,
      QTextStream.putString_eq_write, QTextStream.endl_eq_write,
      QTextStream.putChar_eq_write, hw, hs, QTextStream.write_write, String.append_assoc,
      String.empty_append, String.append_empty] <;>
    rfl

theorem includeGuardName_eq_iff (g : HeaderGenerator) (c1 c2 : AbstractMetaClass) :
    includeGuardName g c1 = includeGuardName g c2 ↔
      QString.toUpper (QString.replace (g.wrapperName c1) "::" "_")
        = QString.toUpper (QString.replace (g.wrapperName c2) "::" "_") := by
  unfold includeGuardName
  constructor
  · intro h
    have hd := congrArg String.data h
    simp only [String.data_append] at hd
    exact String.ext (List.append_cancel_left (List.append_cancel_right hd))
  · intro h
    rw [h]

end HeaderGenerator

/-! ## Claims on the header of a class -/

set_option maxRecDepth 100000 in
/-- C21, refuted as stated: without `AVOID_PROTECTED_HACK`, the header of a
class with a negative wrapper decision is not only the license comment, the
include guard, the shiboken include and the include of the class: it also
holds the line `#define protected public`. -/
theorem HeaderGenerator.generateClass_without_wrapper_counterexample :
    Examples.noWrapperGenerator.shouldGenerateCppWrapper Examples.classWithInclude = false ∧
      (Examples.noWrapperGenerator.generateClass 0 (QTextStream.new "")
          Examples.classWithInclude).string
        = "// license\n#ifndef SBK_AWRAPPER_H\n#define SBK_AWRAPPER_H\n\n#define protected public\n\n#include <shiboken.h>\n\n#include <a.h>\n\n#endif // SBK_AWRAPPER_H\n\n" ∧
      HeaderGenerator.headerWithoutWrapperText Examples.noWrapperGenerator
          Examples.classWithInclude
        = "// license\n#ifndef SBK_AWRAPPER_H\n#define SBK_AWRAPPER_H\n\n#include <shiboken.h>\n\n#include <a.h>\n\n#endif // SBK_AWRAPPER_H\n\n" ∧
      (Examples.noWrapperGenerator.generateClass 0 (QTextStream.new "")
          Examples.classWithInclude).string
        ≠ HeaderGenerator.headerWithoutWrapperText Examples.noWrapperGenerator
            Examples.classWithInclude := by
  decide

/-- C21, amended. For a class with a negative wrapper decision `generateClass`
emits no wrapper class: no `class` declaration, no copy constructor, no member
or destructor declaration and no code snippet.  Its output is exactly the
license comment, the include guard, without `AVOID_PROTECTED_HACK` the line
`#define protected public`, the shiboken include, the include of the class
when valid, and the end of the include guard. -/
theorem HeaderGenerator.generateClass_without_wrapper (g : HeaderGenerator) (depth : Nat)
    (s : QTextStream) (metaClass : AbstractMetaClass) (hs : s.fieldWidth = 0)
    (hwrap : g.shouldGenerateCppWrapper metaClass = false) :
    (g.generateClass depth s metaClass).string =
      s.string ++ g.licenseComment
        ++ "#ifndef " ++ HeaderGenerator.includeGuardName g metaClass ++ "\n"
        ++ "#define " ++ HeaderGenerator.includeGuardName g metaClass ++ "\n\n"
        ++ (if g.AVOID_PROTECTED_HACK then "" else "#define protected public\n\n")
        ++ "#include <shiboken.h>\n\n"
        ++ (if metaClass.typeEntry.m_include.isValid then
              g.includeToString metaClass.typeEntry.m_include ++ "\n\n"
            else "")
        ++ "#endif // " ++ HeaderGenerator.includeGuardName g metaClass ++ "\n\n" := by
  rw [HeaderGenerator.generateClass_eq_write_of_no_wrapper g depth s metaClass hs hwrap,
    QTextStream.write_string]
  simp only [String.append_assoc]

set_option maxRecDepth 100000 in
/-- C21, amended, at the class `A` with the include `a.h`, with and without
`AVOID_PROTECTED_HACK`. -/
theorem HeaderGenerator.generateClass_without_wrapper_witness :
    (Examples.noWrapperGenerator.generateClass 0 (QTextStream.new "")
        Examples.classWithInclude).string
      = "// license\n#ifndef SBK_AWRAPPER_H\n#define SBK_AWRAPPER_H\n\n#define protected public\n\n#include <shiboken.h>\n\n#include <a.h>\n\n#endif // SBK_AWRAPPER_H\n\n" ∧
    ({ Examples.noWrapperGenerator with AVOID_PROTECTED_HACK := true }.generateClass 0
        (QTextStream.new "") Examples.classWithInclude).string
      = "// license\n#ifndef SBK_AWRAPPER_H\n#define SBK_AWRAPPER_H\n\n#include <shiboken.h>\n\n#include <a.h>\n\n#endif // SBK_AWRAPPER_H\n\n" := by
  have h1 := HeaderGenerator.generateClass_without_wrapper Examples.noWrapperGenerator 0
    (QTextStream.new "") Examples.classWithInclude rfl rfl
  have h2 := HeaderGenerator.generateClass_without_wrapper
    { Examples.noWrapperGenerator with AVOID_PROTECTED_HACK := true } 0
    (QTextStream.new "") Examples.classWithInclude rfl rfl
  exact ⟨h1.trans (by decide), h2.trans (by decide)⟩

/-- C22, refuted as stated: the classes `A::B` and `A_B` have different wrapper
names and the same include guard name, which `generateClass` writes for
both. -/
theorem HeaderGenerator.includeGuard_unique_counterexample :
    Examples.generator.wrapperName Examples.nestedB = "A::BWrapper" ∧
      Examples.generator.wrapperName Examples.flatB = "A_BWrapper" ∧
      Examples.generator.wrapperName Examples.nestedB
        ≠ Examples.generator.wrapperName Examples.flatB ∧
      HeaderGenerator.includeGuardName Examples.generator Examples.nestedB
        = HeaderGenerator.includeGuardName Examples.generator Examples.flatB ∧
      "#ifndef SBK_A_BWRAPPER_H\n".data <:+:
        (Examples.noWrapperGenerator.generateClass 0 (QTextStream.new "")
          Examples.nestedB).string.data ∧
      "#ifndef SBK_A_BWRAPPER_H\n".data <:+:
        (Examples.noWrapperGenerator.generateClass 0 (QTextStream.new "")
          Examples.flatB).string.data := by
  decide

/-- C22, amended. `generateClass` derives the name of the include guard as
`SBK_`, the wrapper name with every `::` replaced by `_` and upper-cased, and
`_H`: its output opens and closes the guard of that name.  Two classes have
the same guard name exactly when their wrapper names agree after the
replacement and the upper-casing. -/
theorem HeaderGenerator.includeGuard_derivation (g : HeaderGenerator) :
    (∀ (depth : Nat) (s : QTextStream) (metaClass : AbstractMetaClass), s.fieldWidth = 0 →
      ∃ body : String,
        (g.generateClass depth s metaClass).string =
          s.string ++ g.licenseComment
            ++ "#ifndef " ++ HeaderGenerator.includeGuardName g metaClass ++ "\n"
            ++ "#define " ++ HeaderGenerator.includeGuardName g metaClass ++ "\n\n"
            ++ body
            ++ "#endif // " ++ HeaderGenerator.includeGuardName g metaClass ++ "\n\n") ∧
    (∀ c1 c2 : AbstractMetaClass,
      HeaderGenerator.includeGuardName g c1 = HeaderGenerator.includeGuardName g c2 ↔
        QString.toUpper (QString.replace (g.wrapperName c1) "::" "_")
          = QString.toUpper (QString.replace (g.wrapperName c2) "::" "_")) := by
  refine ⟨?_, HeaderGenerator.includeGuardName_eq_iff g⟩
  intro depth s metaClass hs
  cases hwrap : g.shouldGenerateCppWrapper metaClass
  · refine ⟨(if g.AVOID_PROTECTED_HACK then "" else "#define protected public\n\n")
        ++ "#include <shiboken.h>\n\n"
        ++ (if metaClass.typeEntry.m_include.isValid then
              g.includeToString metaClass.typeEntry.m_include ++ "\n\n"
            else ""), ?_⟩
    rw [HeaderGenerator.generateClass_eq_write_of_no_wrapper g depth s metaClass hs hwrap,
      QTextStream.write_string]
    simp only [String.append_assoc]
  · refine ⟨(if g.AVOID_PROTECTED_HACK then "" else "#define protected public\n\n")
        ++ "#include <shiboken.h>\n\n"
        ++ (if metaClass.typeEntry.m_include.isValid then
              g.includeToString metaClass.typeEntry.m_include ++ "\n\n"
            else "")
        ++ (if g.usePySideExtensions && metaClass.isQObject then
              "namespace PySide \x7b class DynamicQMetaObject; \x7d\n\n"
            else "")
        ++ "class " ++ HeaderGenerator.writtenWrapperName g metaClass ++ " : public "
        ++ metaClass.qualifiedCppName ++ "\n\x7b\npublic:\n"
        ++ HeaderGenerator.memberDeclarationsText g (depth + 1) metaClass
        ++ HeaderGenerator.destructorText g (depth + 1) metaClass
        ++ g.writeCodeSnips metaClass
        ++ (if g.usePySideExtensions && metaClass.isQObject then
              "public:\n"
                ++ g.INDENT (depth + 1)
                ++ "virtual int qt_metacall(QMetaObject::Call call, int id, void** args);\n"
                ++ "private:\n"
                ++ g.INDENT (depth + 1) ++ "mutable PySide::DynamicQMetaObject* m_metaObject;\n"
            else "")
        ++ "\x7d;\n\n", ?_⟩
    rw [HeaderGenerator.generateClass_eq_write g depth s metaClass hs hwrap,
      QTextStream.write_string]
    simp only [HeaderGenerator.classHeadText, HeaderGenerator.classTailText,
      HeaderGenerator.includeGuardName, HeaderGenerator.writtenWrapperName,
      String.append_assoc]
    rfl

set_option maxRecDepth 100000 in
/-- C22, amended, at the classes `A` and `A::B`: their wrapper names differ
after the replacement and the upper-casing, and so do their guard names. -/
theorem HeaderGenerator.includeGuard_derivation_witness :
    HeaderGenerator.includeGuardName Examples.generator Examples.classA = "SBK_AWRAPPER_H" ∧
      HeaderGenerator.includeGuardName Examples.generator Examples.nestedB
        = "SBK_A_BWRAPPER_H" ∧
      HeaderGenerator.includeGuardName Examples.generator Examples.classA
        ≠ HeaderGenerator.includeGuardName Examples.generator Examples.nestedB :=
  ⟨by decide, by decide,
   fun h => absurd
    (((HeaderGenerator.includeGuard_derivation Examples.generator).2
      Examples.classA Examples.nestedB).1 h) (by decide)⟩

/-! ## Patterns without asterisk -/

namespace TypeDatabase

open SuppressedWarning

theorem literalSegmentsAux_of_not_mem (cs : List Char) (h : '*' ∉ cs) :
    literalSegmentsAux false cs = [cs] := by
  induction cs with
  | nil => rfl
  | cons c cs ih =>
    have hc : c ≠ '*' := fun hc => h (hc ▸ List.mem_cons_self _ _)
    have hcs : '*' ∉ cs := fun hm => h (List.mem_cons_of_mem _ hm)
    have hhead : ¬ (c = '\\' ∧ cs.head? = some '*') := by
      rintro ⟨_, hh⟩
      cases cs with
      | nil => cases hh
      | cons d ds =>
        simp only [List.head?_cons, Option.some.injEq] at hh
        exact hcs (hh ▸ List.mem_cons_self _ _)
    rw [literalSegmentsAux, if_neg hhead, if_neg hc, ih hcs]
    rfl

theorem literalSegments_of_not_mem (p : String) (hne : p ≠ "") (h : '*' ∉ p.data) :
    literalSegments p = [p] := by
  have hd := data_ne_nil_of_ne_empty p hne
  have he : p.data.isEmpty = false := by
    cases hp : p.data with
    | nil => exact absurd hp hd
    | cons c cs => rfl
  unfold literalSegments
  rw [literalSegmentsAux_of_not_mem p.data h]
  simp [he]

end TypeDatabase

/-! ## Claim on patterns without asterisk -/

/-- C28. With suppression enabled and a single stored non-empty pattern `p`
that contains no asterisk and not the placeholder text, a message is
suppressed exactly when `p` occurs in it as a substring, at any place. -/
theorem TypeDatabase.isSuppressedWarning_substring (p m : String) (hne : p ≠ "")
    (hstar : '*' ∉ p.data)
    (hp : ¬ TypeDatabase.place_holder_for_asterisk.data <:+: p.data) :
    (SuppressedWarning.singlePattern p).isSuppressedWarning m = true ↔ p.data <:+: m.data := by
  rw [TypeDatabase.isSuppressedWarning_singlePattern,
    TypeDatabase.isSuppressedWarning_iteration_eq_true_iff,
    TypeDatabase.segments_eq_literalSegments p hp,
    TypeDatabase.literalSegments_of_not_mem p hne hstar, TypeDatabase.infix_iff_occursAt]
  constructor
  · rintro ⟨_, q, _, hocc, _⟩
    exact ⟨q, hocc⟩
  · rintro ⟨q, hocc⟩
    exact ⟨List.cons_ne_nil _ _, q, Nat.zero_le _, hocc, trivial⟩

/-- C28 at concrete messages: the pattern `foo` suppresses `a foo b`, where it
occurs neither at the start nor at the end, and does not suppress `fo of`. -/
theorem TypeDatabase.isSuppressedWarning_substring_witness :
    ((SuppressedWarning.singlePattern "foo").isSuppressedWarning "a foo b" = true ↔
        "foo".data <:+: "a foo b".data) ∧
      (SuppressedWarning.singlePattern "foo").isSuppressedWarning "a foo b" = true ∧
      (SuppressedWarning.singlePattern "foo").isSuppressedWarning "fo of" = false ∧
      ¬ "foo".data <:+: "fo of".data :=
  ⟨TypeDatabase.isSuppressedWarning_substring "foo" "a foo b" (by decide) (by decide)
      (by decide),
   by decide, by decide, by decide⟩

/-! ## Claim on the agreement of the converter functions -/

set_option maxRecDepth 100000 in
/-- C29, at a type with a source that is marked removed: for `Color` with the
removed converting constructor from `Hsv`, the definition of `isConvertible`
has the disjunct of `Hsv`, and the definition of `toCpp` has no branch for
it. -/
theorem HeaderGenerator.writeTypeConverterImpl_removed_source :
    (Examples.colorGenerator.implicitConversions Examples.colorEntry).map
        (fun source => (source.isModifiedRemoved, source.isUserAdded,
          (source.arguments.map (fun argument => argument.type.cppSignature))))
      = [(false, false, ["Name"]), (false, true, ["Rgb"]), (true, false, ["Hsv"]),
          (false, false, []), (false, false, ["int"])] ∧
    (Examples.colorGenerator.writeTypeConverterImpl 1 (QTextStream.new "")
        Examples.colorEntry).map (fun s => s.string)
      = some ("inline bool Shiboken::Converter<Color >::isConvertible(PyObject* pyobj)\n\x7b\n    return Name_Check(pyobj)\n         || Hsv_Check(pyobj)\n         || A_Check(pyobj)\n         || int_Check(pyobj);\n\x7d\n\n"
          ++ "inline Color Shiboken::Converter<Color >::toCpp(PyObject* pyobj)\n\x7b\n    if (!Shiboken_TypeCheck(pyobj, Color)) \x7b\n        if (Name_Check(pyobj))\n            return Color(toCpp<Name>(pyobj));\n        else if (A_Check(pyobj))\n            return Color(toCpp<A>(pyobj));\n        else if (int_Check(pyobj))\n            return Color(toCpp<int>(pyobj));\n    \x7d\n    return *cptr<Color>(pyobj);\n\x7d\n\n") ∧
    HeaderGenerator.occurrences "Hsv_Check(pyobj)".data
        (HeaderGenerator.isConvertibleText Examples.colorGenerator 1 Examples.colorEntry).data
      = 1 ∧
    HeaderGenerator.occurrences "Hsv".data
        (HeaderGenerator.toCppText Examples.colorGenerator 1 Examples.colorEntry).data
      = 0 := by
  decide

/-! ## The required imports -/

namespace TypeDatabase

theorem mem_firstOccurrences (names : List String) (name : String) :
    name ∈ firstOccurrences names ↔ name ∈ names := by
  induction names with
  | nil => simp [firstOccurrences]
  | cons first rest ih =>
    simp only [firstOccurrences, List.mem_cons, List.mem_filter, ih, bne_iff_ne, ne_eq]
    constructor
    · rintro (h | ⟨h, _⟩)
      · exact Or.inl h
      · exact Or.inr h
    · rintro (h | h)
      · exact Or.inl h
      · by_cases hn : name = first
        · exact Or.inl hn
        · exact Or.inr ⟨h, hn⟩

theorem nodup_firstOccurrences (names : List String) : (firstOccurrences names).Nodup := by
  induction names with
  | nil => simp [firstOccurrences]
  | cons first rest ih =>
    rw [firstOccurrences, List.nodup_cons]
    refine ⟨?_, ih.filter _⟩
    simp [List.mem_filter]

theorem addRequiredTargetImports_imports (names : List String) (db : TypeDatabase) :
    (addRequiredTargetImports db names).m_requiredTargetImports
      = db.m_requiredTargetImports
        ++ (firstOccurrences names).filter
            (fun name => !db.m_requiredTargetImports.contains name) := by
  induction names generalizing db with
  | nil => simp [addRequiredTargetImports, firstOccurrences]
  | cons first rest ih =>
    have hstep : addRequiredTargetImports db (first :: rest)
        = addRequiredTargetImports (db.addRequiredTargetImport first) rest := rfl
    rw [hstep, ih]
    unfold addRequiredTargetImport
    cases hc : db.m_requiredTargetImports.contains first
    · simp only [Bool.not_false, if_true, firstOccurrences, List.filter_cons, hc,
        List.append_assoc, List.singleton_append, List.filter_filter]
      congr 2
      apply List.filter_congr
      intro name _
      simp only [List.contains_eq_any_beq, List.any_append, List.any_cons, List.any_nil,
        Bool.or_false, Bool.not_or, bne]
    · simp only [Bool.not_true, Bool.false_eq_true, if_false, firstOccurrences, List.filter_cons,
        hc, List.filter_filter]
      congr 1
      apply List.filter_congr
      intro name _
      by_cases hn : name = first
      · subst hn
        have hmem : name ∈ db.m_requiredTargetImports := by simpa using hc
        simp [hmem]
      · simp [hn]

end TypeDatabase

namespace HeaderGenerator

theorem foldl_moduleInclude_eq_write (g : HeaderGenerator) (modules : List String)
    (s : QTextStream) (hs : s.fieldWidth = 0) :
    modules.foldl
        (fun s requiredModule =>
          (((s.putString "#include <").putString
            (g.getModuleHeaderFileName requiredModule)).putString ">").endl) s
      = s.write (moduleIncludeLinesText g modules) := by
  have hw : ∀ (t : QTextStream) (text : String), t.fieldWidth = 0 →
      (t.write text).fieldWidth = 0 := fun _ _ ht => ht
  induction modules generalizing s with
  | nil => simp [moduleIncludeLinesText, QTextStream.write_empty]
  | cons requiredModule rest ih =>
    rw [List.foldl_cons]
    simp only [QTextStream.putString_eq_write, QTextStream.endl_eq_write, hw, hs,
      QTextStream.write_write]
    rw [ih _ (hw _ _ hs), QTextStream.write_write]
    simp only [moduleIncludeLinesText, String.append_assoc]
    rfl

theorem moduleIncludes_eq_write (g : HeaderGenerator) (db : TypeDatabase) (s : QTextStream)
    (hs : s.fieldWidth = 0) :
    finishGeneration.moduleIncludes g db s
      = s.write (if db.requiredTargetImports.isEmpty then ""
          else "// Module Includes\n" ++ moduleIncludeLinesText g db.requiredTargetImports
            ++ "\n") := by
  have hw : ∀ (t : QTextStream) (text : String), t.fieldWidth = 0 →
      (t.write text).fieldWidth = 0 := fun _ _ ht => ht
  unfold finishGeneration.moduleIncludes
  cases he : db.requiredTargetImports.isEmpty
  · simp only [he, Bool.not_false, if_true, Bool.false_eq_true, if_false,
      QTextStream.putString_eq_write, QTextStream.endl_eq_write, hw, hs,
      QTextStream.write_write, foldl_moduleInclude_eq_write, String.append_assoc]
    rfl
  · simp only [he, Bool.not_true, Bool.false_eq_true, if_false, if_true,
      QTextStream.write_empty]

end HeaderGenerator

/-! ## Claim on the required imports -/

/-- C24. Starting from a database without required imports, after every
sequence of `addRequiredTargetImport` calls `requiredTargetImports()` is the
list of the registered names, each once, in the order of first registration;
registering a name that is present leaves the database unchanged; and
`finishGeneration` writes one `#include` line per required module, in the
order of the list. -/
theorem TypeDatabase.requiredTargetImports_first_seen (suppressWarnings : Bool)
    (names : List String) :
    ((TypeDatabase.empty suppressWarnings).addRequiredTargetImports names).requiredTargetImports
        = TypeDatabase.firstOccurrences names ∧
      ((TypeDatabase.empty suppressWarnings).addRequiredTargetImports
          names).requiredTargetImports.Nodup ∧
      (∀ name : String,
        name ∈ ((TypeDatabase.empty suppressWarnings).addRequiredTargetImports
            names).requiredTargetImports ↔ name ∈ names) ∧
      (∀ (db : TypeDatabase) (name : String), name ∈ db.requiredTargetImports →
        db.addRequiredTargetImport name = db) ∧
      (∀ (g : HeaderGenerator) (db : TypeDatabase) (s : QTextStream), s.fieldWidth = 0 →
        (HeaderGenerator.finishGeneration.moduleIncludes g db s).string =
          s.string ++
            (if db.requiredTargetImports.isEmpty then ""
             else "// Module Includes\n"
               ++ HeaderGenerator.moduleIncludeLinesText g db.requiredTargetImports
               ++ "\n")) := by
  have h1 : ((TypeDatabase.empty suppressWarnings).addRequiredTargetImports
      names).requiredTargetImports = TypeDatabase.firstOccurrences names := by
    unfold TypeDatabase.requiredTargetImports
    rw [TypeDatabase.addRequiredTargetImports_imports]
    simp [TypeDatabase.empty]
  refine ⟨h1, ?_, ?_, ?_, ?_⟩
  · rw [h1]
    exact TypeDatabase.nodup_firstOccurrences names
  · intro name
    rw [h1]
    exact TypeDatabase.mem_firstOccurrences names name
  · intro db name hmem
    unfold TypeDatabase.addRequiredTargetImport
    have hc : db.m_requiredTargetImports.contains name = true := by
      simpa [TypeDatabase.requiredTargetImports] using hmem
    simp only [hc, Bool.not_true, Bool.false_eq_true, if_false]
  · intro g db s hs
    rw [HeaderGenerator.moduleIncludes_eq_write g db s hs, QTextStream.write_string]

/-- C24 at a concrete sequence of registrations: `core` is registered again
after `gui`, and the list and the include lines keep the order of first
registration. -/
theorem TypeDatabase.requiredTargetImports_first_seen_witness :
    ((TypeDatabase.empty false).addRequiredTargetImports
        ["core", "gui", "core", "net", "gui"]).requiredTargetImports = ["core", "gui", "net"] ∧
      (HeaderGenerator.finishGeneration.moduleIncludes Examples.generator
        ((TypeDatabase.empty false).addRequiredTargetImports
          ["core", "gui", "core", "net", "gui"]) (QTextStream.new "")).string
        = "// Module Includes\n#include <core_python.h>\n#include <gui_python.h>\n#include <net_python.h>\n\n" :=
  ⟨(TypeDatabase.requiredTargetImports_first_seen false
      ["core", "gui", "core", "net", "gui"]).1.trans (by decide),
   by decide⟩

/-! ## The extra includes of a type entry -/

namespace TypeEntry

/-- The names of the extra includes are distinct, and each is recorded in
`m_includesUsed`. -/
theorem addExtraInclude_invariant (e : TypeEntry) (inc : Include)
    (hnodup : (e.m_extraIncludes.map (fun i => i.name)).Nodup)
    (hused : ∀ i ∈ e.m_extraIncludes, QHash.value e.m_includesUsed i.name = true) :
    ((e.addExtraInclude inc).m_extraIncludes.map (fun i => i.name)).Nodup ∧
      ∀ i ∈ (e.addExtraInclude inc).m_extraIncludes,
        QHash.value (e.addExtraInclude inc).m_includesUsed i.name = true := by
  unfold addExtraInclude
  cases hv : QHash.value e.m_includesUsed inc.name
  · simp only [Bool.not_false, if_true]
    constructor
    · show ((e.m_extraIncludes ++ [inc]).map (fun i => i.name)).Nodup
      rw [List.map_append, List.nodup_append]
      refine ⟨hnodup, by simp, ?_⟩
      intro name h1 h2
      simp only [List.map_cons, List.map_nil, List.mem_singleton] at h2
      obtain ⟨i, hi, hname⟩ := List.mem_map.1 h1
      have := hused i hi
      rw [hname, h2, hv] at this
      cases this
    · intro i hi
      show QHash.value (QHash.assign e.m_includesUsed inc.name true) i.name = true
      have hi' : i ∈ e.m_extraIncludes ++ [inc] := hi
      by_cases hname : inc.name = i.name
      · rw [← hname, QHash.value_assign_self]
      · rw [QHash.value_assign_of_ne _ _ _ _ (fun h => hname h.symm)]
        rcases List.mem_append.1 hi' with h | h
        · exact hused i h
        · rw [List.mem_singleton] at h
          exact absurd (congrArg Include.name h).symm hname
  · simp only [Bool.not_true, Bool.false_eq_true, if_false]
    exact ⟨hnodup, hused⟩

theorem foldl_addExtraInclude_invariant (includes : List Include) (e : TypeEntry)
    (hnodup : (e.m_extraIncludes.map (fun i => i.name)).Nodup)
    (hused : ∀ i ∈ e.m_extraIncludes, QHash.value e.m_includesUsed i.name = true) :
    (((includes.foldl addExtraInclude e).m_extraIncludes).map (fun i => i.name)).Nodup := by
  induction includes generalizing e with
  | nil => exact hnodup
  | cons inc rest ih =>
    have h := addExtraInclude_invariant e inc hnodup hused
    exact ih (e.addExtraInclude inc) h.1 h.2

end TypeEntry

/-! ## Claim on the extra includes -/

/-- C25, refuted as stated: on a fresh entry, `setExtraIncludes` with the
include `a.h` followed by `addExtraInclude` with the same include leaves two
includes of the name `a.h`; and `setExtraIncludes` stores a list with two
includes of one name as it is. -/
theorem TypeEntry.extraIncludes_counterexample :
    (ObjectTypeEntry.new "T").extraIncludes = [] ∧
      (((ObjectTypeEntry.new "T").setExtraIncludes [Examples.includeA]).addExtraInclude
        Examples.includeA).extraIncludes = [Examples.includeA, Examples.includeA] ∧
      ((ObjectTypeEntry.new "T").setExtraIncludes
        [Examples.includeA, Examples.includeLocalA]).extraIncludes
        = [Examples.includeA, Examples.includeLocalA] ∧
      Examples.includeA.name = Examples.includeLocalA.name := by
  decide

/-- C25, amended. Starting from an entry without extra includes, such as a
fresh entry, after every sequence of `addExtraInclude` calls `extraIncludes()`
contains no two includes with the same name. -/
theorem TypeEntry.extraIncludes_names_nodup (e : TypeEntry) (includes : List Include)
    (h : e.extraIncludes = []) :
    (((includes.foldl TypeEntry.addExtraInclude e).extraIncludes).map
      (fun inc => inc.name)).Nodup := by
  have h0 : e.m_extraIncludes = [] := h
  apply TypeEntry.foldl_addExtraInclude_invariant
  · rw [h0]
    exact List.nodup_nil
  · intro i hi
    rw [h0] at hi
    cases hi

/-- C25, amended, at a fresh entry: of the includes `a.h`, `b.h` and again
`a.h` (as a local path) the first two are kept. -/
theorem TypeEntry.extraIncludes_names_nodup_witness :
    ([Examples.includeA, Examples.includeB, Examples.includeLocalA].foldl
        TypeEntry.addExtraInclude (ObjectTypeEntry.new "T")).extraIncludes
      = [Examples.includeA, Examples.includeB] ∧
    ((([Examples.includeA, Examples.includeB, Examples.includeLocalA].foldl
        TypeEntry.addExtraInclude (ObjectTypeEntry.new "T")).extraIncludes).map
      (fun inc => inc.name)).Nodup :=
  ⟨by decide,
   TypeEntry.extraIncludes_names_nodup (ObjectTypeEntry.new "T")
    [Examples.includeA, Examples.includeB, Examples.includeLocalA] rfl⟩

/-! ## Claim on the link between an enum entry and its flags entry -/

/-- C26, refuted as stated: after `setFlags` alone, called on a newly
constructed enum entry (at address 0) with a newly constructed flags entry (at
address 1), `flags()` of the enum entry is the flags entry and `originator()`
of the flags entry is null. -/
theorem EntryObjects.bidirectional_counterexample :
    (EntryObjects.constructed.setFlags 0 (some 1)).flags 0 = some 1 ∧
      (EntryObjects.constructed.setFlags 0 (some 1)).originator 1 = none ∧
      ¬ (EntryObjects.constructed.setFlags 0 (some 1)).Bidirectional := by
  refine ⟨rfl, rfl, ?_⟩
  intro h
  have h1 := h.1 0 1 rfl
  cases h1

/-- C26, amended. Each setter assigns its own pointer member and nothing else:
`setFlags` changes `flags()` of its enum entry only and no `originator()`,
`setOriginator` changes `originator()` of its flags entry only and no
`flags()`.  So the association of an enum entry and a flags entry holds in
both directions once both setters have been called for the pair, in either
order. -/
theorem EntryObjects.setters_link (h : EntryObjects) (e f : Address)
    (flags originator : Option Address) :
    (h.setFlags e flags).flags e = flags ∧
      (∀ a : Address, a ≠ e → (h.setFlags e flags).flags a = h.flags a) ∧
      (∀ a : Address, (h.setFlags e flags).originator a = h.originator a) ∧
      (h.setOriginator f originator).originator f = originator ∧
      (∀ a : Address, a ≠ f → (h.setOriginator f originator).originator a = h.originator a) ∧
      (∀ a : Address, (h.setOriginator f originator).flags a = h.flags a) ∧
      (((h.setFlags e (some f)).setOriginator f (some e)).flags e = some f ∧
        ((h.setFlags e (some f)).setOriginator f (some e)).originator f = some e) ∧
      (((h.setOriginator f (some e)).setFlags e (some f)).flags e = some f ∧
        ((h.setOriginator f (some e)).setFlags e (some f)).originator f = some e) := by
  simp [EntryObjects.setFlags, EntryObjects.setOriginator, EntryObjects.flags,
    EntryObjects.originator]
  exact ⟨fun a ha h1 => absurd h1 ha, fun a ha h1 => absurd h1 ha⟩

/-! ## The input of the index assignment -/

namespace HeaderGenerator

theorem writeTypeIndexDefineLine_entry_congr (g1 g2 : HeaderGenerator) (e1 : TypeEntry) :
    ∀ (e2 : TypeEntry) (s : QTextStream) (idx : Nat),
      indexAttributes g1 e1 = indexAttributes g2 e2 →
      writeTypeIndexDefineLine.entry g1 s e1 idx = writeTypeIndexDefineLine.entry g2 s e2 idx := by
  induction e1 using TypeEntry.rec
    (motive_2 := fun o => ∀ f, o = some f → ∀ (e2 : TypeEntry) (s : QTextStream) (idx : Nat),
      indexAttributes g1 f = indexAttributes g2 e2 →
      writeTypeIndexDefineLine.entry g1 s f idx = writeTypeIndexDefineLine.entry g2 s e2 idx) with
  | mk fields m_flags ih =>
    intro e2 s idx h
    obtain ⟨fields2, flags2⟩ := e2
    unfold indexAttributes at h
    injection h with hg he hn hf
    rw [writeTypeIndexDefineLine.entry, writeTypeIndexDefineLine.entry]
    simp only [hg, he, hn]
    cases m_flags with
    | none =>
      cases flags2 with
      | none => rfl
      | some f2 => cases hf
    | some f1 =>
      cases flags2 with
      | none => cases hf
      | some f2 =>
        simp only [Option.some.injEq] at hf
        simp only [ih f1 rfl f2 _ _ hf]
  | none =>
    rename_i f hf e2 s idx h
    cases hf
  | some v ih =>
    rename_i f hf e2 s idx h
    cases hf
    exact ih e2 s idx h

theorem generateCode_eq_of_indexAttributes (g1 g2 : HeaderGenerator) (e1 e2 : TypeEntry)
    (h : indexAttributes g1 e1 = indexAttributes g2 e2) :
    e1.generateCode = e2.generateCode := by
  obtain ⟨fields1, flags1⟩ := e1
  obtain ⟨fields2, flags2⟩ := e2
  unfold indexAttributes at h
  injection h

theorem writeTypeIndexDefineLine_congr (g1 g2 : HeaderGenerator)
    (o1 o2 : Option TypeEntry)
    (h : o1.map (indexAttributes g1) = o2.map (indexAttributes g2))
    (s : QTextStream) (idx : Nat) :
    g1.writeTypeIndexDefineLine s o1 idx = g2.writeTypeIndexDefineLine s o2 idx := by
  cases o1 with
  | none =>
    cases o2 with
    | none => rfl
    | some e2 => cases h
  | some e1 =>
    cases o2 with
    | none => cases h
    | some e2 =>
      simp only [Option.map_some', Option.some.injEq] at h
      exact writeTypeIndexDefineLine_entry_congr g1 g2 e1 e2 s idx h

/-- Two `foreach` loops over lists with the same attributes, whose bodies
agree on elements with the same attributes, agree. -/
theorem foldl_congr_of_map_eq {α β γ ρ : Type} (f1 : α → γ) (f2 : β → γ)
    (body1 : ρ → α → ρ) (body2 : ρ → β → ρ)
    (hbody : ∀ a b, f1 a = f2 b → ∀ r, body1 r a = body2 r b) :
    ∀ (l1 : List α) (l2 : List β), l1.map f1 = l2.map f2 →
      ∀ r, l1.foldl body1 r = l2.foldl body2 r := by
  intro l1
  induction l1 with
  | nil =>
    intro l2 h r
    cases l2 with
    | nil => rfl
    | cons b l2 => cases h
  | cons a l1 ih =>
    intro l2 h r
    cases l2 with
    | nil => cases h
    | cons b l2 =>
      simp only [List.map_cons, List.cons.injEq] at h
      rw [List.foldl_cons, List.foldl_cons, hbody a b h.1 r]
      exact ih l2 h.2 _

theorem enums_foldl_congr (g1 g2 : HeaderGenerator) (l1 l2 : List AbstractMetaEnum)
    (h : l1.map (fun metaEnum => metaEnum.typeEntry.map (indexAttributes g1))
      = l2.map (fun metaEnum => metaEnum.typeEntry.map (indexAttributes g2)))
    (r : QTextStream × Nat) :
    l1.foldl (fun r metaEnum => g1.writeTypeIndexDefineLine r.1 metaEnum.typeEntry r.2) r
      = l2.foldl (fun r metaEnum => g2.writeTypeIndexDefineLine r.1 metaEnum.typeEntry r.2) r :=
  foldl_congr_of_map_eq _ _ _ _
    (fun a b hab r => writeTypeIndexDefineLine_congr g1 g2 a.typeEntry b.typeEntry hab r.1 r.2)
    l1 l2 h r

theorem writeTypeIndexDefine_congr (g1 g2 : HeaderGenerator) (c1 c2 : AbstractMetaClass)
    (he : indexAttributes g1 c1.typeEntry = indexAttributes g2 c2.typeEntry)
    (hn : c1.isNamespace = c2.isNamespace)
    (henums : c1.enums.map (fun metaEnum => metaEnum.typeEntry.map (indexAttributes g1))
      = c2.enums.map (fun metaEnum => metaEnum.typeEntry.map (indexAttributes g2)))
    (s : QTextStream) (idx : Nat) :
    g1.writeTypeIndexDefine s c1 idx = g2.writeTypeIndexDefine s c2 idx := by
  have hg : c1.typeEntry.generateCode = c2.typeEntry.generateCode :=
    generateCode_eq_of_indexAttributes g1 g2 _ _ he
  have hline : g1.writeTypeIndexDefineLine s (some c1.typeEntry) idx
      = g2.writeTypeIndexDefineLine s (some c2.typeEntry) idx :=
    writeTypeIndexDefineLine_congr g1 g2 _ _ (by simp [he]) s idx
  unfold writeTypeIndexDefine
  rw [hg, hn, hline]
  split
  · rfl
  · exact enums_foldl_congr g1 g2 _ _ henums _

theorem typeIndices_congr (g1 g2 : HeaderGenerator) (h : indexInput g1 = indexInput g2) :
    finishGeneration.typeIndices g1 = finishGeneration.typeIndices g2 := by
  simp only [indexInput, Prod.mk.injEq] at h
  obtain ⟨hclasses, henums, hname⟩ := h
  have hempty : g1.classes.isEmpty = g2.classes.isEmpty := by
    have hl := congrArg List.length hclasses
    simp only [List.length_map] at hl
    cases h1 : g1.classes <;> cases h2 : g2.classes <;> simp_all
  have hfold1 : ∀ r, g1.classes.foldl
        (fun r metaClass => g1.writeTypeIndexDefine r.1 metaClass r.2) r
      = g2.classes.foldl (fun r metaClass => g2.writeTypeIndexDefine r.1 metaClass r.2) r :=
    foldl_congr_of_map_eq _ _ _ _
      (fun a b hab r => by
        simp only [ClassIndexAttributes.mk.injEq] at hab
        exact writeTypeIndexDefine_congr g1 g2 a b hab.1 hab.2.1 hab.2.2 r.1 r.2)
      g1.classes g2.classes hclasses
  unfold finishGeneration.typeIndices
  rw [hempty, hname]
  simp only [hfold1, enums_foldl_congr g1 g2 _ _ henums]

end HeaderGenerator

/-! ## Claim on the determinism of the index assignment -/

/-- C27. The index assignment of `finishGeneration` is a function of its
input alone: two metamodels with the same classes in iteration order, the same
enums per class in declaration order, the same global enums in order, the same
attributes at every entry (`generateCode()`, the namespace flag, the flags
link, the index name) and the same module name give the same type index table,
line by line, and the same count, whatever else differs between them. -/
theorem HeaderGenerator.finishGeneration_typeIndices_deterministic (g1 g2 : HeaderGenerator)
    (h : HeaderGenerator.indexInput g1 = HeaderGenerator.indexInput g2) :
    HeaderGenerator.finishGeneration.typeIndices g1
      = HeaderGenerator.finishGeneration.typeIndices g2 :=
  HeaderGenerator.typeIndices_congr g1 g2 h

/-- C27 at two metamodels that differ in class names, includes, conversion
rules, inner classes and in the functions defined outside the sources, and
agree in the input of the index assignment. -/
theorem HeaderGenerator.finishGeneration_typeIndices_deterministic_witness :
    Examples.generator.cpythonCheckFunction (ObjectTypeEntry.new "A")
        ≠ Examples.otherGenerator.cpythonCheckFunction (ObjectTypeEntry.new "A") ∧
      HeaderGenerator.finishGeneration.typeIndices Examples.generator
        = HeaderGenerator.finishGeneration.typeIndices Examples.otherGenerator :=
  ⟨by decide,
   HeaderGenerator.finishGeneration_typeIndices_deterministic Examples.generator
    Examples.otherGenerator rfl⟩

/-! ## The class includes -/

namespace HeaderGenerator

theorem includeLinesText_append (g : HeaderGenerator) (l1 l2 : List Include) :
    includeLinesText g (l1 ++ l2) = includeLinesText g l1 ++ includeLinesText g l2 := by
  induction l1 with
  | nil => simp [includeLinesText]
  | cons inc rest ih => simp [includeLinesText, ih, String.append_assoc]

theorem innerClassIncludesLoop_eq_write (g : HeaderGenerator)
    (innerClasses : List AbstractMetaClass) (s : QTextStream) (hs : s.fieldWidth = 0) :
    finishGeneration.innerClassIncludesLoop g s innerClasses
      = s.write (includeLinesText g ((innerClasses.filter g.shouldGenerate).map
          (fun innerClass => innerClass.typeEntry.m_include))) := by
  induction innerClasses generalizing s with
  | nil => simp [finishGeneration.innerClassIncludesLoop, includeLinesText,
      QTextStream.write_empty]
  | cons innerClass rest ih =>
    rw [finishGeneration.innerClassIncludesLoop]
    cases hg : g.shouldGenerate innerClass
    · simp only [Bool.false_eq_true, if_false, List.filter_cons, hg]
      exact ih s hs
    · simp only [if_true, List.filter_cons, hg, List.map_cons, includeLinesText]
      have hw : ∀ (t : QTextStream) (text : String), t.fieldWidth = 0 →
          (t.write text).fieldWidth = 0 := fun _ _ ht => ht
      simp only [QTextStream.putString_eq_write, QTextStream.endl_eq_write, hw, hs,
        QTextStream.write_write, ih, String.append_assoc]

theorem classIncludesLoop_eq_write (g : HeaderGenerator) (classes : List AbstractMetaClass)
    (he : ∀ metaClass ∈ classes,
      (!(g.shouldGenerate metaClass && !metaClass.enclosingClass.isSome &&
          (metaClass.typeEntry.isObject || metaClass.typeEntry.isValue ||
            metaClass.typeEntry.isNamespace))
        || metaClass.enums.all (fun metaEnum => metaEnum.typeEntry.isSome)) = true)
    (s : QTextStream) (hs : s.fieldWidth = 0) :
    finishGeneration.classIncludesLoop g s classes
      = some (s.write (includeLinesText g (classes.flatMap (classIncludesOf g)))) := by
  induction classes generalizing s with
  | nil => simp [finishGeneration.classIncludesLoop, includeLinesText, QTextStream.write_empty]
  | cons metaClass rest ih =>
    have hrest := fun c hmem => he c (List.mem_cons_of_mem metaClass hmem)
    have hthis := he metaClass (List.mem_cons_self _ _)
    have hdef : classIncludesOf g metaClass =
        (if g.shouldGenerate metaClass && !metaClass.enclosingClass.isSome &&
            (metaClass.typeEntry.isObject || metaClass.typeEntry.isValue ||
              metaClass.typeEntry.isNamespace) then
          (if metaClass.typeEntry.m_include.isValid then [metaClass.typeEntry.m_include]
            else [])
            ++ (if metaClass.isNamespace then []
                else (metaClass.innerClasses.filter g.shouldGenerate).map
                  (fun innerClass => innerClass.typeEntry.m_include))
        else []) := rfl
    rw [finishGeneration.classIncludesLoop, List.flatMap_cons, hdef]
    cases hsg : g.shouldGenerate metaClass
    · simpa using ih hrest s hs
    cases hen : metaClass.enclosingClass.isSome
    swap
    · simpa using ih hrest s hs
    cases hk : (metaClass.typeEntry.isObject || metaClass.typeEntry.isValue ||
        metaClass.typeEntry.isNamespace)
    · simpa [hk] using ih hrest s hs
    have hpresent : metaClass.enums.all (fun metaEnum => metaEnum.typeEntry.isSome) = true := by
      simpa [hsg, hen, hk] using hthis
    simp only [hpresent, Bool.not_true, Bool.not_false, Bool.or_false, Bool.false_or,
      Bool.and_self, Bool.false_eq_true, if_false, if_true, includeLinesText_append]
    have hw : ∀ (t : QTextStream) (text : String), t.fieldWidth = 0 →
        (t.write text).fieldWidth = 0 := fun _ _ ht => ht
    have ih' := ih hrest
    cases hv : metaClass.typeEntry.m_include.isValid <;> cases hns : metaClass.isNamespace <;>
      simp only [Bool.not_true, Bool.not_false, Bool.false_eq_true, if_false, if_true,
        QTextStream.putString_eq_write, QTextStream.endl_eq_write, hw, hs,
        QTextStream.write_write, innerClassIncludesLoop_eq_write, ih', QTextStream.write_empty,
        includeLinesText, String.append_assoc, String.empty_append, String.append_empty]

theorem classIncludes_eq (g : HeaderGenerator) (h : g.classes ≠ [])
    (hp : enumEntriesPresent g = true) :
    finishGeneration.classIncludes g
      = some (includeLinesText g (g.classes.flatMap (classIncludesOf g))) := by
  have hc : g.classes.isEmpty = false := by
    cases hcl : g.classes with
    | nil => exact absurd hcl h
    | cons a l => rfl
  simp only [enumEntriesPresent, Bool.and_eq_true] at hp
  obtain ⟨hge, hcl⟩ := hp
  rw [List.all_eq_true] at hcl
  unfold finishGeneration.classIncludes
  rw [classIncludesLoop_eq_write g g.classes hcl _ rfl]
  simp only [hc, hge, Bool.false_eq_true, if_false, if_true, QTextStream.write_string]
  rfl

end HeaderGenerator

/-! ## Claim on the class includes -/

/-- C23, refuted as stated: for two classes that share the include `a.h`, the
text of the class includes holds the line of that include twice. -/
theorem HeaderGenerator.finishGeneration_classIncludes_counterexample :
    HeaderGenerator.finishGeneration.classIncludes Examples.sharedIncludeGenerator
        = some "#include <a.h>\n#include <a.h>\n" ∧
      (HeaderGenerator.finishGeneration.classIncludeSection Examples.sharedIncludeGenerator
          (QTextStream.new "")).map (fun s => s.string)
        = some "// Class Includes\n#include <a.h>\n#include <a.h>\n\n" ∧
      HeaderGenerator.occurrences "#include <a.h>\n".data
          "// Class Includes\n#include <a.h>\n#include <a.h>\n\n".data = 2 := by
  decide

/-- C23, amended. Whenever the class list is not empty and the enums have
entries, the text of the class includes holds one include line per visited
class with a valid include and one per inner class that passes
`shouldGenerate`, in the order in which the classes are visited; a line is
written again for every further class with the same include.  A class is
visited when it passes `shouldGenerate`, has no enclosing class and has an
object, value or namespace entry. -/
theorem HeaderGenerator.finishGeneration_classIncludes (g : HeaderGenerator)
    (h : g.classes ≠ []) (hp : HeaderGenerator.enumEntriesPresent g = true) :
    HeaderGenerator.finishGeneration.classIncludes g
        = some (HeaderGenerator.includeLinesText g
            (g.classes.flatMap (HeaderGenerator.classIncludesOf g))) ∧
      ∀ s : QTextStream, s.fieldWidth = 0 →
        (HeaderGenerator.finishGeneration.classIncludeSection g s).map (fun r => r.string)
          = some (s.string ++ "// Class Includes\n"
              ++ HeaderGenerator.includeLinesText g
                  (g.classes.flatMap (HeaderGenerator.classIncludesOf g))
              ++ "\n") := by
  have h1 := HeaderGenerator.classIncludes_eq g h hp
  refine ⟨h1, ?_⟩
  intro s hs
  have hw : ∀ (t : QTextStream) (text : String), t.fieldWidth = 0 →
      (t.write text).fieldWidth = 0 := fun _ _ ht => ht
  unfold HeaderGenerator.finishGeneration.classIncludeSection
  rw [h1]
  simp only [QTextStream.putString_eq_write, QTextStream.endl_eq_write, hw, hs,
    QTextStream.write_write, Option.map_some', QTextStream.write_string, String.append_assoc]
  rfl

/-- C23, amended, at the metamodel of the class `Outer`, its inner class and
the class `Iface`, extended by the class `A` with the include `a.h`: the lines
are that of the inner class, whose include is not valid, and that of `A`. -/
theorem HeaderGenerator.finishGeneration_classIncludes_witness :
    HeaderGenerator.finishGeneration.classIncludes
        { Examples.macroGenerator with
          classes := Examples.macroGenerator.classes ++ [Examples.classWithInclude] }
      = some "#include <>\n#include <a.h>\n" :=
  (HeaderGenerator.finishGeneration_classIncludes
    { Examples.macroGenerator with
      classes := Examples.macroGenerator.classes ++ [Examples.classWithInclude] }
    (List.cons_ne_nil _ _) (by decide)).1.trans (by decide)

/-! ## The converter declaration -/

namespace HeaderGenerator

theorem writeTypeConverterDecl_eq_write (g : HeaderGenerator) (depth : Nat) (s : QTextStream)
    (type : TypeEntry) (hs : s.fieldWidth = 0) :
    g.writeTypeConverterDecl depth s type
      = s.write (converterDeclHeadText g type
          ++ (if type.isValue && !(conversionSources g type).isEmpty then
                converterMembersText g depth type
              else "")
          ++ "\x7d;\n") := by
  have hw : ∀ (t : QTextStream) (text : String), t.fieldWidth = 0 →
      (t.write text).fieldWidth = 0 := fun _ _ ht => ht
  have hsrc : (g.implicitConversions type).filter (fun func => !func.isUserAdded)
      = conversionSources g type := rfl
  unfold writeTypeConverterDecl converterDeclHeadText converterMembersText
  simp only [hsrc]
  cases h1 : (type.isValue && !(conversionSources g type).isEmpty) <;>
    cases h2 : (type.isEnum || type.isFlags) <;>
    simp only [if_true, if_false, Bool.false_eq_true,
      QTextStream.putString_eq_write, QTextStream.endl_eq_write,
      QTextStream.putChar_eq_write, hw, hs, QTextStream.write_write, String.append_assoc,
      String.empty_append, String.append_empty] <;>
    rfl

theorem writeTypeConverterImpl_of_no_sources (g : HeaderGenerator) (depth : Nat)
    (s : QTextStream) (type : TypeEntry) (h : (conversionSources g type).isEmpty = true) :
    g.writeTypeConverterImpl depth s type = some s := by
  have hsrc : (writeTypeConverterImpl.implicitConvs g type).isEmpty = true := h
  unfold writeTypeConverterImpl
  cases type.hasConversionRule <;> simp [hsrc]

end HeaderGenerator


/-! ## Claim on the converter declaration and definition -/

set_option maxRecDepth 100000 in
/-- C30, refuted as stated: for the value type `Color` with implicit
conversions and a conversion rule, `writeTypeConverterDecl` declares the
members `toCpp` and `isConvertible`, and `writeTypeConverterImpl` emits
nothing. -/
theorem HeaderGenerator.converter_declaration_counterexample :
    (Examples.colorEntry.setConversionRule "rule").isValue = true ∧
      (Examples.colorGenerator.writeTypeConverterDecl 1 (QTextStream.new "")
          (Examples.colorEntry.setConversionRule "rule")).string
        = "template<>\nstruct Converter<Color > : ConverterBase<Color >\n\x7b\n    static Color toCpp(PyObject* pyobj);\n    static bool isConvertible(PyObject* pyobj);\n\x7d;\n" ∧
      (Examples.colorGenerator.writeTypeConverterImpl 1 (QTextStream.new "")
          (Examples.colorEntry.setConversionRule "rule")).map (fun s => s.string)
        = some "" := by
  decide

/-- C30, amended. For a type entry without a conversion rule that is a value
type or has no implicit conversion, `writeTypeConverterDecl` declares the
members `toCpp` and `isConvertible` exactly when `writeTypeConverterImpl`
emits their definitions: both do so exactly when the entry has an implicit
conversion that is not user added. -/
theorem HeaderGenerator.converter_declaration_matches_definition (g : HeaderGenerator)
    (depthDecl depthImpl : Nat) (convDecl convImpl : QTextStream) (type : TypeEntry)
    (hd : convDecl.fieldWidth = 0) (hi : convImpl.fieldWidth = 0)
    (hrule : type.hasConversionRule = false)
    (hvalue : type.isValue = true ∨ (HeaderGenerator.conversionSources g type).isEmpty = true)
    (hwf : ∀ source ∈ HeaderGenerator.conversionSources g type,
      HeaderGenerator.sourceWellFormed source = true) :
    (g.writeTypeConverterDecl depthDecl convDecl type).string =
        convDecl.string ++ HeaderGenerator.converterDeclHeadText g type
          ++ (if (HeaderGenerator.conversionSources g type).isEmpty then ""
              else
                g.INDENT depthDecl ++ "static " ++ type.name ++ " toCpp(PyObject* pyobj);\n"
                  ++ g.INDENT depthDecl ++ "static bool isConvertible(PyObject* pyobj);\n")
          ++ "\x7d;\n" ∧
      ∃ s' : QTextStream,
        g.writeTypeConverterImpl depthImpl convImpl type = some s' ∧
        s'.string =
          convImpl.string
            ++ (if (HeaderGenerator.conversionSources g type).isEmpty then ""
                else HeaderGenerator.isConvertibleText g depthImpl type
                  ++ HeaderGenerator.toCppText g depthImpl type) := by
  constructor
  · rw [HeaderGenerator.writeTypeConverterDecl_eq_write g depthDecl convDecl type hd,
      QTextStream.write_string]
    cases he : (HeaderGenerator.conversionSources g type).isEmpty
    · have hv : type.isValue = true := by
        rcases hvalue with hv | hv
        · exact hv
        · rw [he] at hv
          cases hv
      simp only [hv, Bool.not_false, Bool.and_self, if_true, Bool.false_eq_true, if_false,
        HeaderGenerator.converterMembersText, String.append_assoc]
    · simp only [Bool.not_true, Bool.and_false, Bool.false_eq_true, if_false, if_true,
        String.append_assoc]
  · cases he : (HeaderGenerator.conversionSources g type).isEmpty
    · refine ⟨_, HeaderGenerator.writeTypeConverterImpl_eq_write g depthImpl convImpl type hi
        hrule he hwf, ?_⟩
      simp only [QTextStream.write_string, Bool.false_eq_true, if_false]
    · refine ⟨_, HeaderGenerator.writeTypeConverterImpl_of_no_sources g depthImpl convImpl type
        he, ?_⟩
      simp only [if_true, String.append_empty]

set_option maxRecDepth 100000 in
/-- C30, amended, at the value type `Point` with the converting constructor
`Point(Tuple)`: the members are declared and defined. -/
theorem HeaderGenerator.converter_declaration_matches_definition_witness :
    (Examples.pointGenerator.writeTypeConverterDecl 1 (QTextStream.new "")
        Examples.pointEntry).string
      = "template<>\nstruct Converter<Point > : ConverterBase<Point >\n\x7b\n    static Point toCpp(PyObject* pyobj);\n    static bool isConvertible(PyObject* pyobj);\n\x7d;\n" ∧
    ∃ s' : QTextStream,
      Examples.pointGenerator.writeTypeConverterImpl 1 (QTextStream.new "")
          Examples.pointEntry = some s' ∧
      s'.string =
        HeaderGenerator.isConvertibleText Examples.pointGenerator 1 Examples.pointEntry
          ++ HeaderGenerator.toCppText Examples.pointGenerator 1 Examples.pointEntry := by
  have h := HeaderGenerator.converter_declaration_matches_definition Examples.pointGenerator
    1 1 (QTextStream.new "") (QTextStream.new "") Examples.pointEntry rfl rfl rfl
    (Or.inl rfl) (by decide)
  obtain ⟨h1, s', h2, h3⟩ := h
  exact ⟨h1.trans (by decide), s', h2, h3.trans (by decide)⟩

/-! ## Claims on the suppression switch, the interface names, the primitive lookup and the bounds -/

namespace TypeDatabase

theorem foldl_addSuppressedWarning_suppressWarnings (patterns : List String)
    (db : TypeDatabase) :
    (patterns.foldl addSuppressedWarning db).m_suppressWarnings = db.m_suppressWarnings := by
  induction patterns generalizing db with
  | nil => rfl
  | cons p rest ih => exact (ih (db.addSuppressedWarning p)).trans rfl

theorem findPrimitiveType_loop_of_findType_loop (l : List (Option TypeEntry)) (e : TypeEntry)
    (h : findType.loop l = some e) (hp : e.isPrimitive = true) :
    findPrimitiveType.loop l = some e := by
  induction l with
  | nil => simp [findType.loop] at h
  | cons x rest ih =>
    cases x with
    | none =>
      rw [findType.loop] at h
      rw [findPrimitiveType.loop]
      exact ih h
    | some x =>
      rw [findType.loop] at h
      rw [findPrimitiveType.loop]
      by_cases hx : (!x.isPrimitive || x.preferredTargetLangType) = true
      · rw [if_pos hx] at h
        cases h
        have hpref : e.preferredTargetLangType = true := by
          simpa [hp] using hx
        simp [hp, hpref]
      · rw [if_neg hx] at h
        have hx' : (x.isPrimitive && x.preferredTargetLangType) = false := by
          cases h1 : x.isPrimitive <;> cases h2 : x.preferredTargetLangType <;> simp_all
        simp only [hx', Bool.false_eq_true, if_false]
        exact ih h

theorem findPrimitiveType_loop_preferred (l : List (Option TypeEntry)) (e : TypeEntry)
    (h : findPrimitiveType.loop l = some e) :
    e.isPrimitive = true ∧ e.preferredTargetLangType = true := by
  induction l with
  | nil => simp [findPrimitiveType.loop] at h
  | cons x rest ih =>
    cases x with
    | none =>
      rw [findPrimitiveType.loop] at h
      exact ih h
    | some x =>
      rw [findPrimitiveType.loop] at h
      by_cases hx : (x.isPrimitive && x.preferredTargetLangType) = true
      · rw [if_pos hx] at h
        cases h
        simpa using hx
      · rw [if_neg hx] at h
        exact ih h

end TypeDatabase

/-- C35. When suppression is switched off, no message is suppressed, whatever
patterns are stored and whatever patterns are added afterwards; a message can
only be suppressed when the switch is on, and then the stored patterns decide,
those stored while the switch was off included. -/
theorem TypeDatabase.isSuppressedWarning_switched_off (db : TypeDatabase) (m : String) :
    (db.setSuppressWarnings false).isSuppressedWarning m = false ∧
      (∀ patterns : List String,
        (patterns.foldl TypeDatabase.addSuppressedWarning
          (db.setSuppressWarnings false)).isSuppressedWarning m = false) ∧
      (∀ enabled : Bool,
        (db.setSuppressWarnings enabled).isSuppressedWarning m = true → enabled = true) ∧
      ((db.setSuppressWarnings true).isSuppressedWarning m = true ↔
        ∃ p ∈ db.m_suppressedWarnings,
          TypeDatabase.isSuppressedWarning.iteration m p = true) := by
  refine ⟨rfl, ?_, ?_, ?_⟩
  · intro patterns
    unfold TypeDatabase.isSuppressedWarning
    rw [TypeDatabase.foldl_addSuppressedWarning_suppressWarnings]
    rfl
  · intro enabled h
    cases enabled
    · cases h
    · rfl
  · exact TypeDatabase.isSuppressedWarning_loop_eq_true_iff m db.m_suppressedWarnings

/-- C36. Interface naming round-trips: an interface entry constructed with
`interfaceName(n)` has the qualified C++ name `n`. -/
theorem TypeEntry.qualifiedCppName_interfaceName
    (containerQualifiedCppName : TypeEntryFields → String) (n : String) :
    (InterfaceTypeEntry.new (TypeEntry.interfaceName n)).qualifiedCppName
      containerQualifiedCppName = n := by
  have h9 : ("Interface" : String).length = 9 := by decide
  have h9' : ("" ++ "Interface" : String).length = 9 := by decide
  have hlen : ((n ++ "Interface").length : Int) - (("" ++ "Interface" : String).length : Int)
      = (n.length : Int) := by
    rw [String.length_append, h9, h9']
    push_cast
    omega
  show QString.left (n ++ "Interface")
    (((n ++ "Interface").length : Int) - (("" ++ "Interface" : String).length : Int)) = n
  rw [hlen]
  unfold QString.left
  have h1 : ¬ ((n.length : Int) < 0 ∨ ((n ++ "Interface").length : Int) < (n.length : Int)) := by
    rw [String.length_append, h9]
    push_cast
    omega
  rw [if_neg h1]
  apply String.ext
  show (n ++ "Interface").data.take (n.length : Int).toNat = n.data
  rw [String.data_append, Int.toNat_ofNat]
  exact List.take_left' rfl

/-- C37. If `findType` returns a primitive entry, `findPrimitiveType` returns
that entry; and an entry that `findPrimitiveType` returns is a primitive entry
with `preferredTargetLangType()`. -/
theorem TypeDatabase.findType_findPrimitiveType_agree (db : TypeDatabase) (name : String) :
    (∀ e : TypeEntry, db.findType name = some e → e.isPrimitive = true →
      db.findPrimitiveType name = some e) ∧
    (∀ e : TypeEntry, db.findPrimitiveType name = some e →
      e.isPrimitive = true ∧ e.preferredTargetLangType = true) :=
  ⟨fun e h hp => TypeDatabase.findPrimitiveType_loop_of_findType_loop _ e h hp,
   fun e h => TypeDatabase.findPrimitiveType_loop_preferred _ e h⟩

/-- C38, refuted as stated: a freshly constructed enum entry, which has no
bounds, is bounds-checked, and an enum entry with an upper bound is not. -/
theorem TypeEntry.isBoundsChecked_counterexample :
    (EnumTypeEntry.new "" "E").lowerBound = "" ∧ (EnumTypeEntry.new "" "E").upperBound = "" ∧
      (EnumTypeEntry.new "" "E").isBoundsChecked = true ∧
      ((EnumTypeEntry.new "" "E").setUpperBound "10").isBoundsChecked = false := by
  decide

/-- C38, amended. `isBoundsChecked()` is true exactly when no bound has been
set, i.e. when the lower bound and the upper bound are both empty; a freshly
constructed enum entry is bounds-checked, and it stays so exactly as long as
the bounds that are set are empty. -/
theorem TypeEntry.isBoundsChecked_iff (e : TypeEntry) :
    (e.isBoundsChecked = true ↔ e.lowerBound = "" ∧ e.upperBound = "") ∧
      (∀ nspace enumName : String, (EnumTypeEntry.new nspace enumName).isBoundsChecked = true) ∧
      (∀ bound : String,
        (e.setLowerBound bound).isBoundsChecked = true ↔ bound = "" ∧ e.upperBound = "") ∧
      (∀ bound : String,
        (e.setUpperBound bound).isBoundsChecked = true ↔ e.lowerBound = "" ∧ bound = "") := by
  refine ⟨?_, fun _ _ => rfl, fun bound => ?_, fun bound => ?_⟩ <;>
    simp [TypeEntry.isBoundsChecked, TypeEntry.lowerBound, TypeEntry.upperBound,
      TypeEntry.setLowerBound, TypeEntry.setUpperBound, String.isEmpty_iff]

/-! ## Patterns of asterisks -/

namespace TypeDatabase

open SuppressedWarning

theorem splitAux_star_of_all_star (cs : List Char) (h : ∀ c ∈ cs, c = '*') :
    ∀ part ∈ QString.splitAux ['*'] 0 cs, part = [] := by
  induction cs with
  | nil => simp [QString.splitAux]
  | cons c cs ih =>
    have hc : c = '*' := h c (List.mem_cons_self _ _)
    have hcs : ∀ d ∈ cs, d = '*' := fun d hd => h d (List.mem_cons_of_mem _ hd)
    subst hc
    rw [QString.splitAux_star_cons_star]
    intro part hpart
    rcases List.mem_cons.1 hpart with hp | hp
    · exact hp
    · exact ih hcs part hp

theorem segments_of_all_star (p : String) (h : ∀ c ∈ p.data, c = '*') :
    isSuppressedWarning.segments p = [] := by
  have hnoesc : ¬ "\\*".data <:+: p.data := by
    apply not_infix_of_not_mem
    intro hm
    exact absurd (h _ hm) (by decide)
  rw [segments_eq_of_data, QString.replaceAux_of_not_infix _ _ _ hnoesc]
  have hfilter : (QString.splitAux "*".data 0 p.data).filter (fun l => !l.isEmpty) = [] := by
    rw [List.filter_eq_nil_iff]
    intro part hpart
    rw [splitAux_star_of_all_star p.data h part hpart]
    decide
  rw [hfilter]
  rfl

theorem iteration_of_all_star (m p : String) (h : ∀ c ∈ p.data, c = '*') :
    isSuppressedWarning.iteration m p = false := by
  rw [Bool.eq_false_iff]
  intro ht
  exact ((isSuppressedWarning_iteration_eq_true_iff m p).1 ht).1 (segments_of_all_star p h)

end TypeDatabase

/-! ## Claim on patterns of asterisks -/

/-- C34. A stored pattern that is empty or consists only of asterisks
suppresses no message: a database that stores only such patterns suppresses
nothing, and adding such a pattern to a database does not change which
messages are suppressed. -/
theorem TypeDatabase.isSuppressedWarning_asterisks (p : String)
    (hp : ∀ c ∈ p.data, c = '*') :
    (∀ (db : TypeDatabase) (m : String),
      (∀ q ∈ db.m_suppressedWarnings, ∀ c ∈ q.data, c = '*') →
      db.isSuppressedWarning m = false) ∧
    (∀ (db : TypeDatabase) (m : String),
      (db.addSuppressedWarning p).isSuppressedWarning m = db.isSuppressedWarning m) := by
  constructor
  · intro db m hall
    unfold TypeDatabase.isSuppressedWarning
    cases db.m_suppressWarnings
    · rfl
    · simp only [Bool.not_true, Bool.false_eq_true, if_false]
      rw [Bool.eq_false_iff]
      intro ht
      obtain ⟨q, hq, hit⟩ := (TypeDatabase.isSuppressedWarning_loop_eq_true_iff m _).1 ht
      rw [TypeDatabase.iteration_of_all_star m q (hall q hq)] at hit
      cases hit
  · intro db m
    unfold TypeDatabase.isSuppressedWarning TypeDatabase.addSuppressedWarning
    cases db.m_suppressWarnings
    · rfl
    · simp only [Bool.not_true, Bool.false_eq_true, if_false]
      rw [Bool.eq_iff_iff, TypeDatabase.isSuppressedWarning_loop_eq_true_iff,
        TypeDatabase.isSuppressedWarning_loop_eq_true_iff]
      constructor
      · rintro ⟨q, hq, hit⟩
        rcases List.mem_append.1 hq with hq | hq
        · exact ⟨q, hq, hit⟩
        · rw [List.mem_singleton] at hq
          subst hq
          rw [TypeDatabase.iteration_of_all_star m q hp] at hit
          cases hit
      · rintro ⟨q, hq, hit⟩
        exact ⟨q, List.mem_append_left _ hq, hit⟩

/-- C34 at concrete patterns: with only the empty pattern and `**` stored, the
message `**` is not suppressed; and adding `**` to a database that holds `foo`
leaves `a foo b` suppressed and `bar` not suppressed. -/
theorem TypeDatabase.isSuppressedWarning_asterisks_witness :
    (((SuppressedWarning.singlePattern "").addSuppressedWarning "**").isSuppressedWarning "**"
        = false) ∧
      ((SuppressedWarning.singlePattern "foo").addSuppressedWarning "**").isSuppressedWarning
          "a foo b" = true ∧
      ((SuppressedWarning.singlePattern "foo").addSuppressedWarning "**").isSuppressedWarning
          "bar" = false :=
  ⟨(TypeDatabase.isSuppressedWarning_asterisks "**" (by decide)).1 _ "**" (by decide),
   ((TypeDatabase.isSuppressedWarning_asterisks "**" (by decide)).2 _ "a foo b").trans
      (by decide),
   ((TypeDatabase.isSuppressedWarning_asterisks "**" (by decide)).2 _ "bar").trans
      (by decide)⟩

/-! ## Claim on the empty class list -/

/-- C33. If the class list is empty, `finishGeneration` returns at once: no
type index is assigned, and neither the text of the type indices and macros
nor the text of the class includes is built or written, whatever the global
enums are. -/
theorem HeaderGenerator.finishGeneration_empty_classes (g : HeaderGenerator)
    (h : g.classes = []) :
    HeaderGenerator.finishGeneration.typeIndices g = none ∧
      HeaderGenerator.finishGeneration.pythonTypeStuff g = none ∧
      HeaderGenerator.finishGeneration.classIncludes g = none ∧
      ∀ s : QTextStream, HeaderGenerator.finishGeneration.classIncludeSection g s = none := by
  have h1 : HeaderGenerator.finishGeneration.typeIndices g = none := by
    simp [HeaderGenerator.finishGeneration.typeIndices, h]
  have h2 : HeaderGenerator.finishGeneration.classIncludes g = none := by
    simp [HeaderGenerator.finishGeneration.classIncludes, h]
  refine ⟨h1, ?_, h2, ?_⟩
  · simp [HeaderGenerator.finishGeneration.pythonTypeStuff, h1]
  · intro s
    simp [HeaderGenerator.finishGeneration.classIncludeSection, h2]

/-- C33 at a metamodel without classes and with two global enums. -/
theorem HeaderGenerator.finishGeneration_empty_classes_witness :
    Examples.noClassGenerator.globalEnums.length = 2 ∧
      HeaderGenerator.finishGeneration.typeIndices Examples.noClassGenerator = none ∧
      HeaderGenerator.finishGeneration.pythonTypeStuff Examples.noClassGenerator = none ∧
      HeaderGenerator.finishGeneration.classIncludes Examples.noClassGenerator = none ∧
      ∀ s : QTextStream,
        HeaderGenerator.finishGeneration.classIncludeSection Examples.noClassGenerator s
          = none :=
  ⟨rfl, HeaderGenerator.finishGeneration_empty_classes Examples.noClassGenerator rfl⟩

/-! ## The single entry of a name -/

namespace TypeDatabase

theorem value_foldl_assign {T : Type} [Inhabited T] (f : String → T) (keys : List String)
    (name : String) :
    ∀ returned : QHash T,
      QHash.value (keys.foldl (fun returned key => QHash.assign returned key (f key)) returned)
          name
        = if name ∈ keys then f name else QHash.value returned name := by
  induction keys with
  | nil => intro returned; simp
  | cons key rest ih =>
    intro returned
    rw [List.foldl_cons, ih]
    by_cases hrest : name ∈ rest
    · simp [hrest]
    · by_cases hkey : name = key
      · subst hkey
        simp [hrest, QHash.value_assign_self]
      · simp [hrest, hkey, QHash.value_assign_of_ne _ _ _ _ hkey]

end TypeDatabase

/-! ## Claim on the entries of the database -/

/-- C32, refuted as stated: in the database in which `int` is registered
through `addType` once, as a primitive entry that is not preferred, `entries()`
maps `int` to the not-found value, and the loop of `finishGeneration` over the
values of `entries()` dereferences it. -/
theorem TypeDatabase.entries_counterexample :
    Examples.primitivesDb
        = (((TypeDatabase.empty true).addType Examples.containerName
            Examples.qrealAlias).addType Examples.containerName
            (PrimitiveTypeEntry.new "qreal")).addType Examples.containerName
            ((PrimitiveTypeEntry.new "int").setPreferredTargetLangType false) ∧
      QHash.keys Examples.primitivesDb.allEntries = ["qreal", "int"] ∧
      QHash.keys Examples.primitivesDb.entries = ["qreal", "int"] ∧
      QHash.value Examples.primitivesDb.entries "int" = none ∧
      HeaderGenerator.finishGeneration.userConverters Examples.primitivesDb
        (QTextStream.new "") = none :=
  ⟨rfl, by decide, by decide, rfl, rfl⟩

/-- C32, amended. `entries()` maps every registered name to the result of
`findType` for that name: to the not-found value exactly when every entry
registered under the name is a primitive entry that is not preferred, and
otherwise to the first registered entry that is not such a one. -/
theorem TypeDatabase.entries_eq_findType (db : TypeDatabase) (name : String)
    (h : name ∈ QHash.keys db.allEntries) :
    QHash.value db.entries name = db.findType name ∧
      (QHash.value db.entries name = none ↔
        ∀ e : TypeEntry, some e ∈ db.findTypes name → e.isNonPreferredPrimitive = true) := by
  have h1 : QHash.value db.entries name = db.findType name := by
    unfold TypeDatabase.entries
    simp only []
    rw [TypeDatabase.value_foldl_assign (fun key => db.findType key)]
    rw [if_pos h]
  refine ⟨h1, ?_⟩
  rw [h1]
  exact TypeDatabase.findType_loop_eq_none_iff (db.findTypes name)

/-- C32, amended, at the database of the counterexample: `entries()` maps
`qreal` to the preferred entry and `int` to the not-found value. -/
theorem TypeDatabase.entries_eq_findType_witness :
    QHash.value Examples.primitivesDb.entries "qreal" = some (PrimitiveTypeEntry.new "qreal") ∧
      QHash.value Examples.primitivesDb.entries "int"
        = Examples.primitivesDb.findType "int" :=
  ⟨rfl, (TypeDatabase.entries_eq_findType Examples.primitivesDb "int" (by decide)).1⟩

/-! ## Macros and index lines -/

namespace HeaderGenerator

theorem indexedOfEnum_subset_checkedOfEnum (metaEnum : AbstractMetaEnum) (type : TypeEntry)
    (h : type ∈ indexedOfEnum metaEnum.typeEntry) : type ∈ checkedOfEnum metaEnum := by
  unfold indexedOfEnum at h
  unfold checkedOfEnum
  cases hte : metaEnum.typeEntry with
  | none => simp [hte] at h
  | some enumEntry =>
    simp only [hte] at h
    simp only []
    cases hg : enumEntry.generateCode
    · simp [hg] at h
    · simp only [hg, if_true, List.mem_cons] at h
      rcases h with h | h
      · exact List.mem_cons.2 (Or.inl h)
      · refine List.mem_cons.2 (Or.inr ?_)
        cases hfl : enumEntry.flags with
        | none => simp [hfl] at h
        | some flagsEntry =>
          simp only [hfl] at h
          cases hgf : flagsEntry.generateCode
          · simp [hgf] at h
          · simp only [hgf, if_true, List.mem_singleton] at h
            simp [h]

theorem indexedAndChecked_subset_checkedEntries (g : HeaderGenerator) (type : TypeEntry)
    (h : type ∈ indexedAndChecked g) : type ∈ checkedEntries g := by
  unfold indexedAndChecked at h
  unfold checkedEntries
  rcases List.mem_append.1 h with h | h
  · apply List.mem_append_left
    obtain ⟨metaEnum, hmem, ht⟩ := List.mem_flatMap.1 h
    exact List.mem_flatMap.2 ⟨metaEnum, hmem, indexedOfEnum_subset_checkedOfEnum metaEnum type ht⟩
  · apply List.mem_append_right
    obtain ⟨metaClass, hmem, ht⟩ := List.mem_flatMap.1 h
    refine List.mem_flatMap.2 ⟨metaClass, hmem, ?_⟩
    unfold indexedAndCheckedOfClass at ht
    unfold checkedOfClass
    split at ht
    · rename_i hv
      rw [if_pos hv]
      unfold indexedOfClass at ht
      split at ht
      · rcases List.mem_append.1 ht with ht | ht
        · apply List.mem_append_right
          cases hns : metaClass.isNamespace
          · simp only [hns, Bool.false_eq_true, if_false, List.mem_singleton] at ht
            simp [ht]
          · simp [hns] at ht
        · apply List.mem_append_left
          obtain ⟨metaEnum, hmem', ht'⟩ := List.mem_flatMap.1 ht
          exact List.mem_flatMap.2
            ⟨metaEnum, hmem', indexedOfEnum_subset_checkedOfEnum metaEnum type ht'⟩
      · cases ht
    · cases ht

theorem indexedAndChecked_subset_indexedEntries (g : HeaderGenerator) (type : TypeEntry)
    (h : type ∈ indexedAndChecked g) : type ∈ indexedEntries g := by
  unfold indexedAndChecked at h
  unfold indexedEntries
  rcases List.mem_append.1 h with h | h
  · exact List.mem_append_right _ h
  · apply List.mem_append_left
    obtain ⟨metaClass, hmem, ht⟩ := List.mem_flatMap.1 h
    refine List.mem_flatMap.2 ⟨metaClass, hmem, ?_⟩
    unfold indexedAndCheckedOfClass at ht
    split at ht
    · exact ht
    · cases ht

theorem typeIndexDefineLine_infix (g : HeaderGenerator) (entries : List TypeEntry)
    (type : TypeEntry) (h : type ∈ entries) (first : Nat) :
    ∃ idx, (typeIndexDefineLineText (g.getTypeIndexVariableName type) idx).data
      <:+: (typeIndexDefineLinesText g entries first).data := by
  induction entries generalizing first with
  | nil => cases h
  | cons entry rest ih =>
    rw [typeIndexDefineLinesText, String.data_append]
    rcases List.mem_cons.1 h with h | h
    · subst h
      exact ⟨first, (List.prefix_append _ _).isInfix⟩
    · obtain ⟨idx, hidx⟩ := ih h (first + 1)
      exact ⟨idx, infix_append_of_right _ hidx⟩

theorem pythonTypeStuff_of_typeIndices (g : HeaderGenerator) (s0 : QTextStream) (n : Nat)
    (hs0 : finishGeneration.typeIndices g = some (s0, n)) (hw0 : s0.fieldWidth = 0)
    (hp : enumEntriesPresent g = true) :
    ∃ rest : String, finishGeneration.pythonTypeStuff g = some (s0.string ++ rest) ∧
      ∀ type ∈ checkedEntries g,
        (instanceCheckMacroText g type).data <:+: rest.data ∧
          (exactCheckMacroText g type).data <:+: rest.data := by
  have hw : ∀ (t : QTextStream) (text : String), t.fieldWidth = 0 →
      (t.write text).fieldWidth = 0 := fun _ _ ht => ht
  simp only [enumEntriesPresent, Bool.and_eq_true, List.all_eq_true] at hp
  obtain ⟨hge, hcl⟩ := hp
  unfold finishGeneration.pythonTypeStuff
  rw [hs0]
  simp only [QTextStream.putString_eq_write, QTextStream.endl_eq_write,
    QTextStream.putChar_eq_write, hw, hw0, QTextStream.write_write]
  obtain ⟨r1, hr1, h1⟩ := enumsLoop_writes g g.globalEnums hge (s0.write _) (hw _ _ hw0)
  obtain ⟨r2, hr2, h2⟩ := classesLoop_writes g g.classes hcl r1
    (h1.fieldWidth_eq.trans (hw _ _ hw0))
  rw [hr1]
  simp only []
  rw [hr2]
  obtain ⟨text, htext, hm⟩ := ((WritesMacros.write g s0 _).trans (h1.trans h2)).appended
  refine ⟨text, congrArg some htext, ?_⟩
  intro type hmem
  have hmem' : type ∈ [] ++ (g.globalEnums.flatMap checkedOfEnum
      ++ g.classes.flatMap (checkedOfClass g)) := by simpa [checkedEntries] using hmem
  exact hm type hmem'

theorem pythonTypeStuff_macros_and_lines (g : HeaderGenerator) (h : g.classes ≠ [])
    (ht : typedMetamodel g = true) (hp : enumEntriesPresent g = true) :
    ∃ text : String, finishGeneration.pythonTypeStuff g = some text ∧
      ∀ type ∈ indexedAndChecked g,
        (instanceCheckMacroText g type).data <:+: text.data ∧
          (exactCheckMacroText g type).data <:+: text.data ∧
          ∃ idx, (typeIndexDefineLineText (g.getTypeIndexVariableName type) idx).data
            <:+: text.data := by
  obtain ⟨s0, hs0, hw0, hstr⟩ := typeIndices_of_emits g h (indexedEntries g)
    (typeIndex_loops_emit_indexedEntries g ht _ rfl rfl)
  obtain ⟨rest, hrest, hm⟩ := pythonTypeStuff_of_typeIndices g s0 _ hs0 hw0 hp
  refine ⟨_, hrest, ?_⟩
  intro type hmem
  have hmacros := hm type (indexedAndChecked_subset_checkedEntries g type hmem)
  obtain ⟨idx, hidx⟩ := typeIndexDefineLine_infix g (indexedEntries g) type
    (indexedAndChecked_subset_indexedEntries g type hmem) 0
  rw [String.data_append]
  refine ⟨infix_append_of_right _ hmacros.1, infix_append_of_right _ hmacros.2, idx, ?_⟩
  apply infix_append_of_left
  rw [hstr]
  simp only [String.data_append]
  exact infix_append_of_left _ (infix_append_of_left _ (infix_append_of_right _ hidx))

end HeaderGenerator

/-! ## Claim on the macros and the index lines -/

set_option maxRecDepth 1000000 in
/-- C31, refuted as stated: for the global enum `G` whose entry does not
generate code, `finishGeneration` writes the type-check macros of `G`, which
name the index `SBK_G_IDX`, and no index line for `G`. -/
theorem HeaderGenerator.finishGeneration_macros_index_counterexample :
    (HeaderGenerator.checkedEntries Examples.importedEnumGenerator).map TypeEntry.name
        = ["G", "A"] ∧
      (HeaderGenerator.indexedEntries Examples.importedEnumGenerator).map TypeEntry.name
        = ["A"] ∧
      ∃ text : String,
        HeaderGenerator.finishGeneration.pythonTypeStuff Examples.importedEnumGenerator
          = some text ∧
        HeaderGenerator.occurrences
          "#define G_Check(op) PyObject_TypeCheck(op, (PyTypeObject*)SbkmodTypes[SBK_G_IDX])\n".data
          text.data = 1 ∧
        HeaderGenerator.occurrences "#define SBK_A_IDX ".data text.data = 1 ∧
        HeaderGenerator.occurrences "#define SBK_G_IDX".data text.data = 0 := by
  refine ⟨by decide, by decide,
    "// Type indices\n#define SBK_A_IDX                                                    0\n#define SBK_mod_IDX_COUNT                                            1\n\n// This variable stores all python types exported by this module\nextern PyTypeObject** SbkmodTypes;\n\n// Useful macros\n#define G_Check(op) PyObject_TypeCheck(op, (PyTypeObject*)SbkmodTypes[SBK_G_IDX])\n#define G_CheckExact(op) ((op)->ob_type == (PyTypeObject*)SbkmodTypes[SBK_G_IDX])\n\n#define A_Check(op) PyObject_TypeCheck(op, (PyTypeObject*)SbkmodTypes[SBK_A_IDX])\n#define A_CheckExact(op) ((op)->ob_type == (PyTypeObject*)SbkmodTypes[SBK_A_IDX])\n",
    by decide, by decide, by decide, by decide⟩

/-- C31, amended. In a metamodel with the static types of the source, a
non-empty class list and entries for the enums, `finishGeneration` emits both
the type-check macros and a type-index define line for every entry that the
index assignment and the macro loops both reach: the entry of a global enum
with `generateCode()`, followed by its flags entry when that has
`generateCode()` too; and, for a class that the macro loop visits and whose
entry has `generateCode()`, the own entry unless the class is a namespace, and
the entries of its enums in the same way. -/
theorem HeaderGenerator.finishGeneration_macros_index (g : HeaderGenerator)
    (h : g.classes ≠ []) (ht : HeaderGenerator.typedMetamodel g = true)
    (hp : HeaderGenerator.enumEntriesPresent g = true) :
    ∃ text : String,
      HeaderGenerator.finishGeneration.pythonTypeStuff g = some text ∧
      ∀ type ∈ HeaderGenerator.indexedAndChecked g,
        (HeaderGenerator.instanceCheckMacroText g type).data <:+: text.data ∧
          (HeaderGenerator.exactCheckMacroText g type).data <:+: text.data ∧
          ∃ idx : Nat,
            (HeaderGenerator.typeIndexDefineLineText (g.getTypeIndexVariableName type)
              idx).data <:+: text.data :=
  HeaderGenerator.pythonTypeStuff_macros_and_lines g h ht hp

/-- C31, amended, at the metamodel of the class `A` with the enum `A::E` and
its flags entry `Es`, and the global enum `G`: all four entries have the macros
and an index line. -/
theorem HeaderGenerator.finishGeneration_macros_index_witness :
    (HeaderGenerator.indexedAndChecked Examples.generator).map TypeEntry.name
        = ["G", "A", "A::E", "Es"] ∧
      ∃ text : String,
        HeaderGenerator.finishGeneration.pythonTypeStuff Examples.generator = some text ∧
        ∀ type ∈ HeaderGenerator.indexedAndChecked Examples.generator,
          (HeaderGenerator.instanceCheckMacroText Examples.generator type).data
              <:+: text.data ∧
            (HeaderGenerator.exactCheckMacroText Examples.generator type).data
              <:+: text.data ∧
            ∃ idx : Nat,
              (HeaderGenerator.typeIndexDefineLineText
                (Examples.generator.getTypeIndexVariableName type) idx).data
                <:+: text.data :=
  ⟨by decide,
   HeaderGenerator.finishGeneration_macros_index Examples.generator (List.cons_ne_nil _ _)
    (by decide) (by decide)⟩
